import Mathlib

/-!
# OpenPointClass: voxel downsampling and per-point descriptors (scale.cpp)

A shallow embedding of `scale.cpp`: the constructor of `Scale`,
`updateScaleCoordinates`, `init`, `build`, `computeScaledSet`,
`computeCovariance`, `computeMedoid`, `computeCentroid` and `computeScales`.

Modelling conventions.
* A coordinate stored in a point set (`std::array<float, 3>`) is a finite
  `float`, written as the rational it denotes. The constants `FLT_MAX`,
  `FLT_MIN` and `DBL_MAX` are the rationals they denote.
* A value computed in `float` or `double` is an `FVal`: a finite rational, one
  of the two infinities, or not-a-number. Every arithmetic operation of the
  source is one operation of IEEE 754 binary32 or binary64, whichever type the
  C++ expression has, rounded to nearest with ties to even (`rnd32`, `rnd64`),
  with overflow to an infinity, gradual underflow, and the IEEE rules for
  infinities and not-a-number; a comparison with not-a-number is false. The two
  zeros are one value. `float` expressions are evaluated in `float` and
  `double` expressions in `double`, without fused multiply-add;
  `std::pow<double>(x, 2)` is the product `x * x` rounded to `double`.
* `static_cast<ssize_t>` of a `double` is truncation toward zero when the
  result fits into 64 bits; for any other operand (C++ leaves the conversion
  undefined) it is `-2^63`, the result of the x86-64 conversion instruction.
* `std::vector` is `List`; `v[i]` is `List.getD` (every index the code uses is
  shown to be in range), except `pSet->points[0]` at the top of
  `computeScaledSet`, whose failure on an empty set is the `none` result.
* `std::map<std::tuple<ssize_t, ssize_t, ssize_t>, std::vector<size_t>>` is an
  association list kept in strictly ascending `std::tuple` order.
* The spatial index, the eigen solver and the colour conversion are libraries
  outside `scale.cpp`: the k-nearest-neighbour query, the radius query, the
  solver and the conversion are parameters (`Externals`). The product
  `A * A.transpose()` adds the products of one entry column by column.
* `computeCentroid` is also given in exact rational arithmetic
  (`computeCentroid`, next to `computeCentroidFloat`), for the comparison of
  the running mean with the arithmetic mean.
* The `omp` loops run their iterations in index order; output to the console
  is not part of the state.
-/

namespace OpenPointClass

/-! ## Data model -/

/-- A coordinate triple, `std::array<float, 3>`. -/
abbrev Point := ℚ × ℚ × ℚ

/-- An RGB triple, `std::array<uint8_t, 3>`. -/
abbrev Color := Nat × Nat × Nat

/-- The key of a voxel, `std::tuple<ssize_t, ssize_t, ssize_t>`. -/
abbrev VoxelKey := Int × Int × Int

/-- The value of `std::numeric_limits<float>::max()`. -/
def FLT_MAX : ℚ := 2 ^ 128 - 2 ^ 104

/-- The value of `std::numeric_limits<float>::min()`: the smallest positive normal float. -/
def FLT_MIN : ℚ := 1 / 2 ^ 126

/-- The value of `std::numeric_limits<double>::max()`. -/
def DBL_MAX : ℚ := 2 ^ 1024 - 2 ^ 971

/-- The point container. `pointMap` is the log of the `trackPoint` calls made on
this set, oldest first: `(original index, index in this set)`. -/
structure PointSet where
  points : List Point
  colors : List Color
  pointMap : List (Nat × Nat)
deriving DecidableEq

/-- The set made by `new PointSet()`. -/
def PointSet.empty : PointSet := ⟨[], [], []⟩

/-- The value of `points.size()`. -/
def PointSet.count (s : PointSet) : Nat := s.points.length

/-- The value of `points[i]`. -/
def PointSet.pointAt (s : PointSet) (i : Nat) : Point := s.points.getD i (0, 0, 0)

/-- The value of `colors[i]`. -/
def PointSet.colorAt (s : PointSet) (i : Nat) : Color := s.colors.getD i (0, 0, 0)

/-- Modelled from the spec: `PointSet::appendPoint` (point_io, not part of the
sources at hand), "append a point by copying from a source set": the point at
`idx` of `src` is pushed onto `points` and its colour onto `colors`. -/
def PointSet.appendPoint (dst src : PointSet) (idx : Nat) : PointSet :=
  { dst with points := dst.points ++ [src.pointAt idx],
             colors := dst.colors ++ [src.colorAt idx] }

/-- Modelled from the spec: `PointSet::trackPoint` (point_io, not part of the
sources at hand), "every original index in a group is recorded against the
chosen representative's new index": called right after `appendPoint`, it
records `idx` against the index of the last point of this set. -/
def PointSet.trackPoint (dst _src : PointSet) (idx : Nat) : PointSet :=
  { dst with pointMap := dst.pointMap ++ [(idx, dst.points.length - 1)] }

/-- One pyramid level: the members of `Scale` that the downsampler reads and writes. -/
structure Scale where
  id : Nat
  pSet : PointSet
  scaledSet : PointSet
  resolution : ℚ
  kNeighbors : Nat
  radius : ℚ
deriving DecidableEq

/-! ## IEEE 754 arithmetic -/

/-- A value of type `float` or `double`: a finite number, an infinity, or
not-a-number. The two zeros are one value. -/
inductive FVal where
  | fin (q : ℚ)
  | posInf
  | negInf
  | nan
deriving DecidableEq

instance (n : Nat) : OfNat FVal n := ⟨FVal.fin (n : ℚ)⟩

/-- A triple of `float` or `double` values. -/
abbrev FPoint := FVal × FVal × FVal

/-- The power `2^k` for an integer `k`. -/
def twoPow (k : Int) : ℚ :=
  if 0 ≤ k then (2 : ℚ) ^ k.toNat else 1 / (2 : ℚ) ^ (-k).toNat

/-- The number of binary digits of `n`, by halving at most `fuel` times. -/
def bitLength : Nat → Nat → Nat
  | 0, _ => 0
  | fuel + 1, n => if n = 0 then 0 else bitLength fuel (n / 2) + 1

/-- The integer `e` with `2^e <= a < 2^(e+1)`, for `a > 0`. -/
def binade (a : ℚ) : Int :=
  let e0 : Int := (bitLength a.num.natAbs a.num.natAbs : Int) - (bitLength a.den a.den : Int)
  if twoPow e0 ≤ a then e0 else e0 - 1

/-- The integer nearest to `m >= 0`, a tie going to the even one. -/
def roundEven (m : ℚ) : Int :=
  let f := Rat.floor m
  let r := m - (f : ℚ)
  if r < 1 / 2 then f
  else if 1 / 2 < r then f + 1
  else if f % 2 = 0 then f else f + 1

/-- Rounding to nearest, ties to even, into the binary format with `p`
significand bits and exponents `emin .. emax`: below `2^emin` the spacing is
that of the exponent `emin` (gradual underflow); a result beyond the largest
finite number of the format is an infinity. -/
def roundTo (p : Nat) (emin emax : Int) (q : ℚ) : FVal :=
  if q = 0 then FVal.fin 0
  else
    let a := |q|
    let e := max (binade a) emin
    let ulp := twoPow (e - ((p : Int) - 1))
    let r := (roundEven (a / ulp) : ℚ) * ulp
    if twoPow (emax + 1) ≤ r then (if 0 < q then FVal.posInf else FVal.negInf)
    else FVal.fin (if 0 < q then r else -r)

/-- Rounding to `float` (binary32). -/
def rnd32 (q : ℚ) : FVal := roundTo 24 (-126) 127 q

/-- Rounding to `double` (binary64). -/
def rnd64 (q : ℚ) : FVal := roundTo 53 (-1022) 1023 q

/-- The negation `-a`. -/
def FVal.neg : FVal → FVal
  | FVal.fin a => FVal.fin (-a)
  | FVal.posInf => FVal.negInf
  | FVal.negInf => FVal.posInf
  | FVal.nan => FVal.nan

instance : Neg FVal := ⟨FVal.neg⟩

/-- The sum `a + b`, the exact sum of two finite operands rounded by `r`. -/
def FVal.add (r : ℚ → FVal) : FVal → FVal → FVal
  | FVal.fin a, FVal.fin b => r (a + b)
  | FVal.nan, _ => FVal.nan
  | _, FVal.nan => FVal.nan
  | FVal.posInf, FVal.negInf => FVal.nan
  | FVal.negInf, FVal.posInf => FVal.nan
  | FVal.posInf, _ => FVal.posInf
  | _, FVal.posInf => FVal.posInf
  | FVal.negInf, _ => FVal.negInf
  | _, FVal.negInf => FVal.negInf

/-- The difference `a - b`, rounded by `r`. -/
def FVal.sub (r : ℚ → FVal) (a b : FVal) : FVal := FVal.add r a (FVal.neg b)

/-- The product `a * b`, the exact product of two finite operands rounded by `r`. -/
def FVal.mul (r : ℚ → FVal) : FVal → FVal → FVal
  | FVal.fin a, FVal.fin b => r (a * b)
  | FVal.nan, _ => FVal.nan
  | _, FVal.nan => FVal.nan
  | FVal.fin a, FVal.posInf =>
      if a = 0 then FVal.nan else if 0 < a then FVal.posInf else FVal.negInf
  | FVal.fin a, FVal.negInf =>
      if a = 0 then FVal.nan else if 0 < a then FVal.negInf else FVal.posInf
  | FVal.posInf, FVal.fin b =>
      if b = 0 then FVal.nan else if 0 < b then FVal.posInf else FVal.negInf
  | FVal.negInf, FVal.fin b =>
      if b = 0 then FVal.nan else if 0 < b then FVal.negInf else FVal.posInf
  | FVal.posInf, FVal.posInf => FVal.posInf
  | FVal.negInf, FVal.negInf => FVal.posInf
  | FVal.posInf, FVal.negInf => FVal.negInf
  | FVal.negInf, FVal.posInf => FVal.negInf

/-- The quotient `a / b`, the exact quotient of two finite operands rounded by
`r`; a zero divisor counts as `+0`. -/
def FVal.div (r : ℚ → FVal) : FVal → FVal → FVal
  | FVal.fin a, FVal.fin b =>
      if b = 0 then
        (if a = 0 then FVal.nan else if 0 < a then FVal.posInf else FVal.negInf)
      else r (a / b)
  | FVal.nan, _ => FVal.nan
  | _, FVal.nan => FVal.nan
  | FVal.fin _, FVal.posInf => FVal.fin 0
  | FVal.fin _, FVal.negInf => FVal.fin 0
  | FVal.posInf, FVal.fin b => if 0 ≤ b then FVal.posInf else FVal.negInf
  | FVal.negInf, FVal.fin b => if 0 ≤ b then FVal.negInf else FVal.posInf
  | FVal.posInf, FVal.posInf => FVal.nan
  | FVal.posInf, FVal.negInf => FVal.nan
  | FVal.negInf, FVal.posInf => FVal.nan
  | FVal.negInf, FVal.negInf => FVal.nan

/-- The comparison `a < b`; false when either side is not a number. -/
def FVal.lt : FVal → FVal → Bool
  | FVal.fin a, FVal.fin b => decide (a < b)
  | FVal.negInf, FVal.fin _ => true
  | FVal.negInf, FVal.posInf => true
  | FVal.fin _, FVal.posInf => true
  | _, _ => false

/-- The conversion of a `double` to `float`. -/
def FVal.toFloat : FVal → FVal
  | FVal.fin q => rnd32 q
  | v => v

/-- The sum of two `float` operands. -/
def add32 (a b : FVal) : FVal := FVal.add rnd32 a b

/-- The difference of two `float` operands. -/
def sub32 (a b : FVal) : FVal := FVal.sub rnd32 a b

/-- The product of two `float` operands. -/
def mul32 (a b : FVal) : FVal := FVal.mul rnd32 a b

/-- The quotient of two `float` operands. -/
def div32 (a b : FVal) : FVal := FVal.div rnd32 a b

/-- The sum of two `double` operands. -/
def add64 (a b : FVal) : FVal := FVal.add rnd64 a b

/-- The difference of two `double` operands. -/
def sub64 (a b : FVal) : FVal := FVal.sub rnd64 a b

/-- The product of two `double` operands. -/
def mul64 (a b : FVal) : FVal := FVal.mul rnd64 a b

/-- The quotient of two `double` operands. -/
def div64 (a b : FVal) : FVal := FVal.div rnd64 a b

/-- The call `std::pow<double>(x, 2)`: the square, rounded to `double`. -/
def sq64 (x : FVal) : FVal := mul64 x x

/-- The conversion `static_cast<ssize_t>(d)` of a `double`: truncation toward
zero when the result fits into 64 bits, and `-2^63` otherwise. -/
def toSsize : FVal → Int
  | FVal.fin q =>
      let t := Int.tdiv q.num (q.den : Int)
      if -2 ^ 63 ≤ t ∧ t < 2 ^ 63 then t else -2 ^ 63
  | _ => -2 ^ 63

/-- The conversion of an `ssize_t` to `double`. -/
def ofSsize (k : Int) : FVal := rnd64 (k : ℚ)

/-- The conversion of a `size_t` to `float`. -/
def floatOfSize (n : Nat) : FVal := rnd32 (n : ℚ)

/-- The conversion of a `size_t` to `double`. -/
def doubleOfSize (n : Nat) : FVal := rnd64 (n : ℚ)

/-- The coordinates of a stored point as operands: finite values. The
conversion of a `float` to `double` changes no value. -/
def promote (p : Point) : FPoint := (FVal.fin p.1, FVal.fin p.2.1, FVal.fin p.2.2)

/-- A rational that is the value of a `float`. -/
def IsFloat (q : ℚ) : Prop := rnd32 q = FVal.fin q

/-- A rational that is the value of a `double`. -/
def IsDouble (q : ℚ) : Prop := rnd64 q = FVal.fin q

instance (q : ℚ) : Decidable (IsFloat q) := by unfold IsFloat; infer_instance

instance (q : ℚ) : Decidable (IsDouble q) := by unfold IsDouble; infer_instance

/-- A point whose three coordinates are values of `float`. -/
def IsFloatPoint (p : Point) : Prop := IsFloat p.1 ∧ IsFloat p.2.1 ∧ IsFloat p.2.2

instance (p : Point) : Decidable (IsFloatPoint p) := by unfold IsFloatPoint; infer_instance

/-- A value that is a number and not negative: a finite value `>= 0`, or `+inf`. -/
def FVal.IsNonneg : FVal → Prop
  | FVal.fin q => 0 ≤ q
  | FVal.posInf => True
  | _ => False

/-- A value that is not below zero: a non-negative number, or not-a-number. -/
def FVal.NotNeg : FVal → Prop
  | FVal.fin q => 0 ≤ q
  | FVal.negInf => False
  | _ => True

/-- A finite value. -/
def FVal.IsFinite : FVal → Prop
  | FVal.fin _ => True
  | _ => False

instance (v : FVal) : Decidable v.IsNonneg := by
  cases v <;> unfold FVal.IsNonneg <;> infer_instance

instance (v : FVal) : Decidable v.IsFinite := by
  cases v <;> unfold FVal.IsFinite <;> infer_instance

/-! ## Voxel keys and the ordered map -/

/-- The key built at scale.cpp:156-160 from the coordinates `p` of a point, the
origin `(x0, y0, z0)` and the resolution, all `double` operands. The first
component divides the x offset from `y0`, the second the y offset from `x0`, as
the source does. -/
def voxelKey (x0 y0 z0 resolution : FVal) (p : FPoint) : VoxelKey :=
  (toSsize (div64 (sub64 p.1 y0) resolution),
   toSsize (div64 (sub64 p.2.1 x0) resolution),
   toSsize (div64 (sub64 p.2.2 z0) resolution))

/-- Truncation toward zero as the spec words it: a non-negative quotient is
rounded down, a negative quotient is rounded up. The code's conversion is
`toSsize`; the two are compared in the theorems. -/
def truncTowardZero (q : ℚ) : Int := if 0 ≤ q then ⌊q⌋ else ⌈q⌉

/-- The quotient `(a - b) / r` of scale.cpp:157-159 as the code computes it:
a difference and a quotient in `double`. -/
def quotient64 (a b r : ℚ) : FVal := div64 (sub64 (FVal.fin a) (FVal.fin b)) (FVal.fin r)

/-- The order `operator<` of `std::tuple`: lexicographic, first component most significant. -/
def keyLt (a b : VoxelKey) : Prop :=
  a.1 < b.1 ∨ (a.1 = b.1 ∧ (a.2.1 < b.2.1 ∨ (a.2.1 = b.2.1 ∧ a.2.2 < b.2.2)))

instance (a b : VoxelKey) : Decidable (keyLt a b) := by
  unfold keyLt; infer_instance

/-- The statement `m[key].push_back(id)` on the ordered map. -/
def mapPushBack (key : VoxelKey) (id : Nat) :
    List (VoxelKey × List Nat) → List (VoxelKey × List Nat)
  | [] => [(key, [id])]
  | (k, ids) :: rest =>
      if key = k then (k, ids ++ [id]) :: rest
      else if keyLt key k then (key, [id]) :: (k, ids) :: rest
      else (k, ids) :: mapPushBack key id rest

/-- The first pass, scale.cpp:153-161: the map `populated_voxel_ids` after the loop. -/
def populated_voxel_ids (pSet : PointSet) (x0 y0 z0 resolution : FVal) :
    List (VoxelKey × List Nat) :=
  (List.range pSet.count).foldl
    (fun m id => mapPushBack (voxelKey x0 y0 z0 resolution (promote (pSet.pointAt id))) id m) []

/-! ## Representative selection -/

/-- The squared Euclidean distance of two triples, in exact arithmetic. -/
def sqrDist (c p : Point) : ℚ :=
  (c.1 - p.1) ^ 2 + (c.2.1 - p.2.1) ^ 2 + (c.2.2 - p.2.2) ^ 2

/-- The sum `std::pow<double>(c[0] - p[0], 2) + std::pow<double>(c[1] - p[1], 2) +
std::pow<double>(c[2] - p[2], 2)` of scale.cpp:187 and 192, where `c` holds
`double` values: the differences are taken in `double`. -/
def sqrDistDouble (c : FPoint) (p : Point) : FVal :=
  add64 (add64 (sq64 (sub64 c.1 (FVal.fin p.1))) (sq64 (sub64 c.2.1 (FVal.fin p.2.1))))
    (sq64 (sub64 c.2.2 (FVal.fin p.2.2)))

/-- The same sum at scale.cpp:215-217 and 267-269, where `c` holds `float`
values: the differences are taken in `float`, the squares and the sums in
`double`. -/
def sqrDistFloat (c : FPoint) (p : Point) : FVal :=
  add64 (add64 (sq64 (sub32 c.1 (FVal.fin p.1))) (sq64 (sub32 c.2.1 (FVal.fin p.2.1))))
    (sq64 (sub32 c.2.2 (FVal.fin p.2.2)))

/-- The point `(x_center, y_center, z_center)` of scale.cpp:179-181:
`y_center` comes from key component 0 and `x_center` from key component 1. -/
def voxelCenter (x0 y0 z0 resolution : FVal) (key : VoxelKey) : FPoint :=
  (add64 x0 (mul64 (add64 (ofSsize key.2.1) (FVal.fin (1 / 2))) resolution),
   add64 y0 (mul64 (add64 (ofSsize key.1) (FVal.fin (1 / 2))) resolution),
   add64 z0 (mul64 (add64 (ofSsize key.2.2) (FVal.fin (1 / 2))) resolution))

/-- The lambda `update` of `computeCentroid`, scale.cpp:291-295, with the
captured counter `n`: three `float` operations. -/
def centroidUpdateFloat (n : Nat) (value average : FVal) : FVal :=
  let delta := sub32 value average
  let delta_n := div32 delta (floatOfSize n)
  add32 average delta_n

/-- One iteration of the loop of `computeCentroid`, scale.cpp:290-300, on the
state `(n, (mx, my, mz))`. -/
def centroidStepFloat (pSet : PointSet) (st : Nat × FPoint) (j : Nat) : Nat × FPoint :=
  let n := st.1 + 1
  let p := pSet.pointAt j
  (n, (centroidUpdateFloat n (FVal.fin p.1) st.2.1,
       centroidUpdateFloat n (FVal.fin p.2.1) st.2.2.1,
       centroidUpdateFloat n (FVal.fin p.2.2) st.2.2.2))

/-- The function `Scale::computeCentroid`, scale.cpp:286-306, as the machine
runs it: the running mean in `float`. -/
def computeCentroidFloat (pSet : PointSet) (pointIds : List Nat) : FPoint :=
  (pointIds.foldl (centroidStepFloat pSet) (0, (0, 0, 0))).2

/-- One iteration of the scan at scale.cpp:214-222 on the state `(pmin, dmin)`. -/
def closestStep (pSet : PointSet) (centroid : FPoint) (st : Nat × FVal) (p : Nat) :
    Nat × FVal :=
  let sqr_dist := sqrDistFloat centroid (pSet.pointAt p)
  if FVal.lt sqr_dist st.2 then (p, sqr_dist) else st

/-- The value of `pmin` after the scan at scale.cpp:212-222. -/
def closestToCentroid (pSet : PointSet) (centroid : FPoint) (ids : List Nat) : Nat :=
  (ids.foldl (closestStep pSet centroid) (0, FVal.fin DBL_MAX)).1

/-- The body of the second pass, scale.cpp:168-232, for one map entry `t`. -/
def processVoxel (pSet : PointSet) (trackPoints : Bool) (x0 y0 z0 resolution : FVal)
    (scaledSet : PointSet) (t : VoxelKey × List Nat) : PointSet :=
  match t.2 with
  | [a] =>
      let out := scaledSet.appendPoint pSet a
      if trackPoints then out.trackPoint pSet a else out
  | [a, b] =>
      let center := voxelCenter x0 y0 z0 resolution t.1
      let d1 := sqrDistDouble center (pSet.pointAt a)
      let d2 := sqrDistDouble center (pSet.pointAt b)
      let out :=
        if FVal.lt d1 d2 then scaledSet.appendPoint pSet a else scaledSet.appendPoint pSet b
      if trackPoints then (out.trackPoint pSet a).trackPoint pSet b else out
  | ids =>
      let centroid := computeCentroidFloat pSet ids
      let pmin := closestToCentroid pSet centroid ids
      let out := scaledSet.appendPoint pSet pmin
      if trackPoints then ids.foldl (fun o p => o.trackPoint pSet p) out else out

/-- The function `Scale::computeScaledSet`, scale.cpp:139-236. The result is
`none` when `pSet->points[0]` is read from an empty `pSet`. The spatial index
built for `id > 0` holds no data of its own and is not part of the state. -/
def computeScaledSet (s : Scale) : Option Scale :=
  if s.scaledSet.points.isEmpty then
    match s.pSet.points with
    | [] => none
    | p0 :: _ =>
      let trackPoints := s.id == 0
      let x0 := FVal.fin p0.1
      let y0 := FVal.fin p0.2.1
      let z0 := FVal.fin p0.2.2
      let voxels := populated_voxel_ids s.pSet x0 y0 z0 (FVal.fin s.resolution)
      let cleared : PointSet := { s.scaledSet with points := [], colors := [] }
      some { s with scaledSet :=
        voxels.foldl (processVoxel s.pSet trackPoints x0 y0 z0 (FVal.fin s.resolution)) cleared }
  else some s

/-! ## Parts of `Scale::build` -/

/-- The call `std::max(a, 0.0)`, which is `(a < 0.0) ? 0.0 : a`. -/
def maxZero (a : FVal) : FVal := if FVal.lt a 0 then 0 else a

/-- The loop at scale.cpp:66: `ev[i] = std::max(ev[i], 0.0)`. -/
def clampEigenvalues (ev : FPoint) : FPoint :=
  (maxZero ev.1, maxZero ev.2.1, maxZero ev.2.2)

/-- The value of `sum` at scale.cpp:68, from the solver eigenvalues `ev`. -/
def eigenvalueSum (ev : FPoint) : FVal :=
  let c := clampEigenvalues ev
  add64 (add64 c.1 c.2.1) c.2.2

/-- The value stored in `eigenValues[idx]`, scale.cpp:66-69, from the solver
eigenvalues `ev`: the clamped values divided by their sum in `double`, then
converted to `float`. -/
def normalizedEigenvalues (ev : FPoint) : FPoint :=
  let c := clampEigenvalues ev
  let sum := eigenvalueSum ev
  ((div64 c.1 sum).toFloat, (div64 c.2.1 sum).toFloat, (div64 c.2.2 sum).toFloat)

/-- One iteration of the neighbour loop, scale.cpp:107-108, on `(heightMin, heightMax)`. -/
def heightStep (scaledSet : PointSet) (h : ℚ × ℚ) (i : Nat) : ℚ × ℚ :=
  let pz := (scaledSet.pointAt i).2.2
  let hmax := if pz > h.2 then pz else h.2
  let hmin := if pz < h.1 then pz else h.1
  (hmin, hmax)

/-- The pair `(heightMin[idx], heightMax[idx])` after scale.cpp:92-109. -/
def heightRange (scaledSet : PointSet) (neighborIds : List Nat) : ℚ × ℚ :=
  neighborIds.foldl (heightStep scaledSet) (FLT_MAX, FLT_MIN)

/-! ## Helper definitions for the statements -/

/-- The index handed to `appendPoint` for the map entry `t`
(scale.cpp:171, 195-196 and 224). -/
def representative (pSet : PointSet) (x0 y0 z0 resolution : FVal)
    (t : VoxelKey × List Nat) : Nat :=
  match t.2 with
  | [a] => a
  | [a, b] =>
      let center := voxelCenter x0 y0 z0 resolution t.1
      if FVal.lt (sqrDistDouble center (pSet.pointAt a)) (sqrDistDouble center (pSet.pointAt b))
      then a else b
  | ids => closestToCentroid pSet (computeCentroidFloat pSet ids) ids

/-- The `trackPoint` records written while the entries `m` are processed, when
the output set holds `base` points before the first of them. -/
def trackLog : Nat → List (VoxelKey × List Nat) → List (Nat × Nat)
  | _, [] => []
  | base, t :: rest => t.2.map (fun i => (i, base)) ++ trackLog (base + 1) rest

/-- All point ids held by the map, entry after entry. -/
def allIds : List (VoxelKey × List Nat) → List Nat
  | [] => []
  | t :: rest => t.2 ++ allIds rest

/-- The origin `(x0, y0, z0)` read at scale.cpp:145-147. -/
def Scale.origin (s : Scale) : Point := s.pSet.pointAt 0

/-- The voxel key of a coordinate triple under the origin and resolution of the level `s`. -/
def Scale.keyOf (s : Scale) (p : FPoint) : VoxelKey :=
  voxelKey (FVal.fin s.origin.1) (FVal.fin s.origin.2.1) (FVal.fin s.origin.2.2)
    (FVal.fin s.resolution) p

/-- The voxel key of a stored point under the origin and resolution of the level `s`. -/
def Scale.pointKey (s : Scale) (p : Point) : VoxelKey := s.keyOf (promote p)

/-- The map `populated_voxel_ids` that `computeScaledSet` builds for the level `s`. -/
def Scale.voxels (s : Scale) : List (VoxelKey × List Nat) :=
  populated_voxel_ids s.pSet (FVal.fin s.origin.1) (FVal.fin s.origin.2.1)
    (FVal.fin s.origin.2.2) (FVal.fin s.resolution)

/-- The voxel centre that the size-2 branch computes from the key, for the level `s`. -/
def Scale.centerOf (s : Scale) (key : VoxelKey) : FPoint :=
  voxelCenter (FVal.fin s.origin.1) (FVal.fin s.origin.2.1) (FVal.fin s.origin.2.2)
    (FVal.fin s.resolution) key

/-- The source index that `computeScaledSet` appends for the map entry `t` of the level `s`. -/
def Scale.repOf (s : Scale) (t : VoxelKey × List Nat) : Nat :=
  representative s.pSet (FVal.fin s.origin.1) (FVal.fin s.origin.2.1) (FVal.fin s.origin.2.2)
    (FVal.fin s.resolution) t

/-- A map in strictly ascending key order. -/
def KeysAscending (m : List (VoxelKey × List Nat)) : Prop :=
  m.Pairwise (fun a b => keyLt a.1 b.1)

/-- The scan at scale.cpp:214-222 finds a member in the id list `ids`: some
listed point has a computed squared distance to the computed centroid below
`DBL_MAX`, the start value of `dmin`. It does so for every non-empty list when
all coordinates of the cloud are in range (`scanFinds_of_inRange`). -/
def ScanFinds (pSet : PointSet) (ids : List Nat) : Prop :=
  ∃ p ∈ ids,
    FVal.lt (sqrDistFloat (computeCentroidFloat pSet ids) (pSet.pointAt p)) (FVal.fin DBL_MAX)
      = true

instance (pSet : PointSet) (ids : List Nat) : Decidable (ScanFinds pSet ids) := by
  unfold ScanFinds; infer_instance

/-- Every map entry of the level `s` with three or more ids either holds the
id 0, the start value of `pmin`, or is one in which the scan finds a member.
This is so whenever all coordinates of the cloud are in range
(`keepsMembers_of_inRange`). -/
def Scale.KeepsMembers (s : Scale) : Prop :=
  ∀ t ∈ s.voxels, 3 ≤ t.2.length → 0 ∈ t.2 ∨ ScanFinds s.pSet t.2

instance (s : Scale) : Decidable s.KeepsMembers := by
  unfold Scale.KeepsMembers; infer_instance

/-- A point in range: its coordinates have magnitude at most `2^125`, so that
no running mean and no squared distance of such points overflows. -/
def InRange (p : Point) : Prop := |p.1| ≤ 2 ^ 125 ∧ |p.2.1| ≤ 2 ^ 125 ∧ |p.2.2| ≤ 2 ^ 125

instance (p : Point) : Decidable (InRange p) := by unfold InRange; infer_instance

/-! ## Medoid and covariance -/

/-- The value of `sum` after the inner loop of `computeMedoid`, scale.cpp:261-270,
for the neighbour `i`: `sum` is a `float`, so each `sum += ...` adds in
`double` and converts the result to `float`. -/
def medoidSum (scaledSet : PointSet) (neighborIds : List Nat) (i : Nat) : FVal :=
  neighborIds.foldl
    (fun sum j =>
      (add64 sum (sqrDistFloat (promote (scaledSet.pointAt i)) (scaledSet.pointAt j))).toFloat)
    0

/-- One iteration of the outer loop of `computeMedoid` on the state
`((mx, my, mz), minDist)`. -/
def medoidStep (scaledSet : PointSet) (neighborIds : List Nat) (st : Point × FVal) (i : Nat) :
    Point × FVal :=
  let sum := medoidSum scaledSet neighborIds i
  if FVal.lt sum st.2 then (scaledSet.pointAt i, sum) else st

/-- The function `Scale::computeMedoid`, scale.cpp:256-284. -/
def computeMedoid (scaledSet : PointSet) (neighborIds : List Nat) : Point :=
  (neighborIds.foldl (medoidStep scaledSet neighborIds) ((0, 0, 0), FVal.fin FLT_MAX)).1

/-- A 3 by 3 matrix of `float` or `double` values, row by row. -/
abbrev Mat3 := FPoint × FPoint × FPoint

/-- The coordinate `p[r]` of a triple. -/
def coord (r : Nat) (p : FPoint) : FVal :=
  match r with
  | 0 => p.1
  | 1 => p.2.1
  | _ => p.2.2

/-- The entry `C(r, c)` of a 3 by 3 matrix. -/
def Mat3.entry (C : Mat3) (r c : Nat) : FVal :=
  match r with
  | 0 => coord c C.1
  | 1 => coord c C.2.1
  | _ => coord c C.2.2

/-- The product `v^T C v` in exact arithmetic, for a matrix of finite entries
(an entry that is not finite counts as 0). -/
def quadForm (C : Mat3) (v : Point) : ℚ :=
  let e : FVal → ℚ := fun x => match x with
    | FVal.fin q => q
    | _ => 0
  v.1 * (e C.1.1 * v.1 + e C.1.2.1 * v.2.1 + e C.1.2.2 * v.2.2) +
  v.2.1 * (e C.2.1.1 * v.1 + e C.2.1.2.1 * v.2.1 + e C.2.1.2.2 * v.2.2) +
  v.2.2 * (e C.2.2.1 * v.1 + e C.2.2.2.1 * v.2.1 + e C.2.2.2.2 * v.2.2)

/-- The matrix `A` filled at scale.cpp:246-251, column by column: each entry is
a `float` difference, stored as a `double`. -/
def covarianceColumns (scaledSet : PointSet) (neighborIds : List Nat) (medoid : FPoint) :
    List FPoint :=
  neighborIds.map (fun i =>
    (sub32 (FVal.fin (scaledSet.pointAt i).1) medoid.1,
     sub32 (FVal.fin (scaledSet.pointAt i).2.1) medoid.2.1,
     sub32 (FVal.fin (scaledSet.pointAt i).2.2) medoid.2.2))

/-- The entry `(r, c)` of the product `A * A.transpose()`: the products of the
columns, added in column order. -/
def mulTransposeEntry (A : List FPoint) (r c : Nat) : FVal :=
  A.foldl (fun acc col => add64 acc (mul64 (coord r col) (coord c col))) 0

/-- The divisor `neighborIds.size() - 1` of scale.cpp:253, a `size_t`: for an
empty list the subtraction wraps around. -/
def covarianceDivisor (k : Nat) : Nat := if k = 0 then 2 ^ 64 - 1 else k - 1

/-- The function `Scale::computeCovariance`, scale.cpp:242-254. -/
def computeCovariance (scaledSet : PointSet) (neighborIds : List Nat) (medoid : FPoint) : Mat3 :=
  let A := covarianceColumns scaledSet neighborIds medoid
  let d : FVal := doubleOfSize (covarianceDivisor neighborIds.length)
  ((div64 (mulTransposeEntry A 0 0) d, div64 (mulTransposeEntry A 0 1) d,
      div64 (mulTransposeEntry A 0 2) d),
   (div64 (mulTransposeEntry A 1 0) d, div64 (mulTransposeEntry A 1 1) d,
      div64 (mulTransposeEntry A 1 2) d),
   (div64 (mulTransposeEntry A 2 0) d, div64 (mulTransposeEntry A 2 1) d,
      div64 (mulTransposeEntry A 2 2) d))

/-! ## Downsampling again -/

/-- The level that downsamples the output of the level `out` once more at the
same resolution, from an empty `scaledSet`: what level 1 of `computeScales`
would be without the aliasing at scale.cpp:319. -/
def Scale.rerun (out : Scale) : Scale :=
  { out with id := 1, pSet := out.scaledSet, scaledSet := PointSet.empty }

/-! ## The whole `Scale` object, `init`, `build` and `computeScales` -/

/-- The call `v.resize(n)` on a vector, new slots holding `d`. -/
def vecResize {α : Type} (v : List α) (n : Nat) (d : α) : List α :=
  v.take n ++ List.replicate (n - v.length) d

/-- The whole `Scale` object: the members the downsampler uses, the recorded
origin (`x0`, `y0`, `z0` and `scaleCoordinates`, which are always assigned
together; `none` while never assigned) and the per-point descriptor arrays. -/
structure ScaleState extends Scale where
  scaleCoordinates : Option Point
  eigenValues : List FPoint
  eigenVectors : List Mat3
  orderAxis : List (FVal × FVal × FVal × FVal)
  heightMin : List ℚ
  heightMax : List ℚ
  avgHsv : List FPoint
deriving DecidableEq

/-- The constructor `Scale::Scale`, scale.cpp:3-11. -/
def Scale.new (id : Nat) (pSet : PointSet) (resolution : ℚ) (kNeighbors : Nat) (radius : ℚ) :
    ScaleState :=
  { id := id, pSet := pSet, scaledSet := PointSet.empty, resolution := resolution,
    kNeighbors := kNeighbors, radius := radius,
    scaleCoordinates := pSet.points.head?,
    eigenValues := [], eigenVectors := [], orderAxis := [],
    heightMin := [], heightMax := [], avgHsv := [] }

/-- The function `Scale::updateScaleCoordinates`, scale.cpp:13-20. -/
def ScaleState.updateScaleCoordinates (s : ScaleState) : ScaleState :=
  match s.scaledSet.points with
  | [] => s
  | p :: _ => { s with scaleCoordinates := some p }

/-- The allocations of `Scale::init`, scale.cpp:27-40. For `id == 0` the source
resizes `pSet->pointMap`, the storage of the tracking records; the record log
of this model needs no storage, so the level is unchanged. New slots of the
descriptor arrays hold zeros. -/
def ScaleState.allocate (s : ScaleState) : ScaleState :=
  if s.id = 0 then s
  else
    let n := s.pSet.count
    let s1 : ScaleState :=
      { s with eigenValues := vecResize s.eigenValues n (0, 0, 0),
               eigenVectors := vecResize s.eigenVectors n ((0, 0, 0), (0, 0, 0), (0, 0, 0)),
               orderAxis := vecResize s.orderAxis n (0, 0, 0, 0),
               heightMin := vecResize s.heightMin n 0,
               heightMax := vecResize s.heightMax n 0 }
    if s.id = 1 then { s1 with avgHsv := vecResize s1.avgHsv n (0, 0, 0) } else s1

/-- The function `Scale::init`, scale.cpp:22-44: allocation, `computeScaledSet`,
`updateScaleCoordinates`. The result is `none` when `computeScaledSet` reads
`pSet->points[0]` from an empty `pSet`. -/
def ScaleState.init (s : ScaleState) : Option ScaleState :=
  match computeScaledSet s.allocate.toScale with
  | none => none
  | some sc => some ({ s.allocate with toScale := sc } : ScaleState).updateScaleCoordinates

/-- The library calls of `build` that are not part of the sources at hand, as
parameters: `knnSearch index query k` is the content of `neighborIds` after the
k-nearest-neighbour query; `radiusSearch index query radius` is the list of
the ids in `radiusMatches` after the radius query, whose length is
`numMatches`; `eigenSolver` gives the eigenvalues and the matrix of
eigenvectors (one per column) of a symmetric matrix, in `double`; `rgb2hsv`
converts a colour to three `float` values. -/
structure Externals where
  knnSearch : PointSet → Point → Nat → List Nat
  radiusSearch : PointSet → Point → FVal → List Nat
  eigenSolver : Mat3 → FPoint × Mat3
  rgb2hsv : Color → FPoint

/-- The column `C.col(c)` of a 3 by 3 matrix. -/
def Mat3.col (C : Mat3) (c : Nat) : FPoint := (coord c C.1, coord c C.2.1, coord c C.2.2)

/-- The conversion `.cast<float>()` of a triple. -/
def castFloat (p : FPoint) : FPoint := (p.1.toFloat, p.2.1.toFloat, p.2.2.toFloat)

/-- The conversion `.cast<float>()` of a 3 by 3 matrix. -/
def Mat3.castFloat (C : Mat3) : Mat3 :=
  (OpenPointClass.castFloat C.1, OpenPointClass.castFloat C.2.1,
   OpenPointClass.castFloat C.2.2)

/-- The product `a.dot(b)` of two `float` triples. -/
def dot (a b : FPoint) : FVal :=
  add32 (add32 (mul32 a.1 b.1) (mul32 a.2.1 b.2.1)) (mul32 a.2.2 b.2.2)

/-- One iteration of the neighbour loop, scale.cpp:96-105, on the entries
`((0,0), (0,1), (1,0), (1,1))` of `orderAxis[idx]`. -/
def orderAxisStep (scaledSet : PointSet) (medoid : FPoint) (eigenVectors : Mat3)
    (acc : FVal × FVal × FVal × FVal) (i : Nat) : FVal × FVal × FVal × FVal :=
  let p := scaledSet.pointAt i
  let n : FPoint :=
    (sub32 (FVal.fin p.1) medoid.1, sub32 (FVal.fin p.2.1) medoid.2.1,
     sub32 (FVal.fin p.2.2) medoid.2.2)
  let v00 := dot n (eigenVectors.col 2)
  let v01 := dot n (eigenVectors.col 1)
  (add32 acc.1 v00, add32 acc.2.1 v01, add32 acc.2.2.1 (mul32 v00 v00),
   add32 acc.2.2.2 (mul32 v01 v01))

/-- The content of `neighborIds` for the point `idx`, scale.cpp:61. -/
def neighborsOf (ext : Externals) (s : Scale) (idx : Nat) : List Nat :=
  ext.knnSearch s.scaledSet (s.pSet.pointAt idx) s.kNeighbors

/-- The value of `ev` at scale.cpp:65 for the point `idx`: the eigenvalues the
solver gives for the covariance matrix of the neighbours about their medoid. -/
def solverEigenvalues (ext : Externals) (s : Scale) (idx : Nat) : FPoint :=
  let neighborIds := neighborsOf ext s idx
  let medoid := promote (computeMedoid s.scaledSet neighborIds)
  (ext.eigenSolver (computeCovariance s.scaledSet neighborIds medoid)).1

/-- The body of the first loop of `build`, scale.cpp:61-109, for the point `idx`. -/
def buildPoint (ext : Externals) (s : ScaleState) (idx : Nat) : ScaleState :=
  let neighborIds := neighborsOf ext s.toScale idx
  let medoid := promote (computeMedoid s.scaledSet neighborIds)
  let covariance := computeCovariance s.scaledSet neighborIds medoid
  let solved := ext.eigenSolver covariance
  let eigenVectors := solved.2.castFloat
  let range := heightRange s.scaledSet neighborIds
  { s with eigenValues := s.eigenValues.set idx (normalizedEigenvalues solved.1),
           eigenVectors := s.eigenVectors.set idx eigenVectors,
           orderAxis := s.orderAxis.set idx
             (neighborIds.foldl (orderAxisStep s.scaledSet medoid eigenVectors) (0, 0, 0, 0)),
           heightMin := s.heightMin.set idx range.1,
           heightMax := s.heightMax.set idx range.2 }

/-- The value of `avgHsv[idx]` after scale.cpp:118-132 when the radius query
answered with the ids `radiusMatches`: the `float` sums of the converted
colours, divided by the number of matches when there is one. -/
def hsvAverage (ext : Externals) (scaledSet : PointSet) (radiusMatches : List Nat) : FPoint :=
  let numMatches := radiusMatches.length
  let sum : FPoint := radiusMatches.foldl
    (fun acc nIdx =>
      let hsv := ext.rgb2hsv (scaledSet.colorAt nIdx)
      (add32 acc.1 hsv.1, add32 acc.2.1 hsv.2.1, add32 acc.2.2 hsv.2.2)) (0, 0, 0)
  if numMatches > 0 then
    (div32 sum.1 (floatOfSize numMatches), div32 sum.2.1 (floatOfSize numMatches),
     div32 sum.2.2 (floatOfSize numMatches))
  else sum

/-- The content of `radiusMatches` for the point `idx`, scale.cpp:117; the
radius is converted to `float`. -/
def radiusMatchesOf (ext : Externals) (s : Scale) (idx : Nat) : List Nat :=
  ext.radiusSearch s.scaledSet (s.pSet.pointAt idx) (FVal.fin s.radius).toFloat

/-- The body of the second loop of `build`, scale.cpp:117-132, for the point `idx`. -/
def avgHsvPoint (ext : Externals) (s : ScaleState) (idx : Nat) : ScaleState :=
  let radiusMatches := radiusMatchesOf ext s.toScale idx
  { s with avgHsv := s.avgHsv.set idx (hsvAverage ext s.scaledSet radiusMatches) }

/-- The function `Scale::build`, scale.cpp:46-137; the points are taken in
index order (every iteration writes only the slots of its own index). -/
def ScaleState.build (ext : Externals) (s : ScaleState) : ScaleState :=
  let s1 := (List.range s.pSet.count).foldl (buildPoint ext) s
  if s.id = 1 then (List.range s.pSet.count).foldl (avgHsvPoint ext) s1 else s1

/-- The loop at scale.cpp:323-325: `init` on every level; `none` if one fails. -/
def initAll : List ScaleState → Option (List ScaleState)
  | [] => some []
  | s :: rest =>
      match s.init, initAll rest with
      | some s1, some rest1 => some (s1 :: rest1)
      | _, _ => none

/-- The base level of `computeScales` after `base->init()`, scale.cpp:311-312.
Its `scaledSet` is what `pSet->base` points to from then on. -/
def baseScale (pSet : PointSet) (startResolution radius : ℚ) : Option ScaleState :=
  (Scale.new 0 pSet (startResolution * 2 ^ 0) 10 radius).init

/-- The levels made by the loop at scale.cpp:315-317. -/
def siblingScales (base : ScaleState) (numScales : Nat) (startResolution radius : ℚ) :
    List ScaleState :=
  (List.range numScales).map
    (fun i => Scale.new (i + 1) base.scaledSet (startResolution * 2 ^ i) 10 radius)

/-- The two statements at scale.cpp:319-320 on the first level. -/
def aliasScaledSet (first base : ScaleState) : ScaleState :=
  ({ first with scaledSet := base.scaledSet } : ScaleState).updateScaleCoordinates

/-- The function `computeScales`, scale.cpp:308-340. The result is `none` when
`base->init()` fails, or when `scales[0]` is read from an empty vector
(`numScales == 0`). Pointers to one `PointSet` are copies of its value: after
`base->init()` nothing writes to the points, colours or records of a shared set. -/
def computeScales (ext : Externals) (numScales : Nat) (pSet : PointSet)
    (startResolution radius : ℚ) : Option (List ScaleState) :=
  match baseScale pSet startResolution radius with
  | none => none
  | some base =>
    let scales := siblingScales base numScales startResolution radius
    match scales[0]? with
    | none => none
    | some first =>
      match initAll (scales.set 0 (aliasScaledSet first base)) with
      | none => none
      | some inited => some (inited.map (ScaleState.build ext))

/-! ## Sample inputs -/

/-- Three points at resolution 4: the origin, alone in voxel `(0, 0, 0)`, and
two points of voxel `(1, 0, 0)` at the same distance from its computed centre. -/
def tiePoints : PointSet :=
  ⟨[(0, 0, 0), (5, 1, 1), (5, 1, 3)], [(10, 10, 10), (20, 20, 20), (30, 30, 30)], []⟩

/-- The base level over `tiePoints` at resolution 4, before `init`. -/
def tieScale : Scale := ⟨0, tiePoints, PointSet.empty, 4, 10, 3 / 4⟩

/-- Three points at resolution 4: the origin and two points of voxel
`(1, 0, 0)` at different distances from its computed centre. -/
def nearPoints : PointSet :=
  ⟨[(0, 0, 0), (5, 1, 1), (5, 1, 2)], [(10, 10, 10), (20, 20, 20), (30, 30, 30)], []⟩

/-- The base level over `nearPoints` at resolution 4, before `init`. -/
def nearScale : Scale := ⟨0, nearPoints, PointSet.empty, 4, 10, 3 / 4⟩

/-- Five points at resolution 4 in three voxels: the origin alone in
`(0, 0, 0)`, three points in `(1, 0, 0)`, one point in `(2, 0, 0)`. -/
def clusterPoints : PointSet :=
  ⟨[(0, 0, 0), (5, 1, 1), (5, 1, 3), (6, 2, 2), (9, 1, 1)],
   [(10, 10, 10), (20, 20, 20), (30, 30, 30), (40, 40, 40), (50, 50, 50)], []⟩

/-- The base level over `clusterPoints` at resolution 4, before `init`. -/
def clusterScale : Scale := ⟨0, clusterPoints, PointSet.empty, 4, 10, 3 / 4⟩

/-- Three points of one voxel at resolution 4; the first two are at the same
distance from the centroid `(1, 1, 0)`. -/
def trianglePoints : PointSet :=
  ⟨[(0, 0, 0), (0, 2, 0), (3, 1, 0)], [(10, 10, 10), (20, 20, 20), (30, 30, 30)], []⟩

/-- The base level over `trianglePoints` at resolution 4, before `init`. -/
def triangleScale : Scale := ⟨0, trianglePoints, PointSet.empty, 4, 10, 3 / 4⟩

/-- The points of `trianglePoints` with the first two exchanged. -/
def swappedTrianglePoints : PointSet :=
  ⟨[(0, 2, 0), (0, 0, 0), (3, 1, 0)], [(20, 20, 20), (10, 10, 10), (30, 30, 30)], []⟩

/-- The base level over `swappedTrianglePoints` at resolution 4, before `init`. -/
def swappedTriangleScale : Scale := ⟨0, swappedTrianglePoints, PointSet.empty, 4, 10, 3 / 4⟩

/-- Ten points below the plane `z = 0`: point `i` has `z = -(i + 1)`. -/
def belowZeroPoints : PointSet :=
  ⟨[(0, 0, -1), (1, 0, -2), (2, 0, -3), (3, 0, -4), (4, 0, -5),
    (5, 0, -6), (6, 0, -7), (7, 0, -8), (8, 0, -9), (9, 0, -10)], [], []⟩

/-- Three points at resolution 4: the origin and two points of voxel
`(0, 0, -1)`, below the origin along z. -/
def belowOriginPoints : PointSet :=
  ⟨[(0, 0, 0), (0, 0, -5), (0, 0, -6)], [(10, 10, 10), (20, 20, 20), (30, 30, 30)], []⟩

/-- The base level over `belowOriginPoints` at resolution 4, before `init`. -/
def belowOriginScale : Scale := ⟨0, belowOriginPoints, PointSet.empty, 4, 10, 3 / 4⟩

/-- Four points with coordinates of magnitude `2^127`, all values of `float`.
At resolution `2^128` the last three share the voxel `(0, 0, 1)`; the running
mean of their x coordinates overflows in `float`: `2^127`, then
`2^127 + (-2^127 - 2^127) / 2`, which is `-inf`, then `-inf + inf`. -/
def overflowPoints : PointSet :=
  ⟨[(0, 0, -2 ^ 127), (2 ^ 127, 0, 2 ^ 127), (-2 ^ 127, 0, 2 ^ 127), (0, 0, 2 ^ 127)],
   [(10, 10, 10), (20, 20, 20), (30, 30, 30), (40, 40, 40)], []⟩

/-- The base level over `overflowPoints` at resolution `2^128`, before `init`. -/
def overflowScale : Scale := ⟨0, overflowPoints, PointSet.empty, 2 ^ 128, 10, 3 / 4⟩

/-- Three points at resolution 1024: the first, and two points of voxel
`(0, 0, 1)` whose squared distances from the computed centre `(512, 512, 0)`
are `512144` and `512144 + 2^-60`; both sums are `512144` in `double`. -/
def roundedPairPoints : PointSet :=
  ⟨[(0, 0, -1536), (12, 0, 0), (12, 0, 1 / 2 ^ 30)],
   [(10, 10, 10), (20, 20, 20), (30, 30, 30)], []⟩

/-- The base level over `roundedPairPoints` at resolution 1024, before `init`. -/
def roundedPairScale : Scale := ⟨0, roundedPairPoints, PointSet.empty, 1024, 10, 3 / 4⟩

/-- Three points at resolution `2^29`: the first, and two points of voxel
`(0, 0, 1)` at the same distance from the computed centre `(0, 0, 0)`; in
`double` the first sum of squares is the smaller one. -/
def stretchedPairPoints : PointSet :=
  ⟨[(-2 ^ 28, -2 ^ 28, -3 * 2 ^ 28), (3 / 2, 3 / 2, 2 ^ 27), (2 ^ 27, 3 / 2, 3 / 2)],
   [(10, 10, 10), (20, 20, 20), (30, 30, 30)], []⟩

/-- The base level over `stretchedPairPoints` at resolution `2^29`, before `init`. -/
def stretchedPairScale : Scale := ⟨0, stretchedPairPoints, PointSet.empty, 2 ^ 29, 10, 3 / 4⟩

/-- Three points of one voxel at resolution 4096. Their centroid is computed as
`(8, 0, 512)`; the first two differ by `2^-30` along z, which the `float`
difference from the centroid does not show. -/
def nudgedPoints : PointSet :=
  ⟨[(12, 0, 0), (12, 0, 1 / 2 ^ 30), (0, 0, 1536)],
   [(10, 10, 10), (20, 20, 20), (30, 30, 30)], []⟩

/-- The base level over `nudgedPoints` at resolution 4096, before `init`. -/
def nudgedScale : Scale := ⟨0, nudgedPoints, PointSet.empty, 4096, 10, 3 / 4⟩

/-- Three points of one voxel whose x coordinates are 0, 0 and 1. -/
def thirdPoints : PointSet :=
  ⟨[(0, 0, 0), (0, 0, 0), (1, 0, 0)], [(10, 10, 10), (20, 20, 20), (30, 30, 30)], []⟩

/-- Four points on the x axis at 6, 23, -16 and 1: their mean is 7/2, halfway
between the first and the last. -/
def wobblePoints : PointSet :=
  ⟨[(6, 0, 0), (23, 0, 0), (-16, 0, 0), (1, 0, 0)],
   [(10, 10, 10), (20, 20, 20), (30, 30, 30), (40, 40, 40)], []⟩

/-- The base level over `wobblePoints` at resolution 64, before `init`. -/
def wobbleScale : Scale := ⟨0, wobblePoints, PointSet.empty, 64, 10, 3 / 4⟩

/-- The points of `wobblePoints` in the order second, fourth, third, first. -/
def shuffledWobblePoints : PointSet :=
  ⟨[(23, 0, 0), (1, 0, 0), (-16, 0, 0), (6, 0, 0)],
   [(20, 20, 20), (40, 40, 40), (30, 30, 30), (10, 10, 10)], []⟩

/-- The base level over `shuffledWobblePoints` at resolution 64, before `init`. -/
def shuffledWobbleScale : Scale := ⟨0, shuffledWobblePoints, PointSet.empty, 64, 10, 3 / 4⟩

/-- Three points at resolution 4 whose first point has different x and y: the
second lies below the origin along z by less than one cell; the third lies two
cells away from the `y` origin along x, and one cell from the `x` origin along y. -/
def skewPoints : PointSet :=
  ⟨[(1, 5, 0), (2, 7, -1), (14, 6, -9)], [(10, 10, 10), (20, 20, 20), (30, 30, 30)], []⟩

/-- The base level over `skewPoints` at resolution 4, before `init`. -/
def skewScale : Scale := ⟨0, skewPoints, PointSet.empty, 4, 10, 3 / 4⟩

/-- The `double` nearest to `0.005`. -/
def fineResolution : ℚ := 5764607523034235 / 2 ^ 60

/-- Two points one unit apart along x. -/
def unitPoints : PointSet :=
  ⟨[(0, 0, 0), (1, 0, 0)], [(10, 10, 10), (20, 20, 20)], []⟩

/-- The base level over `unitPoints` at the resolution `0.005`, before `init`. -/
def fineScale : Scale := ⟨0, unitPoints, PointSet.empty, fineResolution, 10, 3 / 4⟩

/-- Three points: the origin and the points at `2^64` and `-2^64` along x. -/
def farPoints : PointSet :=
  ⟨[(0, 0, 0), (18446744073709551616, 0, 0), (-18446744073709551616, 0, 0)],
    [(10, 10, 10), (20, 20, 20), (30, 30, 30)], []⟩

/-- The base level over `farPoints` at resolution 1, before `init`. -/
def farScale : Scale := ⟨0, farPoints, PointSet.empty, 1, 10, 3 / 4⟩

/-- Two points `2^65` apart along x. -/
def hugePairPoints : PointSet :=
  ⟨[(18446744073709551616, 0, 0), (-18446744073709551616, 0, 0)],
    [(10, 10, 10), (20, 20, 20)], []⟩

/-- Four points on the x axis: the sums of squared distances of the first two
from all four are `200030004.25` and `200030001.25`; as `float` sums both are
`200030000`. -/
def lineupPoints : PointSet :=
  ⟨[(0, 0, 0), (1, 0, 0), (-10000, 0, 0), (20003 / 2, 0, 0)],
    [(10, 10, 10), (20, 20, 20), (30, 30, 30), (40, 40, 40)], []⟩

/-- Three points: the origin, the point `a = (2859, 2897, 0)`, and `-2^15 a`. -/
def slantPoints : PointSet :=
  ⟨[(0, 0, 0), (2859, 2897, 0), (-93683712, -94928896, 0)],
    [(10, 10, 10), (20, 20, 20), (30, 30, 30)], []⟩

/-- Three points on the z axis at resolution 4: after one downsampling the
points at `z = 7/2` and `z = 9/2` remain, in different voxels of the grid
anchored at the origin but in one voxel of the grid anchored at `z = 7/2`. -/
def driftPoints : PointSet :=
  ⟨[(0, 0, 0), (0, 0, 7 / 2), (0, 0, 9 / 2)], [(10, 10, 10), (20, 20, 20), (30, 30, 30)], []⟩

/-- The base level over `driftPoints` at resolution 4, before `init`. -/
def driftScale : Scale := ⟨0, driftPoints, PointSet.empty, 4, 10, 3 / 4⟩

/-! ## Sample library answers -/

/-- The hexcone conversion of a colour: hue in degrees, saturation, value,
each rounded to `float`. -/
def hexconeHsv (c : Color) : FPoint :=
  let r : ℚ := (c.1 : ℚ)
  let g : ℚ := (c.2.1 : ℚ)
  let b : ℚ := (c.2.2 : ℚ)
  let mx := max r (max g b)
  let mn := min r (min g b)
  let delta := mx - mn
  let h : ℚ :=
    if delta = 0 then 0
    else if mx = r then 60 * ((g - b) / delta)
    else if mx = g then 60 * (2 + (b - r) / delta)
    else 60 * (4 + (r - g) / delta)
  (rnd32 (if h < 0 then h + 360 else h), rnd32 (if mx = 0 then 0 else delta / mx), rnd32 mx)

/-- Sample answers of the libraries, for concrete runs: the neighbour query
answers with the first `k` ids of the set, padded with zeros; the radius query
answers with the ids of the points whose squared distance from the query is
below the search parameter; the solver answers with the diagonal of its
argument and the unit vectors (exact for a diagonal matrix with ascending
diagonal); colours are converted by `hexconeHsv`. -/
def sampleExternals : Externals where
  knnSearch := fun scaledSet _ k =>
    (List.range scaledSet.count).take k ++ List.replicate (k - scaledSet.count) 0
  radiusSearch := fun scaledSet query r =>
    (List.range scaledSet.count).filter
      (fun i => FVal.lt (sqrDistFloat (promote query) (scaledSet.pointAt i)) r)
  eigenSolver := fun C => ((C.1.1, C.2.1.2.1, C.2.2.2.2), ((1, 0, 0), (0, 1, 0), (0, 0, 1)))
  rgb2hsv := hexconeHsv

/-- Two coincident points, the first red, the second blue. -/
def twinPoints : PointSet :=
  ⟨[(1, 2, 3), (1, 2, 3)], [(255, 0, 0), (0, 0, 255)], []⟩

/-- The origin, green, and two coincident points, the first red, the second blue. -/
def trioPoints : PointSet :=
  ⟨[(0, 0, 0), (1, 2, 3), (1, 2, 3)], [(0, 255, 0), (255, 0, 0), (0, 0, 255)], []⟩

/-- The origin, green, and two coincident points half a unit away, the first
red, the second blue. -/
def spreadPoints : PointSet :=
  ⟨[(0, 0, 0), (1 / 2, 0, 0), (1 / 2, 0, 0)], [(0, 255, 0), (255, 0, 0), (0, 0, 255)], []⟩

/-- A single point. -/
def lonePoint : PointSet := ⟨[(1, 2, 3)], [(255, 0, 0)], []⟩

/-- Ten points in ten voxels of edge 1: the origin, the six points at distance
4 from it along the axes, and the three points at distance 8 along the
positive axes. About the origin their covariance matrix is `32/3` times the
unit matrix. -/
def starPoints : PointSet :=
  ⟨[(0, 0, 0), (4, 0, 0), (-4, 0, 0), (0, 4, 0), (0, -4, 0), (0, 0, 4), (0, 0, -4),
    (8, 0, 0), (0, 8, 0), (0, 0, 8)],
   [(1, 1, 1), (2, 2, 2), (3, 3, 3), (4, 4, 4), (5, 5, 5), (6, 6, 6), (7, 7, 7),
    (8, 8, 8), (9, 9, 9), (10, 10, 10)], []⟩

/-! # Theorems -/

/-! ## The tuple order -/

theorem keyLt_irrefl (a : VoxelKey) : ¬ keyLt a a := by
  unfold keyLt; omega

theorem keyLt_trans {a b c : VoxelKey} (h1 : keyLt a b) (h2 : keyLt b c) : keyLt a c := by
  unfold keyLt at *; omega

theorem keyLt_of_not {a b : VoxelKey} (hne : a ≠ b) (h : ¬ keyLt a b) : keyLt b a := by
  obtain ⟨a1, a2, a3⟩ := a
  obtain ⟨b1, b2, b3⟩ := b
  have hne2 : ¬ (a1 = b1 ∧ a2 = b2 ∧ a3 = b3) := by
    rintro ⟨rfl, rfl, rfl⟩; exact hne rfl
  simp only [keyLt] at *
  omega

theorem keyLt_ne {a b : VoxelKey} (h : keyLt a b) : a ≠ b := by
  rintro rfl; exact keyLt_irrefl _ h

/-! ## The ordered map under `push_back` -/

theorem mapPushBack_keys (key : VoxelKey) (id : Nat) (m : List (VoxelKey × List Nat)) :
    ∀ t, t ∈ mapPushBack key id m → t.1 = key ∨ t ∈ m := by
  induction m with
  | nil => intro t ht; simp [mapPushBack] at ht; left; rw [ht]
  | cons hd rest ih =>
    obtain ⟨k, ids⟩ := hd
    intro t ht
    simp only [mapPushBack] at ht
    split_ifs at ht with h1 h2
    · rcases List.mem_cons.1 ht with h | h
      · left; rw [h, h1]
      · right; exact List.mem_cons_of_mem _ h
    · rcases List.mem_cons.1 ht with h | h
      · left; rw [h]
      · right; exact h
    · rcases List.mem_cons.1 ht with h | h
      · right; rw [h]; exact List.mem_cons_self _ _
      · rcases ih t h with h' | h'
        · left; exact h'
        · right; exact List.mem_cons_of_mem _ h'

theorem mapPushBack_ascending (key : VoxelKey) (id : Nat) (m : List (VoxelKey × List Nat))
    (hm : KeysAscending m) : KeysAscending (mapPushBack key id m) := by
  induction m with
  | nil => simp [mapPushBack, KeysAscending]
  | cons hd rest ih =>
    obtain ⟨k, ids⟩ := hd
    unfold KeysAscending at hm ih ⊢
    rw [List.pairwise_cons] at hm
    simp only [mapPushBack]
    split_ifs with h1 h2
    · rw [List.pairwise_cons]; exact ⟨fun t ht => hm.1 t ht, hm.2⟩
    · rw [List.pairwise_cons]
      refine ⟨?_, List.pairwise_cons.2 hm⟩
      intro t ht
      rcases List.mem_cons.1 ht with h | h
      · rw [h]; exact h2
      · exact keyLt_trans h2 (hm.1 t h)
    · rw [List.pairwise_cons]
      refine ⟨?_, ih hm.2⟩
      intro t ht
      rcases mapPushBack_keys key id rest t ht with h | h
      · rw [h]; exact keyLt_of_not h1 h2
      · exact hm.1 t h

/-- What an entry of the map after `m[key].push_back(id)` can be. -/
theorem mapPushBack_mem (key : VoxelKey) (id : Nat) (m : List (VoxelKey × List Nat))
    (hm : KeysAscending m) :
    ∀ t, t ∈ mapPushBack key id m →
      (t ∈ m ∧ t.1 ≠ key) ∨
      (t.1 = key ∧ ((∃ ids, (key, ids) ∈ m ∧ t.2 = ids ++ [id]) ∨
        ((∀ u ∈ m, u.1 ≠ key) ∧ t.2 = [id]))) := by
  induction m with
  | nil =>
    intro t ht
    simp [mapPushBack] at ht
    right; rw [ht]; simp
  | cons hd rest ih =>
    obtain ⟨k, ids⟩ := hd
    unfold KeysAscending at hm ih
    rw [List.pairwise_cons] at hm
    intro t ht
    simp only [mapPushBack] at ht
    split_ifs at ht with h1 h2
    · rcases List.mem_cons.1 ht with h | h
      · right
        refine ⟨by rw [h, h1], Or.inl ⟨ids, ?_, by rw [h]⟩⟩
        rw [h1]; exact List.mem_cons_self _ _
      · left
        refine ⟨List.mem_cons_of_mem _ h, ?_⟩
        have := hm.1 t h
        rw [h1]; exact (keyLt_ne this).symm
    · rcases List.mem_cons.1 ht with h | h
      · right
        refine ⟨by rw [h], Or.inr ⟨?_, by rw [h]⟩⟩
        intro u hu
        rcases List.mem_cons.1 hu with h' | h'
        · rw [h']; exact (keyLt_ne h2).symm
        · exact (keyLt_ne (keyLt_trans h2 (hm.1 u h'))).symm
      · left
        refine ⟨h, ?_⟩
        rcases List.mem_cons.1 h with h' | h'
        · rw [h']; exact (keyLt_ne h2).symm
        · exact (keyLt_ne (keyLt_trans h2 (hm.1 t h'))).symm
    · rcases List.mem_cons.1 ht with h | h
      · left
        refine ⟨by rw [h]; exact List.mem_cons_self _ _, ?_⟩
        rw [h]; exact fun e => h1 e.symm
      · rcases ih hm.2 t h with ⟨h3, h4⟩ | ⟨h3, h4⟩
        · left; exact ⟨List.mem_cons_of_mem _ h3, h4⟩
        · right
          refine ⟨h3, ?_⟩
          rcases h4 with ⟨ids', h5, h6⟩ | ⟨h5, h6⟩
          · exact Or.inl ⟨ids', List.mem_cons_of_mem _ h5, h6⟩
          · refine Or.inr ⟨?_, h6⟩
            intro u hu
            rcases List.mem_cons.1 hu with h' | h'
            · rw [h']; exact fun e => h1 e.symm
            · exact h5 u h'

theorem mapPushBack_has_key (key : VoxelKey) (id : Nat) (m : List (VoxelKey × List Nat)) :
    ∃ t ∈ mapPushBack key id m, t.1 = key := by
  induction m with
  | nil => exact ⟨(key, [id]), by simp [mapPushBack], rfl⟩
  | cons hd rest ih =>
    obtain ⟨k, ids⟩ := hd
    simp only [mapPushBack]
    split_ifs with h1 h2
    · exact ⟨(k, ids ++ [id]), List.mem_cons_self _ _, h1.symm⟩
    · exact ⟨(key, [id]), List.mem_cons_self _ _, rfl⟩
    · obtain ⟨t, ht, hk⟩ := ih
      exact ⟨t, List.mem_cons_of_mem _ ht, hk⟩

theorem mapPushBack_keeps_keys (key : VoxelKey) (id : Nat) (m : List (VoxelKey × List Nat)) :
    ∀ u ∈ m, ∃ t ∈ mapPushBack key id m, t.1 = u.1 := by
  induction m with
  | nil => intro u hu; cases hu
  | cons hd rest ih =>
    obtain ⟨k, ids⟩ := hd
    intro u hu
    simp only [mapPushBack]
    split_ifs with h1 h2
    · rcases List.mem_cons.1 hu with h | h
      · exact ⟨(k, ids ++ [id]), List.mem_cons_self _ _, by rw [h]⟩
      · exact ⟨u, List.mem_cons_of_mem _ h, rfl⟩
    · exact ⟨u, List.mem_cons_of_mem _ hu, rfl⟩
    · rcases List.mem_cons.1 hu with h | h
      · exact ⟨(k, ids), List.mem_cons_self _ _, by rw [h]⟩
      · obtain ⟨t, ht, hk⟩ := ih u h
        exact ⟨t, List.mem_cons_of_mem _ ht, hk⟩

theorem mapPushBack_allIds (key : VoxelKey) (id : Nat) (m : List (VoxelKey × List Nat)) :
    (allIds (mapPushBack key id m)).Perm (id :: allIds m) := by
  induction m with
  | nil => simp [mapPushBack, allIds]
  | cons hd rest ih =>
    obtain ⟨k, ids⟩ := hd
    simp only [mapPushBack]
    split_ifs with h1 h2
    · simp only [allIds, List.append_assoc]
      have : (ids ++ ([id] ++ allIds rest)).Perm (ids ++ (id :: allIds rest)) := by simp
      refine this.trans ?_
      exact List.perm_middle
    · simp [allIds]
    · simp only [allIds]
      exact ((List.Perm.append_left ids ih).trans List.perm_middle)

/-! ## The first pass -/

/-- The invariant of the first pass after the ids of `l` have been pushed in order. -/
theorem foldl_mapPushBack_inv (f : Nat → VoxelKey) (l : List Nat) :
    KeysAscending (l.foldl (fun m id => mapPushBack (f id) id m) []) ∧
    (∀ t ∈ l.foldl (fun m id => mapPushBack (f id) id m) [],
        t.2 = l.filter (fun i => f i = t.1) ∧ t.2 ≠ []) ∧
    (∀ i ∈ l, ∃ t ∈ l.foldl (fun m id => mapPushBack (f id) id m) [], t.1 = f i) ∧
    (allIds (l.foldl (fun m id => mapPushBack (f id) id m) [])).Perm l := by
  induction l using List.reverseRecOn with
  | nil =>
    refine ⟨by simp [KeysAscending], by simp, by simp, by simp [allIds]⟩
  | append_singleton l a ih =>
    obtain ⟨h1, h2, h3, h4⟩ := ih
    rw [List.foldl_append]
    simp only [List.foldl_cons, List.foldl_nil]
    refine ⟨mapPushBack_ascending _ _ _ h1, ?_, ?_, ?_⟩
    · intro t ht
      rcases mapPushBack_mem (f a) a _ h1 t ht with ⟨h5, h6⟩ | ⟨h5, h6⟩
      · obtain ⟨h7, h8⟩ := h2 t h5
        refine ⟨?_, h8⟩
        rw [List.filter_append, ← h7]
        have : decide (f a = t.1) = false := by
          simp only [decide_eq_false_iff_not]; exact fun e => h6 e.symm
        simp [List.filter_cons, this]
      · rcases h6 with ⟨ids, h7, h8⟩ | ⟨h7, h8⟩
        · obtain ⟨h9, _⟩ := h2 _ h7
          simp only at h9
          refine ⟨?_, by rw [h8]; simp⟩
          rw [List.filter_append, h8, h5, ← h9]
          simp [List.filter_cons]
        · refine ⟨?_, by rw [h8]; simp⟩
          rw [List.filter_append, h8, h5]
          have hnil : l.filter (fun i => f i = f a) = [] := by
            rw [List.filter_eq_nil_iff]
            intro i hi
            obtain ⟨u, hu, hk⟩ := h3 i hi
            simp only [decide_eq_true_eq]
            intro e
            exact h7 u hu (hk.trans e)
          rw [hnil]
          simp [List.filter_cons]
    · intro i hi
      rcases List.mem_append.1 hi with h | h
      · obtain ⟨u, hu, hk⟩ := h3 i h
        obtain ⟨t, ht, hk'⟩ := mapPushBack_keeps_keys (f a) a _ u hu
        exact ⟨t, ht, hk'.trans hk⟩
      · have : i = a := by simpa using h
        rw [this]
        exact mapPushBack_has_key _ _ _
    · refine (mapPushBack_allIds _ _ _).trans ?_
      refine (List.Perm.cons a h4).trans ?_
      exact (List.perm_append_singleton a l).symm

/-- The shape of the map built by the first pass: ascending keys; the entry of
key `k` lists, in ascending order, exactly the ids whose point has key `k`, and
is not empty; every id has its entry; the entries together hold every id once. -/
theorem populated_voxel_ids_spec (pSet : PointSet) (x0 y0 z0 resolution : FVal) :
    KeysAscending (populated_voxel_ids pSet x0 y0 z0 resolution) ∧
    (∀ t ∈ populated_voxel_ids pSet x0 y0 z0 resolution,
        t.2 = (List.range pSet.count).filter
          (fun i => voxelKey x0 y0 z0 resolution (promote (pSet.pointAt i)) = t.1) ∧ t.2 ≠ []) ∧
    (∀ i < pSet.count, ∃ t ∈ populated_voxel_ids pSet x0 y0 z0 resolution,
        t.1 = voxelKey x0 y0 z0 resolution (promote (pSet.pointAt i))) ∧
    (allIds (populated_voxel_ids pSet x0 y0 z0 resolution)).Perm (List.range pSet.count) := by
  obtain ⟨h1, h2, h3, h4⟩ := foldl_mapPushBack_inv
    (fun id => voxelKey x0 y0 z0 resolution (promote (pSet.pointAt id))) (List.range pSet.count)
  exact ⟨h1, h2, fun i hi => h3 i (List.mem_range.2 hi), h4⟩

/-- Every id of an entry is a valid index whose point has the entry's key. -/
theorem populated_voxel_ids_member (pSet : PointSet) (x0 y0 z0 resolution : FVal)
    (t : VoxelKey × List Nat) (ht : t ∈ populated_voxel_ids pSet x0 y0 z0 resolution)
    (i : Nat) (hi : i ∈ t.2) :
    i < pSet.count ∧ voxelKey x0 y0 z0 resolution (promote (pSet.pointAt i)) = t.1 := by
  have h := ((populated_voxel_ids_spec pSet x0 y0 z0 resolution).2.1 t ht).1
  rw [h, List.mem_filter] at hi
  exact ⟨List.mem_range.1 hi.1, by simpa using hi.2⟩

/-- The ids of an entry are listed in strictly ascending order. -/
theorem populated_voxel_ids_sorted (pSet : PointSet) (x0 y0 z0 resolution : FVal)
    (t : VoxelKey × List Nat) (ht : t ∈ populated_voxel_ids pSet x0 y0 z0 resolution) :
    t.2.Pairwise (fun a b => a < b) := by
  have h := ((populated_voxel_ids_spec pSet x0 y0 z0 resolution).2.1 t ht).1
  rw [h]
  exact (List.pairwise_lt_range _).filter _

/-! ## The second pass -/

theorem trackPoint_foldl (pSet : PointSet) (ids : List Nat) (out : PointSet) :
    ids.foldl (fun o p => o.trackPoint pSet p) out =
      { out with pointMap := out.pointMap ++ ids.map (fun i => (i, out.points.length - 1)) } := by
  induction ids generalizing out with
  | nil => simp
  | cons a rest ih =>
    rw [List.foldl_cons, ih]
    simp [PointSet.trackPoint]

/-- One map entry appends the point and colour of its representative and, when
tracking, records every id of the entry against the new point's index. -/
theorem processVoxel_eq (pSet : PointSet) (trackPoints : Bool) (x0 y0 z0 resolution : FVal)
    (dst : PointSet) (t : VoxelKey × List Nat) :
    processVoxel pSet trackPoints x0 y0 z0 resolution dst t =
      { points := dst.points ++ [pSet.pointAt (representative pSet x0 y0 z0 resolution t)],
        colors := dst.colors ++ [pSet.colorAt (representative pSet x0 y0 z0 resolution t)],
        pointMap := dst.pointMap ++
          (if trackPoints then t.2.map (fun i => (i, dst.points.length)) else []) } := by
  obtain ⟨k, ids⟩ := t
  match ids with
  | [] =>
    cases trackPoints <;>
      simp [processVoxel, representative, PointSet.appendPoint]
  | [a] =>
    cases trackPoints <;>
      simp [processVoxel, representative, PointSet.appendPoint, PointSet.trackPoint]
  | [a, b] =>
    cases trackPoints <;>
      simp only [processVoxel, representative, PointSet.appendPoint, PointSet.trackPoint] <;>
      split_ifs <;> simp
  | a :: b :: c :: rest =>
    cases trackPoints
    · simp [processVoxel, representative, PointSet.appendPoint]
    · simp only [processVoxel, representative, if_true]
      rw [trackPoint_foldl]
      simp [PointSet.appendPoint]

/-- The second pass as a whole. -/
theorem foldl_processVoxel (pSet : PointSet) (trackPoints : Bool) (x0 y0 z0 resolution : FVal)
    (m : List (VoxelKey × List Nat)) (dst : PointSet) :
    m.foldl (processVoxel pSet trackPoints x0 y0 z0 resolution) dst =
      { points := dst.points ++
          m.map (fun t => pSet.pointAt (representative pSet x0 y0 z0 resolution t)),
        colors := dst.colors ++
          m.map (fun t => pSet.colorAt (representative pSet x0 y0 z0 resolution t)),
        pointMap := dst.pointMap ++
          (if trackPoints then trackLog dst.points.length m else []) } := by
  induction m generalizing dst with
  | nil => cases trackPoints <;> simp [trackLog]
  | cons t rest ih =>
    rw [List.foldl_cons, ih, processVoxel_eq]
    cases trackPoints <;> simp [trackLog]

/-- The result of `computeScaledSet` on a level whose `scaledSet` holds no points
and whose `pSet` holds at least one. -/
theorem computeScaledSet_eq (s : Scale) (hne : s.pSet.points ≠ [])
    (hempty : s.scaledSet.points = []) :
    computeScaledSet s = some { s with scaledSet :=
      { points := s.voxels.map (fun t => s.pSet.pointAt (s.repOf t)),
        colors := s.voxels.map (fun t => s.pSet.colorAt (s.repOf t)),
        pointMap := s.scaledSet.pointMap ++
          (if s.id = 0 then trackLog 0 s.voxels else []) } } := by
  unfold computeScaledSet
  rw [hempty]
  simp only [List.isEmpty_nil, if_true]
  cases hp : s.pSet.points with
  | nil => exact absurd hp hne
  | cons p0 rest =>
    have ho : s.origin = p0 := by simp [Scale.origin, PointSet.pointAt, hp]
    simp only [foldl_processVoxel, Scale.voxels, Scale.repOf, ho]
    by_cases hid : s.id = 0 <;> simp [hid]

/-! ## The order and the signs of `float` and `double` values -/

theorem fval_lt_irrefl (a : FVal) : FVal.lt a a = false := by
  cases a <;> simp [FVal.lt]

theorem fval_lt_trans {a b c : FVal} (h1 : FVal.lt a b = true) (h2 : FVal.lt b c = true) :
    FVal.lt a c = true := by
  cases a <;> cases b <;> cases c <;> simp [FVal.lt] at *
  exact lt_trans h1 h2

theorem fval_lt_asymm {a b : FVal} (h : FVal.lt a b = true) : FVal.lt b a = false := by
  cases a <;> cases b <;> simp [FVal.lt] at *
  exact le_of_lt h

/-- Two numbers that are not negative are comparable. -/
theorem fval_lt_total {a b : FVal} (ha : a.IsNonneg) (hb : b.IsNonneg) :
    FVal.lt a b = true ∨ a = b ∨ FVal.lt b a = true := by
  cases a <;> cases b <;> simp [FVal.lt, FVal.IsNonneg] at *
  exact lt_trichotomy _ _

theorem notNeg_of_isNonneg {a : FVal} (h : a.IsNonneg) : a.NotNeg := by
  cases a <;> simp [FVal.IsNonneg, FVal.NotNeg] at *
  exact h

theorem ne_nan_of_isNonneg {a : FVal} (h : a.IsNonneg) : a ≠ FVal.nan := by
  cases a <;> simp [FVal.IsNonneg] at *

/-- A value that is not below zero and is below a finite value is a finite
number that is not negative. -/
theorem nonneg_of_lt_fin {a : FVal} {m : ℚ} (ha : a.NotNeg)
    (h : FVal.lt a (FVal.fin m) = true) : a.IsFinite ∧ a.IsNonneg := by
  cases a <;> simp [FVal.lt, FVal.NotNeg, FVal.IsFinite, FVal.IsNonneg] at *
  exact ha

theorem twoPow_pos (k : Int) : 0 < twoPow k := by
  unfold twoPow
  split_ifs <;> positivity

theorem roundEven_nonneg {m : ℚ} (h : 0 ≤ m) : 0 ≤ roundEven m := by
  have hf : 0 ≤ Rat.floor m := Rat.le_floor.2 (by exact_mod_cast h)
  unfold roundEven
  simp only
  split_ifs <;> omega

/-- Rounding never gives not-a-number. -/
theorem roundTo_ne_nan (p : Nat) (emin emax : Int) (q : ℚ) :
    roundTo p emin emax q ≠ FVal.nan := by
  unfold roundTo
  simp only
  split_ifs <;> simp

/-- Rounding a number that is not negative gives one that is not negative. -/
theorem roundTo_nonneg (p : Nat) (emin emax : Int) {q : ℚ} (h : 0 ≤ q) :
    (roundTo p emin emax q).IsNonneg := by
  unfold roundTo
  simp only
  split_ifs with h0 h1 h2 h3
  · simp [FVal.IsNonneg]
  · simp [FVal.IsNonneg]
  · exact absurd (lt_of_le_of_ne h (Ne.symm h0)) h2
  · simp only [FVal.IsNonneg]
    apply mul_nonneg
    · exact_mod_cast roundEven_nonneg (div_nonneg (abs_nonneg q) (le_of_lt (twoPow_pos _)))
    · exact le_of_lt (twoPow_pos _)
  · exact absurd (lt_of_le_of_ne h (Ne.symm h0)) h3

theorem sq64_notNeg (x : FVal) : (sq64 x).NotNeg := by
  cases x with
  | fin a =>
    have := roundTo_nonneg 53 (-1022) 1023 (mul_self_nonneg a)
    exact notNeg_of_isNonneg this
  | posInf => simp [sq64, mul64, FVal.mul, FVal.NotNeg]
  | negInf => simp [sq64, mul64, FVal.mul, FVal.NotNeg]
  | nan => simp [sq64, mul64, FVal.mul, FVal.NotNeg]

theorem sq64_nonneg {x : FVal} (h : x ≠ FVal.nan) : (sq64 x).IsNonneg := by
  cases x with
  | fin a => exact roundTo_nonneg 53 (-1022) 1023 (mul_self_nonneg a)
  | posInf => simp [sq64, mul64, FVal.mul, FVal.IsNonneg]
  | negInf => simp [sq64, mul64, FVal.mul, FVal.IsNonneg]
  | nan => exact absurd rfl h

theorem add64_notNeg {a b : FVal} (ha : a.NotNeg) (hb : b.NotNeg) : (add64 a b).NotNeg := by
  cases a <;> cases b <;> simp [add64, FVal.add, FVal.NotNeg] at *
  exact notNeg_of_isNonneg (roundTo_nonneg 53 (-1022) 1023 (add_nonneg ha hb))

theorem add64_nonneg {a b : FVal} (ha : a.IsNonneg) (hb : b.IsNonneg) :
    (add64 a b).IsNonneg := by
  cases a <;> cases b <;> simp [add64, FVal.add, FVal.IsNonneg] at *
  exact roundTo_nonneg 53 (-1022) 1023 (add_nonneg ha hb)

theorem toFloat_nonneg {a : FVal} (ha : a.IsNonneg) : a.toFloat.IsNonneg := by
  cases a <;> simp [FVal.toFloat, FVal.IsNonneg] at *
  exact roundTo_nonneg 24 (-126) 127 ha

theorem add64_isFinite {a b : FVal} (h : (add64 a b).IsFinite) : a.IsFinite ∧ b.IsFinite := by
  cases a <;> cases b <;> simp [add64, FVal.add, FVal.IsFinite] at *

theorem sq64_isFinite {x : FVal} (h : (sq64 x).IsFinite) : x.IsFinite := by
  cases x <;> simp [sq64, mul64, FVal.mul, FVal.IsFinite] at *

theorem sub32_isFinite {c : FVal} {p : ℚ} (h : (sub32 c (FVal.fin p)).IsFinite) :
    c.IsFinite := by
  cases c <;> simp [sub32, FVal.sub, FVal.add, FVal.neg, FVal.IsFinite] at *

theorem sub32_ne_nan {c : FVal} (hc : c.IsFinite) (p : ℚ) :
    sub32 c (FVal.fin p) ≠ FVal.nan := by
  cases c <;> simp [FVal.IsFinite] at hc
  exact roundTo_ne_nan _ _ _ _

/-- The squared distance computed from `float` differences is never below zero. -/
theorem sqrDistFloat_notNeg (c : FPoint) (p : Point) : (sqrDistFloat c p).NotNeg :=
  add64_notNeg (add64_notNeg (sq64_notNeg _) (sq64_notNeg _)) (sq64_notNeg _)

/-- The squared distance computed from `double` differences is never below zero. -/
theorem sqrDistDouble_notNeg (c : FPoint) (p : Point) : (sqrDistDouble c p).NotNeg :=
  add64_notNeg (add64_notNeg (sq64_notNeg _) (sq64_notNeg _)) (sq64_notNeg _)

/-- A finite squared distance comes from a finite centre. -/
theorem sqrDistFloat_isFinite {c : FPoint} {p : Point} (h : (sqrDistFloat c p).IsFinite) :
    c.1.IsFinite ∧ c.2.1.IsFinite ∧ c.2.2.IsFinite := by
  obtain ⟨h12, h3⟩ := add64_isFinite h
  obtain ⟨h1, h2⟩ := add64_isFinite h12
  exact ⟨sub32_isFinite (sq64_isFinite h1), sub32_isFinite (sq64_isFinite h2),
    sub32_isFinite (sq64_isFinite h3)⟩

/-- From a finite centre every squared distance is a number that is not negative. -/
theorem sqrDistFloat_nonneg {c : FPoint}
    (hc : c.1.IsFinite ∧ c.2.1.IsFinite ∧ c.2.2.IsFinite) (p : Point) :
    (sqrDistFloat c p).IsNonneg :=
  add64_nonneg (add64_nonneg (sq64_nonneg (sub32_ne_nan hc.1 _))
    (sq64_nonneg (sub32_ne_nan hc.2.1 _))) (sq64_nonneg (sub32_ne_nan hc.2.2 _))

theorem promote_isFinite (p : Point) :
    (promote p).1.IsFinite ∧ (promote p).2.1.IsFinite ∧ (promote p).2.2.IsFinite := by
  simp [promote, FVal.IsFinite]

/-! ## Bounds on rounding -/

theorem twoPow_eq_zpow (k : Int) : twoPow k = (2 : ℚ) ^ k := by
  unfold twoPow
  split_ifs with h
  · conv_rhs => rw [← Int.toNat_of_nonneg h]
    rw [zpow_natCast]
  · have h2 : 0 ≤ -k := by omega
    have h3 : (2 : ℚ) ^ k = ((2 : ℚ) ^ (-k))⁻¹ := by rw [zpow_neg, inv_inv]
    rw [h3]
    conv_rhs => rw [← Int.toNat_of_nonneg h2]
    rw [zpow_natCast, one_div]

theorem twoPow_add (a b : Int) : twoPow (a + b) = twoPow a * twoPow b := by
  simp only [twoPow_eq_zpow]
  exact zpow_add₀ (by norm_num) a b

theorem twoPow_le_twoPow {a b : Int} (h : a ≤ b) : twoPow a ≤ twoPow b := by
  simp only [twoPow_eq_zpow]
  exact zpow_le_zpow_right₀ (by norm_num) h

theorem twoPow_lt_iff {a b : Int} : twoPow a < twoPow b ↔ a < b := by
  simp only [twoPow_eq_zpow]
  exact zpow_lt_zpow_iff_right₀ (by norm_num)

theorem twoPow_natCast (n : Nat) : twoPow (n : Int) = (2 : ℚ) ^ n := by
  rw [twoPow_eq_zpow, zpow_natCast]

theorem twoPow_succ (a : Int) : twoPow (a + 1) = 2 * twoPow a := by
  rw [twoPow_add, mul_comm]
  congr 1

theorem bitLength_zero (fuel : Nat) : bitLength fuel 0 = 0 := by
  cases fuel <;> simp [bitLength]

/-- With enough fuel `bitLength` is the number of binary digits. -/
theorem bitLength_spec : ∀ (fuel n : Nat), n ≤ fuel → 0 < n →
    1 ≤ bitLength fuel n ∧ 2 ^ (bitLength fuel n - 1) ≤ n ∧ n < 2 ^ bitLength fuel n
  | 0, n, h, hn => by omega
  | fuel + 1, n, h, hn => by
    have hne : n ≠ 0 := by omega
    simp only [bitLength, hne, if_false]
    by_cases h2 : n / 2 = 0
    · rw [h2, bitLength_zero]
      have h1 : n = 1 := by omega
      subst h1
      simp
    · obtain ⟨ih0, ih1, ih2⟩ := bitLength_spec fuel (n / 2) (by omega) (by omega)
      obtain ⟨l, hl⟩ : ∃ l, bitLength fuel (n / 2) = l + 1 :=
        ⟨bitLength fuel (n / 2) - 1, by omega⟩
      rw [hl] at ih1 ih2 ⊢
      simp only [Nat.add_sub_cancel] at ih1 ⊢
      rw [pow_succ] at ih2 ⊢
      rw [pow_succ]
      omega

/-- The binade of a positive number brackets it between two powers of two. -/
theorem binade_spec {a : ℚ} (ha : 0 < a) :
    twoPow (binade a) ≤ a ∧ a < twoPow (binade a + 1) := by
  have hnum : 0 < a.num := Rat.num_pos.2 ha
  have hden : 0 < a.den := a.den_pos
  have hn : 0 < a.num.natAbs := Int.natAbs_pos.2 (ne_of_gt hnum)
  obtain ⟨hn0, hn1, hn2⟩ := bitLength_spec a.num.natAbs a.num.natAbs le_rfl hn
  obtain ⟨hd0, hd1, hd2⟩ := bitLength_spec a.den a.den le_rfl hden
  have hdq : (0 : ℚ) < (a.den : ℚ) := by exact_mod_cast hden
  have hnumq : (a.num : ℚ) = ((a.num.natAbs : Nat) : ℚ) := by
    have h1 : (a.num.natAbs : Int) = a.num := Int.natAbs_of_nonneg (le_of_lt hnum)
    have h2 : ((a.num.natAbs : Int) : ℚ) = (a.num : ℚ) := by rw [h1]
    rw [← h2, Int.cast_natCast]
  have haeq : a = ((a.num.natAbs : Nat) : ℚ) / (a.den : ℚ) := by
    rw [← hnumq]
    exact (Rat.num_div_den a).symm
  generalize hbn : bitLength a.num.natAbs a.num.natAbs = bn at hn0 hn1 hn2
  generalize hbd : bitLength a.den a.den = bd at hd0 hd1 hd2
  have e1 : twoPow ((bn : Int) - (bd : Int) + 1) * twoPow ((bd : Int) - 1) = (2 : ℚ) ^ bn := by
    rw [← twoPow_add, ← twoPow_natCast]
    congr 1
    omega
  have e2 : twoPow ((bn : Int) - (bd : Int) - 1) * twoPow (bd : Int) = twoPow ((bn : Int) - 1) := by
    rw [← twoPow_add]
    congr 1
    omega
  have e3 : twoPow ((bd : Int) - 1) = (2 : ℚ) ^ (bd - 1) := by
    rw [← twoPow_natCast]
    congr 1
    omega
  have e4 : twoPow ((bn : Int) - 1) = (2 : ℚ) ^ (bn - 1) := by
    rw [← twoPow_natCast]
    congr 1
    omega
  have q1 : ((2 : ℚ) ^ (bn - 1)) ≤ ((a.num.natAbs : Nat) : ℚ) := by exact_mod_cast hn1
  have q2 : ((a.num.natAbs : Nat) : ℚ) < (2 : ℚ) ^ bn := by exact_mod_cast hn2
  have q3 : ((2 : ℚ) ^ (bd - 1)) ≤ ((a.den : Nat) : ℚ) := by exact_mod_cast hd1
  have q4 : ((a.den : Nat) : ℚ) < (2 : ℚ) ^ bd := by exact_mod_cast hd2
  have upper : a < twoPow ((bn : Int) - (bd : Int) + 1) := by
    rw [haeq, div_lt_iff₀ hdq]
    calc ((a.num.natAbs : Nat) : ℚ) < (2 : ℚ) ^ bn := q2
      _ = twoPow ((bn : Int) - (bd : Int) + 1) * twoPow ((bd : Int) - 1) := e1.symm
      _ ≤ twoPow ((bn : Int) - (bd : Int) + 1) * (a.den : ℚ) := by
        rw [e3]
        exact mul_le_mul_of_nonneg_left q3 (le_of_lt (twoPow_pos _))
  have lower : twoPow ((bn : Int) - (bd : Int) - 1) ≤ a := by
    rw [haeq, le_div_iff₀ hdq]
    calc twoPow ((bn : Int) - (bd : Int) - 1) * (a.den : ℚ)
        ≤ twoPow ((bn : Int) - (bd : Int) - 1) * twoPow (bd : Int) := by
          rw [twoPow_natCast]
          exact mul_le_mul_of_nonneg_left (le_of_lt q4) (le_of_lt (twoPow_pos _))
      _ = twoPow ((bn : Int) - 1) := e2
      _ = (2 : ℚ) ^ (bn - 1) := e4
      _ ≤ ((a.num.natAbs : Nat) : ℚ) := q1
  unfold binade
  simp only [hbn, hbd]
  split_ifs with h
  · exact ⟨h, upper⟩
  · refine ⟨lower, ?_⟩
    have h2 : (bn : Int) - (bd : Int) - 1 + 1 = (bn : Int) - (bd : Int) := by omega
    rw [h2]
    exact lt_of_not_le h

/-- The binade of a positive number at most `2^m` is at most `m`. -/
theorem binade_le {a : ℚ} (ha : 0 < a) {m : Int} (h : a ≤ twoPow m) : binade a ≤ m := by
  by_contra hc
  have h1 : m < binade a := by omega
  have h2 := twoPow_lt_iff.2 h1
  have h3 := (binade_spec ha).1
  linarith

/-- The binade of a number at least `2^m` is at least `m`. -/
theorem le_binade {a : ℚ} {m : Int} (h : twoPow m ≤ a) : m ≤ binade a := by
  have ha : 0 < a := lt_of_lt_of_le (twoPow_pos m) h
  by_contra hc
  have h1 : binade a + 1 ≤ m := by omega
  have h2 := twoPow_le_twoPow h1
  have h3 := (binade_spec ha).2
  linarith

theorem rat_floor_le (m : ℚ) : ((Rat.floor m : Int) : ℚ) ≤ m := Rat.le_floor.1 le_rfl

theorem rat_lt_floor_add_one (m : ℚ) : m < ((Rat.floor m : Int) : ℚ) + 1 := by
  by_contra h
  push_neg at h
  have h1 : Rat.floor m + 1 ≤ Rat.floor m := Rat.le_floor.2 (by push_cast; exact h)
  omega

/-- The nearest integer is within one half. -/
theorem roundEven_error (m : ℚ) : |((roundEven m : Int) : ℚ) - m| ≤ 1 / 2 := by
  have h1 := rat_floor_le m
  have h2 := rat_lt_floor_add_one m
  unfold roundEven
  simp only
  rw [abs_le]
  split_ifs with c1 c2 c3
  · constructor <;> linarith
  · constructor <;> push_cast <;> linarith
  · constructor <;> linarith
  · constructor <;> push_cast <;> linarith

/-- The nearest integer of a number at most the integer `N` is at most `N`. -/
theorem roundEven_le_of_le {m : ℚ} {N : Int} (h : m ≤ (N : ℚ)) : roundEven m ≤ N := by
  have h1 := rat_floor_le m
  have h2 := rat_lt_floor_add_one m
  have h3 : ((Rat.floor m : Int) : ℚ) ≤ (N : ℚ) := le_trans h1 h
  have h4 : Rat.floor m ≤ N := by exact_mod_cast h3
  unfold roundEven
  simp only
  by_cases heq : Rat.floor m = N
  · have h5 : m - ((Rat.floor m : Int) : ℚ) < 1 / 2 := by
      rw [heq]
      linarith
    rw [if_pos h5]
    exact h4
  · have h6 : Rat.floor m + 1 ≤ N := by omega
    split_ifs <;> omega

/-- The nearest integer of a number at least the integer `N` is at least `N`. -/
theorem le_roundEven_of_le {m : ℚ} {N : Int} (h : (N : ℚ) ≤ m) : N ≤ roundEven m := by
  have h1 : N ≤ Rat.floor m := Rat.le_floor.2 h
  unfold roundEven
  simp only
  split_ifs <;> omega

/-- Rounding a number of magnitude at most `2^m`, for an exponent `m` of the
format, gives a finite value of magnitude at most `2^m` and of the same sign. -/
theorem roundTo_bound (p : Nat) (emin emax m : Int) (hp : 1 ≤ p) (h1 : emin ≤ m)
    (h2 : m ≤ emax) {q : ℚ} (hq : |q| ≤ twoPow m) :
    ∃ y, roundTo p emin emax q = FVal.fin y ∧ |y| ≤ twoPow m ∧
      (0 ≤ q → 0 ≤ y) ∧ (q ≤ 0 → y ≤ 0) := by
  by_cases h0 : q = 0
  · refine ⟨0, ?_, ?_, fun _ => le_rfl, fun _ => le_rfl⟩
    · simp [roundTo, h0]
    · simpa using le_of_lt (twoPow_pos m)
  · have ha : 0 < |q| := abs_pos.2 h0
    have he : max (binade |q|) emin ≤ m := max_le (binade_le ha hq) h1
    generalize hE : max (binade |q|) emin = e at he
    have hulp : 0 < twoPow (e - ((p : Int) - 1)) := twoPow_pos _
    have hN : twoPow m = (((2 : Int) ^ (m - e + ((p : Int) - 1)).toNat : Int) : ℚ) *
        twoPow (e - ((p : Int) - 1)) := by
      have hnn : 0 ≤ m - e + ((p : Int) - 1) := by omega
      have h3 : (((2 : Int) ^ (m - e + ((p : Int) - 1)).toNat : Int) : ℚ) =
          twoPow (m - e + ((p : Int) - 1)) := by
        push_cast
        rw [← twoPow_natCast, Int.toNat_of_nonneg hnn]
      rw [h3, ← twoPow_add]
      congr 1
      omega
    have hr0 : 0 ≤ ((roundEven (|q| / twoPow (e - ((p : Int) - 1))) : Int) : ℚ) := by
      exact_mod_cast roundEven_nonneg (div_nonneg (abs_nonneg q) (le_of_lt hulp))
    have hrle : ((roundEven (|q| / twoPow (e - ((p : Int) - 1))) : Int) : ℚ) *
        twoPow (e - ((p : Int) - 1)) ≤ twoPow m := by
      rw [hN]
      apply mul_le_mul_of_nonneg_right _ (le_of_lt hulp)
      have h4 : |q| / twoPow (e - ((p : Int) - 1)) ≤
          (((2 : Int) ^ (m - e + ((p : Int) - 1)).toNat : Int) : ℚ) := by
        rw [div_le_iff₀ hulp, ← hN]
        exact hq
      exact_mod_cast roundEven_le_of_le h4
    have hrnn : 0 ≤ ((roundEven (|q| / twoPow (e - ((p : Int) - 1))) : Int) : ℚ) *
        twoPow (e - ((p : Int) - 1)) := mul_nonneg hr0 (le_of_lt hulp)
    have hfin : ¬ twoPow (emax + 1) ≤
        ((roundEven (|q| / twoPow (e - ((p : Int) - 1))) : Int) : ℚ) *
          twoPow (e - ((p : Int) - 1)) := by
      have h5 : twoPow m < twoPow (emax + 1) := twoPow_lt_iff.2 (by omega)
      intro hc
      linarith
    generalize hr : ((roundEven (|q| / twoPow (e - ((p : Int) - 1))) : Int) : ℚ) *
        twoPow (e - ((p : Int) - 1)) = r at hrle hrnn hfin
    have hval : roundTo p emin emax q = FVal.fin (if 0 < q then r else -r) := by
      unfold roundTo
      simp only [h0, if_false, hE, hr, hfin]
    by_cases hpos : 0 < q
    · rw [if_pos hpos] at hval
      refine ⟨r, hval, ?_, fun _ => hrnn, fun hc => absurd hpos (not_lt.2 hc)⟩
      rw [abs_of_nonneg hrnn]
      exact hrle
    · rw [if_neg hpos] at hval
      refine ⟨-r, hval, ?_, fun hc => absurd (lt_of_le_of_ne hc (Ne.symm h0)) hpos,
        fun _ => by linarith⟩
      rw [abs_neg, abs_of_nonneg hrnn]
      exact hrle

/-- Rounding a number at least `2^m`, for an exponent `m` of the format, gives
`+inf` or a finite value at least `2^m`. -/
theorem roundTo_ge (p : Nat) (emin emax m : Int) (hp : 1 ≤ p) (h1 : emin ≤ m)
    {q : ℚ} (hq : twoPow m ≤ q) :
    roundTo p emin emax q = FVal.posInf ∨
      ∃ y, roundTo p emin emax q = FVal.fin y ∧ twoPow m ≤ y := by
  have hpos : 0 < q := lt_of_lt_of_le (twoPow_pos m) hq
  have h0 : q ≠ 0 := ne_of_gt hpos
  have habs : |q| = q := abs_of_pos hpos
  have hb : m ≤ binade q := le_binade hq
  have hE : max (binade q) emin = binade q := max_eq_left (by omega)
  have hulp : 0 < twoPow (binade q - ((p : Int) - 1)) := twoPow_pos _
  have hN : twoPow (binade q) = (((2 : Int) ^ (p - 1) : Int) : ℚ) *
      twoPow (binade q - ((p : Int) - 1)) := by
    have h3 : (((2 : Int) ^ (p - 1) : Int) : ℚ) = twoPow ((p : Int) - 1) := by
      push_cast
      rw [← twoPow_natCast]
      congr 1
      omega
    rw [h3, ← twoPow_add]
    congr 1
    omega
  have hrge : twoPow m ≤ ((roundEven (q / twoPow (binade q - ((p : Int) - 1))) : Int) : ℚ) *
      twoPow (binade q - ((p : Int) - 1)) := by
    have h4 : (((2 : Int) ^ (p - 1) : Int) : ℚ) ≤ q / twoPow (binade q - ((p : Int) - 1)) := by
      rw [le_div_iff₀ hulp, ← hN]
      exact (binade_spec hpos).1
    have h5 : (((2 : Int) ^ (p - 1) : Int) : ℚ) ≤
        ((roundEven (q / twoPow (binade q - ((p : Int) - 1))) : Int) : ℚ) := by
      exact_mod_cast le_roundEven_of_le h4
    calc twoPow m ≤ twoPow (binade q) := twoPow_le_twoPow hb
      _ = (((2 : Int) ^ (p - 1) : Int) : ℚ) * twoPow (binade q - ((p : Int) - 1)) := hN
      _ ≤ _ := mul_le_mul_of_nonneg_right h5 (le_of_lt hulp)
  unfold roundTo
  simp only [h0, if_false, habs, hE, hpos, if_true]
  split_ifs with hc
  · exact Or.inl rfl
  · exact Or.inr ⟨_, rfl, hrge⟩

/-! ## The error of one rounding -/

theorem twoPow_neg_nat (n : Nat) : twoPow (-(n : Int)) = 1 / 2 ^ n := by
  rw [twoPow_eq_zpow, zpow_neg, zpow_natCast, one_div]

/-- A finite rounding result differs from the number rounded by at most
`2^-p` times the larger of its magnitude and `2^emin`. -/
theorem roundTo_error (p : Nat) (emin emax : Int) {q y : ℚ}
    (h : roundTo p emin emax q = FVal.fin y) :
    |y - q| ≤ twoPow (-(p : Int)) * max |q| (twoPow emin) := by
  by_cases h0 : q = 0
  · subst h0
    have hy : y = 0 := by
      simp [roundTo] at h
      exact h.symm
    subst hy
    simp only [sub_zero, abs_zero]
    exact mul_nonneg (le_of_lt (twoPow_pos _)) (le_max_of_le_right (le_of_lt (twoPow_pos _)))
  · have ha : 0 < |q| := abs_pos.2 h0
    generalize hE : max (binade |q|) emin = e
    have hulp : 0 < twoPow (e - ((p : Int) - 1)) := twoPow_pos _
    have herr := roundEven_error (|q| / twoPow (e - ((p : Int) - 1)))
    have hhalf : twoPow (e - ((p : Int) - 1)) = 2 * (twoPow (-(p : Int)) * twoPow e) := by
      rw [← twoPow_add, ← twoPow_succ]
      congr 1
      omega
    have hE2 : twoPow e ≤ max |q| (twoPow emin) := by
      rw [← hE]
      rcases le_total (binade |q|) emin with hc | hc
      · rw [max_eq_right hc]
        exact le_max_right _ _
      · rw [max_eq_left hc]
        exact le_max_of_le_left (binade_spec ha).1
    have hdiff : abs (((roundEven (|q| / twoPow (e - ((p : Int) - 1))) : Int) : ℚ) *
        twoPow (e - ((p : Int) - 1)) - |q|) ≤ twoPow (-(p : Int)) * twoPow e := by
      have h1 : ((roundEven (|q| / twoPow (e - ((p : Int) - 1))) : Int) : ℚ) *
          twoPow (e - ((p : Int) - 1)) - |q| =
          (((roundEven (|q| / twoPow (e - ((p : Int) - 1))) : Int) : ℚ) -
            |q| / twoPow (e - ((p : Int) - 1))) * twoPow (e - ((p : Int) - 1)) := by
        field_simp
      rw [h1, abs_mul, abs_of_pos hulp]
      calc _ ≤ 1 / 2 * twoPow (e - ((p : Int) - 1)) :=
            mul_le_mul_of_nonneg_right herr (le_of_lt hulp)
        _ = twoPow (-(p : Int)) * twoPow e := by
            rw [hhalf]
            ring
    generalize hr : ((roundEven (|q| / twoPow (e - ((p : Int) - 1))) : Int) : ℚ) *
        twoPow (e - ((p : Int) - 1)) = r at hdiff
    have hbound : abs (r - |q|) ≤ twoPow (-(p : Int)) * max |q| (twoPow emin) :=
      le_trans hdiff (mul_le_mul_of_nonneg_left hE2 (le_of_lt (twoPow_pos _)))
    unfold roundTo at h
    simp only [h0, if_false, hE, hr] at h
    by_cases hpos : 0 < q
    · simp only [hpos, if_true] at h
      split_ifs at h
      have hy : r = y := by simpa using h
      rw [← hy]
      rw [abs_of_pos hpos] at hbound ⊢
      exact hbound
    · simp only [hpos, if_false] at h
      split_ifs at h
      have hy : -r = y := by simpa using h
      have hneg : q < 0 := lt_of_le_of_ne (not_lt.1 hpos) h0
      rw [← hy]
      rw [abs_of_neg hneg] at hbound ⊢
      have e2 : -r - q = -(r - -q) := by ring
      rw [e2, abs_neg]
      exact hbound

/-- The rounding error of a `double` result: at most `2^-53` times the sum of
the magnitude rounded and `2^-1022`. -/
theorem rnd64_error {q y : ℚ} (h : rnd64 q = FVal.fin y) :
    |y - q| ≤ 1 / 2 ^ 53 * (|q| + twoPow (-1022)) := by
  have h1 := roundTo_error 53 (-1022) 1023 h
  have h2 : twoPow (-((53 : Nat) : Int)) = 1 / 2 ^ 53 := twoPow_neg_nat 53
  rw [h2] at h1
  have h3 : max |q| (twoPow (-1022)) ≤ |q| + twoPow (-1022) :=
    max_le (by linarith [twoPow_pos (-1022)]) (by linarith [abs_nonneg q])
  calc |y - q| ≤ 1 / 2 ^ 53 * max |q| (twoPow (-1022)) := h1
    _ ≤ 1 / 2 ^ 53 * (|q| + twoPow (-1022)) := mul_le_mul_of_nonneg_left h3 (by norm_num)

/-- The rounding error of a `double` result at least `2^-1022` in magnitude,
relative to the result. -/
theorem rnd64_error_normal {q y : ℚ} (h : rnd64 q = FVal.fin y) (hy : twoPow (-1022) ≤ y)
    (hq : 0 ≤ q) : |y - q| ≤ 1 / 2 ^ 52 * y := by
  have h1 := roundTo_error 53 (-1022) 1023 h
  have h2 : twoPow (-((53 : Nat) : Int)) = 1 / 2 ^ 53 := twoPow_neg_nat 53
  rw [h2, abs_of_nonneg hq] at h1
  have hm := twoPow_pos (-1022)
  rcases le_total q (twoPow (-1022)) with hc | hc
  · rw [max_eq_right hc] at h1
    calc |y - q| ≤ 1 / 2 ^ 53 * twoPow (-1022) := h1
      _ ≤ 1 / 2 ^ 52 * y := by
        have : (1 : ℚ) / 2 ^ 53 * twoPow (-1022) ≤ 1 / 2 ^ 52 * twoPow (-1022) := by
          apply mul_le_mul_of_nonneg_right _ (le_of_lt hm)
          norm_num
        have h4 : (1 : ℚ) / 2 ^ 52 * twoPow (-1022) ≤ 1 / 2 ^ 52 * y :=
          mul_le_mul_of_nonneg_left hy (by norm_num)
        linarith
  · rw [max_eq_left hc] at h1
    have h3 := abs_le.1 h1
    have h4 : q ≤ 2 * y := by
      have : q - y ≤ 1 / 2 ^ 53 * q := by linarith [h3.1]
      have h5 : (1 : ℚ) / 2 ^ 53 * q ≤ 1 / 2 * q := by
        apply mul_le_mul_of_nonneg_right _ hq
        norm_num
      linarith
    have h6 : (1 : ℚ) / 2 ^ 53 * q ≤ 1 / 2 ^ 52 * y := by
      have : (1 : ℚ) / 2 ^ 53 * q ≤ 1 / 2 ^ 53 * (2 * y) :=
        mul_le_mul_of_nonneg_left h4 (by norm_num)
      have e : (1 : ℚ) / 2 ^ 53 * (2 * y) = 1 / 2 ^ 52 * y := by ring
      linarith
    exact le_trans h1 h6

/-- The rounding error of a `float` result: at most `2^-24` times the sum of
the magnitude rounded and `2^-126`. -/
theorem rnd32_error {q y : ℚ} (h : rnd32 q = FVal.fin y) :
    |y - q| ≤ 1 / 2 ^ 24 * (|q| + twoPow (-126)) := by
  have h1 := roundTo_error 24 (-126) 127 h
  have h2 : twoPow (-((24 : Nat) : Int)) = 1 / 2 ^ 24 := twoPow_neg_nat 24
  rw [h2] at h1
  have h3 : max |q| (twoPow (-126)) ≤ |q| + twoPow (-126) :=
    max_le (by linarith [twoPow_pos (-126)]) (by linarith [abs_nonneg q])
  calc |y - q| ≤ 1 / 2 ^ 24 * max |q| (twoPow (-126)) := h1
    _ ≤ 1 / 2 ^ 24 * (|q| + twoPow (-126)) := mul_le_mul_of_nonneg_left h3 (by norm_num)

/-! ## Clouds within the range of `float` -/

theorem rnd32_bound (m : Int) (h1 : -126 ≤ m) (h2 : m ≤ 127) {q : ℚ} (hq : |q| ≤ twoPow m) :
    ∃ y, rnd32 q = FVal.fin y ∧ |y| ≤ twoPow m ∧ (0 ≤ q → 0 ≤ y) ∧ (q ≤ 0 → y ≤ 0) :=
  roundTo_bound 24 (-126) 127 m (by norm_num) h1 h2 hq

theorem rnd64_bound (m : Int) (h1 : -1022 ≤ m) (h2 : m ≤ 1023) {q : ℚ} (hq : |q| ≤ twoPow m) :
    ∃ y, rnd64 q = FVal.fin y ∧ |y| ≤ twoPow m ∧ (0 ≤ q → 0 ≤ y) ∧ (q ≤ 0 → y ≤ 0) :=
  roundTo_bound 53 (-1022) 1023 m (by norm_num) h1 h2 hq

theorem twoPow_zero : twoPow 0 = 1 := by simp [twoPow]

theorem twoPow_one : twoPow 1 = 2 := by simp [twoPow]

/-- The count `n >= 1` converts to `+inf` or to a finite `float` at least 1,
and at least 2 when `n >= 2`. -/
theorem floatOfSize_ge {n : Nat} (hn : 1 ≤ n) :
    floatOfSize n = FVal.posInf ∨
      ∃ f, floatOfSize n = FVal.fin f ∧ 1 ≤ f ∧ (2 ≤ n → 2 ≤ f) := by
  have h1 : twoPow 0 ≤ (n : ℚ) := by
    rw [twoPow_zero]
    exact_mod_cast hn
  rcases roundTo_ge 24 (-126) 127 0 (by norm_num) (by norm_num) h1 with h | ⟨y, hy, hy1⟩
  · exact Or.inl h
  · refine Or.inr ⟨y, hy, by rw [twoPow_zero] at hy1; exact hy1, fun h2 => ?_⟩
    have h3 : twoPow 1 ≤ (n : ℚ) := by
      rw [twoPow_one]
      exact_mod_cast h2
    rcases roundTo_ge 24 (-126) 127 1 (by norm_num) (by norm_num) h3 with h | ⟨z, hz, hz1⟩
    · rw [hy] at h
      exact absurd h (by simp)
    · rw [hy] at hz
      have h5 : y = z := by simpa using hz
      rw [h5, ← twoPow_one]
      exact hz1

/-- The quotient `delta / n` of the running mean: with `|x| <= 2^j` the rounded
difference divided by the count `n >= 1` is finite, of magnitude at most
`2^j`, at most `2^(j-1)` when `n >= 2`, and of the sign of `x`. -/
theorem delta_n_bound {n : Nat} (hn : 1 ≤ n) (j : Int) (h1 : -125 ≤ j) (h2 : j ≤ 127)
    {x : ℚ} (hx : |x| ≤ twoPow j) :
    ∃ dn, div32 (rnd32 x) (floatOfSize n) = FVal.fin dn ∧ |dn| ≤ twoPow j ∧
      (2 ≤ n → |dn| ≤ twoPow (j - 1)) ∧ (0 ≤ x → 0 ≤ dn) ∧ (x ≤ 0 → dn ≤ 0) := by
  obtain ⟨d, hd, hdb, hdp, hdn⟩ := rnd32_bound j (by omega) h2 hx
  have hj : twoPow j = 2 * twoPow (j - 1) := by
    rw [← twoPow_succ]
    congr 1
    omega
  have hpos := twoPow_pos (j - 1)
  rcases floatOfSize_ge hn with hf | ⟨f, hf, hf1, hf2⟩
  · refine ⟨0, by rw [hd, hf]; rfl, ?_, fun _ => ?_, fun _ => le_rfl, fun _ => le_rfl⟩
    · simpa using le_of_lt (twoPow_pos j)
    · simpa using le_of_lt hpos
  · have hf0 : 0 < f := by linarith
    have hne : f ≠ 0 := ne_of_gt hf0
    have habs : |d / f| ≤ twoPow j := by
      rw [abs_div, abs_of_pos hf0, div_le_iff₀ hf0]
      nlinarith [abs_nonneg d, twoPow_pos j]
    obtain ⟨y, hy, hyb, hyp, hyn⟩ := rnd32_bound j (by omega) h2 habs
    have hval : div32 (rnd32 x) (floatOfSize n) = FVal.fin y := by
      rw [hd, hf]
      simp only [div32, FVal.div, hne, if_false]
      exact hy
    refine ⟨y, hval, hyb, fun hn2 => ?_, fun h => hyp (div_nonneg (hdp h) (le_of_lt hf0)),
      fun h => hyn (div_nonpos_of_nonpos_of_nonneg (hdn h) (le_of_lt hf0))⟩
    have habs2 : |d / f| ≤ twoPow (j - 1) := by
      rw [abs_div, abs_of_pos hf0, div_le_iff₀ hf0]
      have := hf2 hn2
      nlinarith [abs_nonneg d]
    obtain ⟨y2, hy2, hyb2, _, _⟩ := rnd32_bound (j - 1) (by omega) (by omega) habs2
    have h5 : rnd32 (d / f) = FVal.fin y2 := hy2
    rw [hy] at h5
    have h6 : y = y2 := by simpa using h5
    rw [h6]
    exact hyb2

/-- One update of the running mean keeps it finite and within `2^126`, for a
value within `2^125`; the first update starts from zero. -/
theorem centroidUpdateFloat_bound {n : Nat} (hn : 1 ≤ n) {v a : ℚ}
    (hv : |v| ≤ twoPow 125) (ha : |a| ≤ twoPow 126) (h0 : n = 1 → a = 0) :
    ∃ y, centroidUpdateFloat n (FVal.fin v) (FVal.fin a) = FVal.fin y ∧ |y| ≤ twoPow 126 := by
  have hB := twoPow_pos 125
  have e126 : twoPow 126 = 2 * twoPow 125 := twoPow_succ 125
  have e127 : twoPow 127 = 4 * twoPow 125 := by
    have : twoPow 127 = 2 * twoPow 126 := twoPow_succ 126
    rw [this, e126]
    ring
  have e124 : twoPow 125 = 2 * twoPow 124 := twoPow_succ 124
  have hsub : sub32 (FVal.fin v) (FVal.fin a) = rnd32 (v - a) := by
    simp [sub32, FVal.sub, FVal.add, FVal.neg, sub_eq_add_neg]
  have hv2 := abs_le.1 hv
  have ha2 := abs_le.1 ha
  have key : ∃ dn, div32 (rnd32 (v - a)) (floatOfSize n) = FVal.fin dn ∧
      |a + dn| ≤ twoPow 126 := by
    by_cases hn2 : 2 ≤ n
    · by_cases hd : 0 ≤ v - a
      · by_cases hs : 0 ≤ a
        · have hx : |v - a| ≤ twoPow 125 := by
            rw [abs_le]
            constructor <;> linarith
          obtain ⟨dn, h1, _, h3, h4, _⟩ := delta_n_bound hn 125 (by norm_num) (by norm_num) hx
          have h5 := abs_le.1 (h3 hn2)
          have h6 := h4 hd
          have e : (125 : Int) - 1 = 124 := by norm_num
          rw [e] at h5
          refine ⟨dn, h1, ?_⟩
          rw [abs_le]
          constructor <;> linarith
        · have hx : |v - a| ≤ twoPow 127 := by
            rw [abs_le]
            constructor <;> linarith
          obtain ⟨dn, h1, _, h3, h4, _⟩ := delta_n_bound hn 127 (by norm_num) (by norm_num) hx
          have h5 := abs_le.1 (h3 hn2)
          have h6 := h4 hd
          have e : (127 : Int) - 1 = 126 := by norm_num
          rw [e] at h5
          refine ⟨dn, h1, ?_⟩
          rw [abs_le]
          constructor <;> linarith
      · by_cases hs : a ≤ 0
        · have hx : |v - a| ≤ twoPow 125 := by
            rw [abs_le]
            constructor <;> linarith
          obtain ⟨dn, h1, _, h3, _, h4⟩ := delta_n_bound hn 125 (by norm_num) (by norm_num) hx
          have h5 := abs_le.1 (h3 hn2)
          have h6 := h4 (by linarith)
          have e : (125 : Int) - 1 = 124 := by norm_num
          rw [e] at h5
          refine ⟨dn, h1, ?_⟩
          rw [abs_le]
          constructor <;> linarith
        · have hx : |v - a| ≤ twoPow 127 := by
            rw [abs_le]
            constructor <;> linarith
          obtain ⟨dn, h1, _, h3, _, h4⟩ := delta_n_bound hn 127 (by norm_num) (by norm_num) hx
          have h5 := abs_le.1 (h3 hn2)
          have h6 := h4 (by linarith)
          have e : (127 : Int) - 1 = 126 := by norm_num
          rw [e] at h5
          refine ⟨dn, h1, ?_⟩
          rw [abs_le]
          constructor <;> linarith
    · have ha0 : a = 0 := h0 (by omega)
      subst ha0
      have hx : |v - 0| ≤ twoPow 125 := by simpa using hv
      obtain ⟨dn, h1, h2, _, _, _⟩ := delta_n_bound hn 125 (by norm_num) (by norm_num) hx
      refine ⟨dn, h1, ?_⟩
      have h5 := abs_le.1 h2
      rw [abs_le]
      constructor <;> linarith
  obtain ⟨dn, h1, h2⟩ := key
  obtain ⟨y, hy, hyb, _, _⟩ := rnd32_bound 126 (by norm_num) (by norm_num) h2
  refine ⟨y, ?_, hyb⟩
  unfold centroidUpdateFloat
  simp only [hsub, h1]
  exact hy

theorem inRange_pointAt {pSet : PointSet} (hb : ∀ p ∈ pSet.points, InRange p) (i : Nat) :
    InRange (pSet.pointAt i) := by
  unfold PointSet.pointAt
  by_cases hi : i < pSet.points.length
  · rw [List.getD_eq_getElem _ _ hi]
    exact hb _ (List.getElem_mem hi)
  · rw [List.getD_eq_default _ _ (by omega)]
    simp [InRange]

theorem twoPow_125 : twoPow 125 = 2 ^ 125 := by
  have h := twoPow_natCast 125
  exact_mod_cast h

/-- The running mean over points in range stays finite and within `2^126`. -/
theorem centroid_foldl_bound {pSet : PointSet} (hb : ∀ p ∈ pSet.points, InRange p) :
    ∀ (ids : List Nat) (st : Nat × FPoint),
      (∃ x y z, st.2 = (FVal.fin x, FVal.fin y, FVal.fin z) ∧ |x| ≤ twoPow 126 ∧
        |y| ≤ twoPow 126 ∧ |z| ≤ twoPow 126 ∧ (st.1 = 0 → x = 0 ∧ y = 0 ∧ z = 0)) →
      ∃ x y z, (ids.foldl (centroidStepFloat pSet) st).2 = (FVal.fin x, FVal.fin y, FVal.fin z) ∧
        |x| ≤ twoPow 126 ∧ |y| ≤ twoPow 126 ∧ |z| ≤ twoPow 126
  | [], st, h => by
    obtain ⟨x, y, z, h1, h2, h3, h4, _⟩ := h
    exact ⟨x, y, z, h1, h2, h3, h4⟩
  | j :: rest, st, h => by
    obtain ⟨x, y, z, h1, h2, h3, h4, h5⟩ := h
    obtain ⟨b1, b2, b3⟩ := inRange_pointAt hb j
    rw [← twoPow_125] at b1 b2 b3
    have hn : 1 ≤ st.1 + 1 := by omega
    have hz : st.1 + 1 = 1 → st.1 = 0 := by omega
    obtain ⟨x2, hx2, hx2b⟩ := centroidUpdateFloat_bound hn b1 h2 (fun e => (h5 (hz e)).1)
    obtain ⟨y2, hy2, hy2b⟩ := centroidUpdateFloat_bound hn b2 h3 (fun e => (h5 (hz e)).2.1)
    obtain ⟨z2, hz2, hz2b⟩ := centroidUpdateFloat_bound hn b3 h4 (fun e => (h5 (hz e)).2.2)
    rw [List.foldl_cons]
    apply centroid_foldl_bound hb rest
    refine ⟨x2, y2, z2, ?_, hx2b, hy2b, hz2b, fun e => ?_⟩
    · simp only [centroidStepFloat, h1, hx2, hy2, hz2]
    · simp [centroidStepFloat] at e

/-- The centroid computed over points in range is finite and within `2^126`. -/
theorem computeCentroidFloat_bound {pSet : PointSet} (hb : ∀ p ∈ pSet.points, InRange p)
    (ids : List Nat) :
    ∃ x y z, computeCentroidFloat pSet ids = (FVal.fin x, FVal.fin y, FVal.fin z) ∧
      |x| ≤ twoPow 126 ∧ |y| ≤ twoPow 126 ∧ |z| ≤ twoPow 126 := by
  unfold computeCentroidFloat
  apply centroid_foldl_bound hb ids
  refine ⟨0, 0, 0, ?_, ?_, ?_, ?_, fun _ => ⟨rfl, rfl, rfl⟩⟩
  · show ((0 : FVal), (0 : FVal), (0 : FVal)) = _
    simp [OfNat.ofNat]
  all_goals simpa using le_of_lt (twoPow_pos 126)

/-- The square of a `float` difference of two values within `2^126` and
`2^125` is a finite `double` in `[0, 2^254]`. -/
theorem sq64_sub32_bound {c p : ℚ} (hc : |c| ≤ twoPow 126) (hp : |p| ≤ twoPow 125) :
    ∃ s, sq64 (sub32 (FVal.fin c) (FVal.fin p)) = FVal.fin s ∧ 0 ≤ s ∧ s ≤ twoPow 254 := by
  have hB := twoPow_pos 125
  have e126 : twoPow 126 = 2 * twoPow 125 := twoPow_succ 125
  have e127 : twoPow 127 = 4 * twoPow 125 := by
    have : twoPow 127 = 2 * twoPow 126 := twoPow_succ 126
    rw [this, e126]
    ring
  have hsub : sub32 (FVal.fin c) (FVal.fin p) = rnd32 (c - p) := by
    simp [sub32, FVal.sub, FVal.add, FVal.neg, sub_eq_add_neg]
  have hc2 := abs_le.1 hc
  have hp2 := abs_le.1 hp
  have hx : |c - p| ≤ twoPow 127 := by
    rw [abs_le]
    constructor <;> linarith
  obtain ⟨d, hd, hdb, _, _⟩ := rnd32_bound 127 (by norm_num) (by norm_num) hx
  have e254 : twoPow 254 = twoPow 127 * twoPow 127 := by
    rw [← twoPow_add]
    norm_num
  have hsq : |d * d| ≤ twoPow 254 := by
    rw [abs_mul, e254]
    exact mul_le_mul hdb hdb (abs_nonneg d) (le_of_lt (twoPow_pos 127))
  obtain ⟨s, hs, hsb, hsp, _⟩ := rnd64_bound 254 (by norm_num) (by norm_num) hsq
  refine ⟨s, ?_, hsp (mul_self_nonneg d), le_trans (le_abs_self s) hsb⟩
  rw [hsub, hd]
  exact hs

theorem twoPow_256_lt : twoPow 256 < DBL_MAX := by
  have h := twoPow_natCast 256
  have h2 : twoPow 256 = 2 ^ 256 := by exact_mod_cast h
  rw [h2, DBL_MAX]
  norm_num

/-- From a centroid within `2^126` the computed squared distance to a point in
range is below `DBL_MAX`. -/
theorem sqrDistFloat_lt_max {x y z : ℚ} (hx : |x| ≤ twoPow 126) (hy : |y| ≤ twoPow 126)
    (hz : |z| ≤ twoPow 126) {p : Point} (hp : InRange p) :
    FVal.lt (sqrDistFloat (FVal.fin x, FVal.fin y, FVal.fin z) p) (FVal.fin DBL_MAX) = true := by
  obtain ⟨b1, b2, b3⟩ := hp
  rw [← twoPow_125] at b1 b2 b3
  obtain ⟨s1, e1, n1, u1⟩ := sq64_sub32_bound hx b1
  obtain ⟨s2, e2, n2, u2⟩ := sq64_sub32_bound hy b2
  obtain ⟨s3, e3, n3, u3⟩ := sq64_sub32_bound hz b3
  have e255 : twoPow 255 = 2 * twoPow 254 := twoPow_succ 254
  have e256 : twoPow 256 = 2 * twoPow 255 := twoPow_succ 255
  have h12 : |s1 + s2| ≤ twoPow 255 := by
    rw [abs_of_nonneg (add_nonneg n1 n2)]
    linarith
  obtain ⟨t, ht, htb, htp, _⟩ := rnd64_bound 255 (by norm_num) (by norm_num) h12
  have ht0 := htp (add_nonneg n1 n2)
  have ht1 := le_trans (le_abs_self t) htb
  have h123 : |t + s3| ≤ twoPow 256 := by
    rw [abs_of_nonneg (add_nonneg ht0 n3)]
    linarith [twoPow_pos 254]
  obtain ⟨w, hw, hwb, _, _⟩ := rnd64_bound 256 (by norm_num) (by norm_num) h123
  have hw1 := le_trans (le_abs_self w) hwb
  have hval : sqrDistFloat (FVal.fin x, FVal.fin y, FVal.fin z) p = FVal.fin w := by
    unfold sqrDistFloat
    simp only [e1, e2, e3]
    have ha : add64 (FVal.fin s1) (FVal.fin s2) = FVal.fin t := ht
    rw [ha]
    exact hw
  rw [hval]
  simp only [FVal.lt, decide_eq_true_eq]
  exact lt_of_le_of_lt hw1 twoPow_256_lt

/-- In a cloud whose coordinates all have magnitude at most `2^125` the scan
finds a member in every non-empty id list. -/
theorem scanFinds_of_inRange {pSet : PointSet} (hb : ∀ p ∈ pSet.points, InRange p)
    {ids : List Nat} (hne : ids ≠ []) : ScanFinds pSet ids := by
  obtain ⟨x, y, z, hc, hx, hy, hz⟩ := computeCentroidFloat_bound hb ids
  obtain ⟨a, rest, rfl⟩ := List.exists_cons_of_ne_nil hne
  refine ⟨a, List.mem_cons_self _ _, ?_⟩
  rw [hc]
  exact sqrDistFloat_lt_max hx hy hz (inRange_pointAt hb a)

/-- A level over a cloud whose coordinates all have magnitude at most `2^125`
keeps a member of every voxel. -/
theorem keepsMembers_of_inRange (s : Scale) (hb : ∀ p ∈ s.pSet.points, InRange p) :
    s.KeepsMembers := by
  intro t _ hlen
  refine Or.inr (scanFinds_of_inRange hb ?_)
  intro hnil
  rw [hnil] at hlen
  simp at hlen

/-! ## Scans that keep the first least value -/

/-- A scan that replaces its state `(a, d)` by `(v p, d p)` whenever `d p < d`,
started from `(a0, d0)`: either nothing was below `d0` and the state is
unchanged, or the state comes from an element `p` of the list with `d p < d0`
such that no element has a value below `d p` and no earlier element has the
value `d p`. -/
theorem scan_foldl {α β : Type} (d : β → FVal) (v : β → α) (l : List β) (a0 : α) (d0 : FVal) :
    (l.foldl (fun st p => if FVal.lt (d p) st.2 = true then (v p, d p) else st) (a0, d0)
          = (a0, d0) ∧
        ∀ q ∈ l, FVal.lt (d q) d0 = false) ∨
    (∃ pre p post, l = pre ++ p :: post ∧
        l.foldl (fun st p => if FVal.lt (d p) st.2 = true then (v p, d p) else st) (a0, d0)
          = (v p, d p) ∧
        FVal.lt (d p) d0 = true ∧
        (∀ q ∈ pre, FVal.lt (d q) (d p) = false ∧ d q ≠ d p) ∧
        (∀ q ∈ post, FVal.lt (d q) (d p) = false)) := by
  induction l generalizing a0 d0 with
  | nil => left; simp
  | cons a rest ih =>
    rw [List.foldl_cons]
    by_cases hlt : FVal.lt (d a) d0 = true
    · simp only [hlt, if_true]
      right
      rcases ih (v a) (d a) with ⟨h1, h2⟩ | ⟨pre, p, post, h1, h2, h3, h4, h5⟩
      · exact ⟨[], a, rest, rfl, h1, hlt, by simp, h2⟩
      · refine ⟨a :: pre, p, post, by rw [h1]; rfl, h2, fval_lt_trans h3 hlt, ?_, h5⟩
        intro q hq
        rcases List.mem_cons.1 hq with h | h
        · rw [h]
          refine ⟨fval_lt_asymm h3, ?_⟩
          intro e
          rw [e, fval_lt_irrefl] at h3
          exact Bool.false_ne_true h3
        · exact h4 q h
    · simp only [hlt]
      have hlt' : FVal.lt (d a) d0 = false := by simpa using hlt
      rcases ih a0 d0 with ⟨h1, h2⟩ | ⟨pre, p, post, h1, h2, h3, h4, h5⟩
      · left
        refine ⟨h1, ?_⟩
        intro q hq
        rcases List.mem_cons.1 hq with h | h
        · rw [h]; exact hlt'
        · exact h2 q h
      · right
        refine ⟨a :: pre, p, post, by rw [h1]; rfl, h2, h3, ?_, h5⟩
        intro q hq
        rcases List.mem_cons.1 hq with h | h
        · rw [h]
          constructor
          · by_contra hc
            have hc' : FVal.lt (d a) (d p) = true := by simpa using hc
            exact hlt (fval_lt_trans hc' h3)
          · intro e
            rw [e] at hlt
            exact hlt h3
        · exact h4 q h

/-- The scan of scale.cpp:212-222 from `(0, DBL_MAX)`: either no listed point
has a squared distance below `DBL_MAX` and `pmin` is still 0, or `pmin` is a
listed point with a distance below `DBL_MAX` such that no listed point has a
smaller distance and no earlier one has the same. -/
theorem closestToCentroid_scan (pSet : PointSet) (c : FPoint) (ids : List Nat) :
    (closestToCentroid pSet c ids = 0 ∧
        ∀ q ∈ ids, FVal.lt (sqrDistFloat c (pSet.pointAt q)) (FVal.fin DBL_MAX) = false) ∨
    (∃ pre post, ids = pre ++ closestToCentroid pSet c ids :: post ∧
        FVal.lt (sqrDistFloat c (pSet.pointAt (closestToCentroid pSet c ids)))
          (FVal.fin DBL_MAX) = true ∧
        (∀ q ∈ pre,
          FVal.lt (sqrDistFloat c (pSet.pointAt q))
            (sqrDistFloat c (pSet.pointAt (closestToCentroid pSet c ids))) = false ∧
          sqrDistFloat c (pSet.pointAt q) ≠
            sqrDistFloat c (pSet.pointAt (closestToCentroid pSet c ids))) ∧
        (∀ q ∈ post,
          FVal.lt (sqrDistFloat c (pSet.pointAt q))
            (sqrDistFloat c (pSet.pointAt (closestToCentroid pSet c ids))) = false)) := by
  have hfold : closestToCentroid pSet c ids =
      (ids.foldl (fun st p =>
        if FVal.lt (sqrDistFloat c (pSet.pointAt p)) st.2 = true
        then (p, sqrDistFloat c (pSet.pointAt p)) else st) (0, FVal.fin DBL_MAX)).1 := rfl
  rcases scan_foldl (fun p => sqrDistFloat c (pSet.pointAt p)) (fun p => p) ids 0
      (FVal.fin DBL_MAX) with ⟨h1, h2⟩ | ⟨pre, p, post, h1, h2, h3, h4, h5⟩
  · left
    rw [hfold, h1]
    exact ⟨rfl, h2⟩
  · right
    have e : closestToCentroid pSet c ids = p := by rw [hfold, h2]
    rw [e]
    exact ⟨pre, post, h1, h3, h4, h5⟩

/-- When the scan finds a member, the centroid is finite and every squared
distance to it is a number that is not negative. -/
theorem scanFinds_nonneg (pSet : PointSet) (ids : List Nat) (h : ScanFinds pSet ids) (p : Point) :
    (sqrDistFloat (computeCentroidFloat pSet ids) p).IsNonneg := by
  obtain ⟨q, _, hq⟩ := h
  have hfin := (nonneg_of_lt_fin (sqrDistFloat_notNeg _ _) hq).1
  exact sqrDistFloat_nonneg (sqrDistFloat_isFinite hfin) p

/-- When the scan finds a member, `pmin` is the first listed point at the
least computed squared distance to the computed centroid: every earlier point
is strictly farther, no later point is closer. -/
theorem closestToCentroid_first_min (pSet : PointSet) (ids : List Nat)
    (h : ScanFinds pSet ids) :
    ∃ pre post,
      ids = pre ++ closestToCentroid pSet (computeCentroidFloat pSet ids) ids :: post ∧
      FVal.lt (sqrDistFloat (computeCentroidFloat pSet ids)
          (pSet.pointAt (closestToCentroid pSet (computeCentroidFloat pSet ids) ids)))
        (FVal.fin DBL_MAX) = true ∧
      (∀ q ∈ pre,
        FVal.lt (sqrDistFloat (computeCentroidFloat pSet ids)
            (pSet.pointAt (closestToCentroid pSet (computeCentroidFloat pSet ids) ids)))
          (sqrDistFloat (computeCentroidFloat pSet ids) (pSet.pointAt q)) = true) ∧
      (∀ q ∈ pre ++ post,
        FVal.lt (sqrDistFloat (computeCentroidFloat pSet ids) (pSet.pointAt q))
          (sqrDistFloat (computeCentroidFloat pSet ids)
            (pSet.pointAt (closestToCentroid pSet (computeCentroidFloat pSet ids) ids)))
          = false) := by
  rcases closestToCentroid_scan pSet (computeCentroidFloat pSet ids) ids with
    ⟨_, h2⟩ | ⟨pre, post, h1, h2, h3, h4⟩
  · obtain ⟨q, hq, hlt⟩ := h
    rw [h2 q hq] at hlt
    exact absurd hlt Bool.false_ne_true
  · refine ⟨pre, post, h1, h2, ?_, ?_⟩
    · intro q hq
      obtain ⟨h5, h6⟩ := h3 q hq
      rcases fval_lt_total (scanFinds_nonneg pSet ids h (pSet.pointAt q))
          (scanFinds_nonneg pSet ids h
            (pSet.pointAt (closestToCentroid pSet (computeCentroidFloat pSet ids) ids))) with
        h7 | h7 | h7
      · rw [h5] at h7; exact absurd h7 Bool.false_ne_true
      · exact absurd h7 h6
      · exact h7
    · intro q hq
      rcases List.mem_append.1 hq with h5 | h5
      · exact (h3 q h5).1
      · exact h4 q h5

theorem closestToCentroid_mem (pSet : PointSet) (ids : List Nat) (h : ScanFinds pSet ids) :
    closestToCentroid pSet (computeCentroidFloat pSet ids) ids ∈ ids := by
  obtain ⟨pre, post, h1, _⟩ := closestToCentroid_first_min pSet ids h
  have hm : closestToCentroid pSet (computeCentroidFloat pSet ids) ids ∈
      pre ++ closestToCentroid pSet (computeCentroidFloat pSet ids) ids :: post := by simp
  rw [← h1] at hm
  exact hm

/-- When the scan finds nothing, `pmin` keeps its start value 0. -/
theorem closestToCentroid_default (pSet : PointSet) (ids : List Nat)
    (h : ¬ ScanFinds pSet ids) :
    closestToCentroid pSet (computeCentroidFloat pSet ids) ids = 0 := by
  rcases closestToCentroid_scan pSet (computeCentroidFloat pSet ids) ids with
    ⟨h1, _⟩ | ⟨pre, post, h1, h2, _, _⟩
  · exact h1
  · exfalso
    apply h
    refine ⟨closestToCentroid pSet (computeCentroidFloat pSet ids) ids, ?_, h2⟩
    have hm : closestToCentroid pSet (computeCentroidFloat pSet ids) ids ∈
        pre ++ closestToCentroid pSet (computeCentroidFloat pSet ids) ids :: post := by simp
    rw [← h1] at hm
    exact hm

/-- The representative of an entry of one or two ids is one of them; that of
an entry of three or more ids is one of them when the entry holds the id 0 or
the scan finds a member. -/
theorem representative_mem (pSet : PointSet) (x0 y0 z0 resolution : FVal)
    (t : VoxelKey × List Nat) (hne : t.2 ≠ [])
    (h : 3 ≤ t.2.length → 0 ∈ t.2 ∨ ScanFinds pSet t.2) :
    representative pSet x0 y0 z0 resolution t ∈ t.2 := by
  obtain ⟨k, ids⟩ := t
  match ids, hne, h with
  | [a], _, _ => simp [representative]
  | [a, b], _, _ =>
    simp only [representative]
    split_ifs <;> simp
  | a :: b :: c :: rest, _, h =>
    simp only [representative]
    by_cases hs : ScanFinds pSet (a :: b :: c :: rest)
    · exact closestToCentroid_mem pSet _ hs
    · rw [closestToCentroid_default pSet _ hs]
      rcases h (by simp) with h0 | h0
      · exact h0
      · exact absurd h0 hs

/-- The converse: a representative that is one of the ids of its entry of
three or more ids is the id 0 or was found by the scan. -/
theorem representative_mem_iff (pSet : PointSet) (x0 y0 z0 resolution : FVal)
    (t : VoxelKey × List Nat) (h3 : 3 ≤ t.2.length) :
    representative pSet x0 y0 z0 resolution t ∈ t.2 ↔ (0 ∈ t.2 ∨ ScanFinds pSet t.2) := by
  constructor
  · intro hm
    by_cases hs : ScanFinds pSet t.2
    · exact Or.inr hs
    · left
      obtain ⟨k, ids⟩ := t
      match ids, h3 with
      | a :: b :: c :: rest, _ =>
        simp only [representative] at hm
        rw [closestToCentroid_default pSet _ hs] at hm
        exact hm
  · intro h
    refine representative_mem pSet x0 y0 z0 resolution t ?_ (fun _ => h)
    intro e
    rw [e] at h3
    simp at h3

/-! ## The downsampler as a whole -/

/-- The run of `computeScaledSet` on a level with no scaled points and a
non-empty source, entry by entry: output position `j` holds the point and
colour of the representative of the `j`-th map entry. -/
theorem computeScaledSet_run (s : Scale) (hne : s.pSet.points ≠ [])
    (hempty : s.scaledSet.points = []) :
    ∃ out, computeScaledSet s = some out ∧
      out.scaledSet.points.length = s.voxels.length ∧
      out.scaledSet.colors.length = s.voxels.length ∧
      out.scaledSet.pointMap =
        s.scaledSet.pointMap ++ (if s.id = 0 then trackLog 0 s.voxels else []) ∧
      ∀ j t, s.voxels[j]? = some t →
        out.scaledSet.pointAt j = s.pSet.pointAt (s.repOf t) ∧
        out.scaledSet.colorAt j = s.pSet.colorAt (s.repOf t) := by
  refine ⟨_, computeScaledSet_eq s hne hempty, by simp, by simp, rfl, ?_⟩
  intro j t hj
  simp [PointSet.pointAt, PointSet.colorAt, hj]

theorem pointAt_mem (pSet : PointSet) (i : Nat) (hi : i < pSet.count) :
    pSet.pointAt i ∈ pSet.points := by
  unfold PointSet.pointAt
  unfold PointSet.count at hi
  rw [List.getD_eq_getElem _ _ hi]
  exact List.getElem_mem _

theorem exists_pointAt_of_mem (pSet : PointSet) (p : Point) (hp : p ∈ pSet.points) :
    ∃ i < pSet.count, pSet.pointAt i = p := by
  obtain ⟨i, hi, e⟩ := List.mem_iff_getElem.1 hp
  refine ⟨i, hi, ?_⟩
  unfold PointSet.pointAt
  rw [List.getD_eq_getElem _ _ hi]
  exact e

/-- The shape of the map of the level `s`, in the terms of the level. -/
theorem voxels_spec (s : Scale) :
    KeysAscending s.voxels ∧
    (∀ t ∈ s.voxels,
        t.2 = (List.range s.pSet.count).filter
          (fun i => s.pointKey (s.pSet.pointAt i) = t.1) ∧ t.2 ≠ []) ∧
    (∀ i < s.pSet.count, ∃ t ∈ s.voxels, t.1 = s.pointKey (s.pSet.pointAt i)) ∧
    (allIds s.voxels).Perm (List.range s.pSet.count) :=
  populated_voxel_ids_spec s.pSet _ _ _ _

/-- Every id of an entry of the map of `s` is a valid index whose point has the entry's key. -/
theorem voxels_member (s : Scale) (t : VoxelKey × List Nat) (ht : t ∈ s.voxels)
    (i : Nat) (hi : i ∈ t.2) :
    i < s.pSet.count ∧ s.pointKey (s.pSet.pointAt i) = t.1 :=
  populated_voxel_ids_member s.pSet _ _ _ _ t ht i hi

/-- The representative of an entry of the map of `s` is a valid source index
of the entry whose point has the entry's key, if the entry has fewer than
three ids, or holds the id 0, or the scan finds a member. -/
theorem repOf_spec (s : Scale) (t : VoxelKey × List Nat) (ht : t ∈ s.voxels)
    (h : 3 ≤ t.2.length → 0 ∈ t.2 ∨ ScanFinds s.pSet t.2) :
    s.repOf t ∈ t.2 ∧ s.repOf t < s.pSet.count ∧
      s.pointKey (s.pSet.pointAt (s.repOf t)) = t.1 := by
  have hne := ((voxels_spec s).2.1 t ht).2
  have hmem : s.repOf t ∈ t.2 := representative_mem s.pSet _ _ _ _ t hne h
  have := voxels_member s t ht _ hmem
  exact ⟨hmem, this.1, this.2⟩

/-- The keys of the map are exactly the keys of the source points. -/
theorem voxels_keys (s : Scale) (k : VoxelKey) :
    k ∈ s.voxels.map Prod.fst ↔ k ∈ s.pSet.points.map s.pointKey := by
  obtain ⟨_, h2, h3, _⟩ := voxels_spec s
  constructor
  · intro hk
    obtain ⟨t, ht, rfl⟩ := List.mem_map.1 hk
    obtain ⟨a, ha⟩ := List.exists_mem_of_ne_nil _ (h2 t ht).2
    have := voxels_member s t ht a ha
    exact List.mem_map.2 ⟨s.pSet.pointAt a, pointAt_mem _ _ this.1, this.2⟩
  · intro hk
    obtain ⟨p, hp, rfl⟩ := List.mem_map.1 hk
    obtain ⟨i, hi, rfl⟩ := exists_pointAt_of_mem _ _ hp
    obtain ⟨t, ht, e⟩ := h3 i hi
    exact List.mem_map.2 ⟨t, ht, e⟩

theorem voxels_keys_pairwise (s : Scale) : (s.voxels.map Prod.fst).Pairwise keyLt := by
  rw [List.pairwise_map]
  exact (voxels_spec s).1

theorem voxels_keys_nodup (s : Scale) : (s.voxels.map Prod.fst).Nodup :=
  (voxels_keys_pairwise s).imp (fun h => keyLt_ne h)

theorem voxels_length (s : Scale) :
    s.voxels.length = ((s.pSet.points.map s.pointKey).dedup).length := by
  have hp : (s.voxels.map Prod.fst).Perm ((s.pSet.points.map s.pointKey).dedup) := by
    rw [List.perm_ext_iff_of_nodup (voxels_keys_nodup s) (List.nodup_dedup _)]
    intro k
    rw [List.mem_dedup]
    exact voxels_keys s k
  have := hp.length_eq
  simpa using this

/-- The keys of the output points, position by position, are the keys of the
map, when every representative is taken from its own entry. -/
theorem output_keys (s out : Scale) (hkeeps : s.KeepsMembers)
    (hlen : out.scaledSet.points.length = s.voxels.length)
    (hrun : ∀ j t, s.voxels[j]? = some t →
        out.scaledSet.pointAt j = s.pSet.pointAt (s.repOf t) ∧
        out.scaledSet.colorAt j = s.pSet.colorAt (s.repOf t)) :
    out.scaledSet.points.map s.pointKey = s.voxels.map Prod.fst := by
  apply List.ext_getElem?
  intro j
  rw [List.getElem?_map, List.getElem?_map]
  by_cases hj : j < s.voxels.length
  · have hj' : j < out.scaledSet.points.length := by rw [hlen]; exact hj
    have e1 : s.voxels[j]? = some s.voxels[j] := List.getElem?_eq_getElem hj
    have e2 : out.scaledSet.points[j]? = some out.scaledSet.points[j] :=
      List.getElem?_eq_getElem hj'
    have h1 := (hrun j _ e1).1
    have h2 := (repOf_spec s _ (List.getElem_mem hj) (hkeeps _ (List.getElem_mem hj))).2.2
    rw [← h1] at h2
    have e3 : out.scaledSet.pointAt j = out.scaledSet.points[j] := by
      unfold PointSet.pointAt
      exact List.getD_eq_getElem _ _ hj'
    rw [e1, e2, Option.map_some', Option.map_some', ← e3, h2]
  · have hj' : ¬ j < out.scaledSet.points.length := by rw [hlen]; exact hj
    rw [List.getElem?_eq_none (not_lt.1 hj), List.getElem?_eq_none (not_lt.1 hj')]
    rfl

/-- C1, amended. For a non-empty source set and a positive resolution such
that every voxel group of three or more points holds the source point 0 or is
one in which the scan finds a member (`KeepsMembers`; so it is for every cloud
whose coordinates have magnitude at most `2^125`, `keepsMembers_of_inRange`),
`computeScaledSet`, started on a `scaledSet` without points, returns a set with
one point per non-empty voxel, voxels being told apart by the keys the code
computes: as many points as there are distinct voxel keys among the source
points; pairwise distinct keys; as many colours as points; every output point
and its colour are those of one source point; every source point finds an
output point with its own key; and a source point that is alone in its voxel
is itself in the output, with its colour. -/
theorem computeScaledSet_one_point_per_voxel (s : Scale)
    (hne : s.pSet.points ≠ []) (_hres : 0 < s.resolution)
    (hempty : s.scaledSet.points = [])
    (hkeeps : s.KeepsMembers) :
    ∃ out, computeScaledSet s = some out ∧
      out.scaledSet.count = ((s.pSet.points.map s.pointKey).dedup).length ∧
      (out.scaledSet.points.map s.pointKey).Nodup ∧
      out.scaledSet.colors.length = out.scaledSet.count ∧
      (∀ j < out.scaledSet.count, ∃ i < s.pSet.count,
          out.scaledSet.pointAt j = s.pSet.pointAt i ∧
          out.scaledSet.colorAt j = s.pSet.colorAt i) ∧
      (∀ i < s.pSet.count, ∃ j < out.scaledSet.count,
          s.pointKey (out.scaledSet.pointAt j) = s.pointKey (s.pSet.pointAt i)) ∧
      (∀ i < s.pSet.count,
          (∀ i' < s.pSet.count,
              s.pointKey (s.pSet.pointAt i') = s.pointKey (s.pSet.pointAt i) → i' = i) →
          ∃ j < out.scaledSet.count,
            out.scaledSet.pointAt j = s.pSet.pointAt i ∧
            out.scaledSet.colorAt j = s.pSet.colorAt i) := by
  obtain ⟨out, hout, hlen, hcol, _, hrun⟩ := computeScaledSet_run s hne hempty
  have hkeys := output_keys s out hkeeps hlen hrun
  have hfind : ∀ i < s.pSet.count, ∃ j t, j < out.scaledSet.count ∧ s.voxels[j]? = some t ∧
      t ∈ s.voxels ∧ t.1 = s.pointKey (s.pSet.pointAt i) := by
    intro i hi
    obtain ⟨t, ht, e⟩ := (voxels_spec s).2.2.1 i hi
    obtain ⟨j, hj, e'⟩ := List.mem_iff_getElem.1 ht
    refine ⟨j, t, ?_, ?_, ht, e⟩
    · unfold PointSet.count; rw [hlen]; exact hj
    · rw [List.getElem?_eq_getElem hj, e']
  refine ⟨out, hout, ?_, ?_, ?_, ?_, ?_, ?_⟩
  · unfold PointSet.count; rw [hlen]; exact voxels_length s
  · rw [hkeys]; exact voxels_keys_nodup s
  · unfold PointSet.count; rw [hcol, hlen]
  · intro j hj
    unfold PointSet.count at hj
    rw [hlen] at hj
    have e1 : s.voxels[j]? = some s.voxels[j] := List.getElem?_eq_getElem hj
    exact ⟨_, (repOf_spec s _ (List.getElem_mem hj) (hkeeps _ (List.getElem_mem hj))).2.1,
      hrun j _ e1⟩
  · intro i hi
    obtain ⟨j, t, hj, e1, ht, e⟩ := hfind i hi
    refine ⟨j, hj, ?_⟩
    rw [(hrun j t e1).1, (repOf_spec s t ht (hkeeps t ht)).2.2, e]
  · intro i hi halone
    obtain ⟨j, t, hj, e1, ht, e⟩ := hfind i hi
    obtain ⟨_, h2, h3⟩ := repOf_spec s t ht (hkeeps t ht)
    have hi' := halone _ h2 (h3.trans e)
    have h := hrun j t e1
    rw [hi'] at h
    exact ⟨j, hj, h⟩

/-! ## The running mean in exact arithmetic -/

theorem representative_three (pSet : PointSet) (x0 y0 z0 resolution : FVal) (key : VoxelKey)
    (ids : List Nat) (hsize : 3 ≤ ids.length) :
    representative pSet x0 y0 z0 resolution (key, ids) =
      closestToCentroid pSet (computeCentroidFloat pSet ids) ids := by
  match ids, hsize with
  | a :: b :: c :: rest, _ => simp [representative]

theorem representative_two (pSet : PointSet) (x0 y0 z0 resolution : FVal) (key : VoxelKey)
    (a b : Nat) :
    representative pSet x0 y0 z0 resolution (key, [a, b]) =
      if FVal.lt (sqrDistDouble (voxelCenter x0 y0 z0 resolution key) (pSet.pointAt a))
          (sqrDistDouble (voxelCenter x0 y0 z0 resolution key) (pSet.pointAt b)) = true
      then a else b := by
  simp [representative]

theorem voxels_mem_of_getElem? (s : Scale) (j : Nat) (t : VoxelKey × List Nat)
    (h : s.voxels[j]? = some t) : t ∈ s.voxels :=
  List.mem_iff_getElem?.2 ⟨j, h⟩

theorem add64_nan_right (a : FVal) : add64 a FVal.nan = FVal.nan := by
  cases a <;> simp [add64, FVal.add]

theorem add64_nan_left (a : FVal) : add64 FVal.nan a = FVal.nan := by
  cases a <;> simp [add64, FVal.add]

theorem sub64_ne_nan {c : FVal} (hc : c ≠ FVal.nan) (p : ℚ) :
    sub64 c (FVal.fin p) ≠ FVal.nan := by
  cases c with
  | fin a => exact roundTo_ne_nan _ _ _ _
  | posInf => simp [sub64, FVal.sub, FVal.add, FVal.neg]
  | negInf => simp [sub64, FVal.sub, FVal.add, FVal.neg]
  | nan => exact absurd rfl hc

/-- The squared distances from one centre are either all numbers that are not
negative, or all not-a-number. -/
theorem sqrDistDouble_cases (c : FPoint) :
    (∀ p, (sqrDistDouble c p).IsNonneg) ∨ (∀ p, sqrDistDouble c p = FVal.nan) := by
  by_cases h1 : c.1 = FVal.nan
  · right; intro p
    simp [sqrDistDouble, h1, sub64, FVal.sub, FVal.add, sq64, mul64, FVal.mul, add64_nan_left]
  by_cases h2 : c.2.1 = FVal.nan
  · right; intro p
    simp [sqrDistDouble, h2, sub64, FVal.sub, FVal.add, sq64, mul64, FVal.mul, add64_nan_left,
      add64_nan_right]
  by_cases h3 : c.2.2 = FVal.nan
  · right; intro p
    simp [sqrDistDouble, h3, sub64, FVal.sub, FVal.add, sq64, mul64, FVal.mul, add64_nan_right]
  left; intro p
  exact add64_nonneg (add64_nonneg (sq64_nonneg (sub64_ne_nan h1 _))
    (sq64_nonneg (sub64_ne_nan h2 _))) (sq64_nonneg (sub64_ne_nan h3 _))

/-- C2, amended. When the squared distances of the two members `a`, `b` of a
two-point voxel group from the voxel centre computed from the key, as the code
computes them in `double`, are equal, the point kept is `b`, the second
member, and `b` is the one with the larger source index. -/
theorem computeScaledSet_size2_tie (s : Scale)
    (hne : s.pSet.points ≠ []) (_hres : 0 < s.resolution)
    (hempty : s.scaledSet.points = [])
    (j : Nat) (key : VoxelKey) (a b : Nat)
    (hgroup : s.voxels[j]? = some (key, [a, b]))
    (htie : sqrDistDouble (s.centerOf key) (s.pSet.pointAt a) =
      sqrDistDouble (s.centerOf key) (s.pSet.pointAt b)) :
    ∃ out, computeScaledSet s = some out ∧ a < b ∧
      out.scaledSet.pointAt j = s.pSet.pointAt b ∧
      out.scaledSet.colorAt j = s.pSet.colorAt b := by
  obtain ⟨out, hout, _, _, _, hrun⟩ := computeScaledSet_run s hne hempty
  have hrep : s.repOf (key, [a, b]) = b := by
    unfold Scale.repOf
    rw [representative_two]
    unfold Scale.centerOf at htie
    rw [htie, fval_lt_irrefl]
    simp
  have hsorted := populated_voxel_ids_sorted s.pSet _ _ _ _ _ (voxels_mem_of_getElem? s j _ hgroup)
  have hab : a < b := by simpa using hsorted
  have h := hrun j _ hgroup
  rw [hrep] at h
  exact ⟨out, hout, hab, h⟩

/-- C3, amended. When the squared distances of the two members `a`, `b` of a
two-point voxel group from the voxel centre computed from the key, as the code
computes them in `double`, differ, one of them is below the other and the
point kept (with its colour) is the member with the smaller computed distance. -/
theorem computeScaledSet_size2_closer (s : Scale)
    (hne : s.pSet.points ≠ []) (_hres : 0 < s.resolution)
    (hempty : s.scaledSet.points = [])
    (j : Nat) (key : VoxelKey) (a b : Nat)
    (hgroup : s.voxels[j]? = some (key, [a, b]))
    (hdiff : sqrDistDouble (s.centerOf key) (s.pSet.pointAt a) ≠
      sqrDistDouble (s.centerOf key) (s.pSet.pointAt b)) :
    ∃ out, computeScaledSet s = some out ∧
      ((FVal.lt (sqrDistDouble (s.centerOf key) (s.pSet.pointAt a))
            (sqrDistDouble (s.centerOf key) (s.pSet.pointAt b)) = true ∧
          out.scaledSet.pointAt j = s.pSet.pointAt a ∧
          out.scaledSet.colorAt j = s.pSet.colorAt a) ∨
       (FVal.lt (sqrDistDouble (s.centerOf key) (s.pSet.pointAt b))
            (sqrDistDouble (s.centerOf key) (s.pSet.pointAt a)) = true ∧
          out.scaledSet.pointAt j = s.pSet.pointAt b ∧
          out.scaledSet.colorAt j = s.pSet.colorAt b)) := by
  obtain ⟨out, hout, _, _, _, hrun⟩ := computeScaledSet_run s hne hempty
  have h := hrun j _ hgroup
  refine ⟨out, hout, ?_⟩
  have hnn : (sqrDistDouble (s.centerOf key) (s.pSet.pointAt a)).IsNonneg ∧
      (sqrDistDouble (s.centerOf key) (s.pSet.pointAt b)).IsNonneg := by
    rcases sqrDistDouble_cases (s.centerOf key) with hc | hc
    · exact ⟨hc _, hc _⟩
    · exact absurd ((hc _).trans (hc _).symm) hdiff
  rcases fval_lt_total hnn.1 hnn.2 with hlt | heq | hgt
  · left
    have hrep : s.repOf (key, [a, b]) = a := by
      unfold Scale.repOf
      rw [representative_two]
      unfold Scale.centerOf at hlt
      simp [hlt]
    rw [hrep] at h
    exact ⟨hlt, h⟩
  · exact absurd heq hdiff
  · right
    have hrep : s.repOf (key, [a, b]) = b := by
      unfold Scale.repOf
      rw [representative_two]
      have := fval_lt_asymm hgt
      unfold Scale.centerOf at this
      simp [this]
    rw [hrep] at h
    exact ⟨hgt, h⟩

/-! ## The size > 2 branch -/

/-- C4, amended. For a voxel group `ids` of three or more points in which the
scan finds a member (some member's computed squared distance to the computed
centroid is below `DBL_MAX`; so it is whenever all coordinates have magnitude
at most `2^125`, `scanFinds_of_inRange`), the point kept (with its colour) is that of a
member `r` such that no member has a smaller computed squared distance to the
centroid computed by `computeCentroid` in `float`, and every member listed
before `r` has a strictly greater one: `r` is the first member at the least
computed distance. -/
theorem computeScaledSet_size3_closest (s : Scale)
    (hne : s.pSet.points ≠ []) (_hres : 0 < s.resolution)
    (hempty : s.scaledSet.points = [])
    (j : Nat) (key : VoxelKey) (ids : List Nat)
    (hgroup : s.voxels[j]? = some (key, ids)) (hsize : 3 ≤ ids.length)
    (hscan : ScanFinds s.pSet ids) :
    ∃ out, computeScaledSet s = some out ∧
      ∃ pre r post, ids = pre ++ r :: post ∧
        out.scaledSet.pointAt j = s.pSet.pointAt r ∧
        out.scaledSet.colorAt j = s.pSet.colorAt r ∧
        (∀ x ∈ ids,
          FVal.lt (sqrDistFloat (computeCentroidFloat s.pSet ids) (s.pSet.pointAt x))
            (sqrDistFloat (computeCentroidFloat s.pSet ids) (s.pSet.pointAt r)) = false) ∧
        (∀ x ∈ pre,
          FVal.lt (sqrDistFloat (computeCentroidFloat s.pSet ids) (s.pSet.pointAt r))
            (sqrDistFloat (computeCentroidFloat s.pSet ids) (s.pSet.pointAt x)) = true) := by
  obtain ⟨out, hout, _, _, _, hrun⟩ := computeScaledSet_run s hne hempty
  have h := hrun j _ hgroup
  have hrep : s.repOf (key, ids) =
      closestToCentroid s.pSet (computeCentroidFloat s.pSet ids) ids := by
    unfold Scale.repOf
    exact representative_three _ _ _ _ _ _ _ hsize
  rw [hrep] at h
  obtain ⟨pre, post, h1, _, h3, h4⟩ := closestToCentroid_first_min s.pSet ids hscan
  refine ⟨out, hout, pre, _, post, h1, h.1, h.2, ?_, h3⟩
  intro x hx
  rw [h1] at hx
  rcases List.mem_append.1 hx with hx' | hx'
  · exact h4 x (List.mem_append_left _ hx')
  · rcases List.mem_cons.1 hx' with e | hx''
    · rw [e]; exact fval_lt_irrefl _
    · exact h4 x (List.mem_append_right _ hx'')

/-- The point kept by the scan is a member such that no member is closer,
whatever the order of the group. -/
theorem closestToCentroid_min (pSet : PointSet) (ids : List Nat) (h : ScanFinds pSet ids) :
    closestToCentroid pSet (computeCentroidFloat pSet ids) ids ∈ ids ∧
    ∀ x ∈ ids,
      FVal.lt (sqrDistFloat (computeCentroidFloat pSet ids) (pSet.pointAt x))
        (sqrDistFloat (computeCentroidFloat pSet ids)
          (pSet.pointAt (closestToCentroid pSet (computeCentroidFloat pSet ids) ids))) = false := by
  obtain ⟨pre, post, h1, _, _, h4⟩ := closestToCentroid_first_min pSet ids h
  refine ⟨closestToCentroid_mem pSet ids h, ?_⟩
  intro x hx
  rw [h1] at hx
  rcases List.mem_append.1 hx with hx' | hx'
  · exact h4 x (List.mem_append_left _ hx')
  · rcases List.mem_cons.1 hx' with e | hx''
    · rw [e]; exact fval_lt_irrefl _
    · exact h4 x (List.mem_append_right _ hx'')

/-- C5, amended. For a group of three or more points in which the scan finds a
member, and every permutation of its member list for which `computeCentroid`
computes the same `float` centroid: the computed squared distance from the kept
point to the centroid is the same, and the kept coordinates are the same
provided all members at the least computed distance share their coordinates. -/
theorem size3_selection_permutation (pSet : PointSet)
    (ids ids' : List Nat) (_hsize : 3 ≤ ids.length) (hperm : ids'.Perm ids)
    (hscan : ScanFinds pSet ids)
    (hcen : computeCentroidFloat pSet ids' = computeCentroidFloat pSet ids) :
    sqrDistFloat (computeCentroidFloat pSet ids)
        (pSet.pointAt (closestToCentroid pSet (computeCentroidFloat pSet ids') ids')) =
      sqrDistFloat (computeCentroidFloat pSet ids)
        (pSet.pointAt (closestToCentroid pSet (computeCentroidFloat pSet ids) ids)) ∧
    ((∀ a ∈ ids, ∀ b ∈ ids,
        (∀ x ∈ ids,
          FVal.lt (sqrDistFloat (computeCentroidFloat pSet ids) (pSet.pointAt x))
            (sqrDistFloat (computeCentroidFloat pSet ids) (pSet.pointAt a)) = false) →
        (∀ x ∈ ids,
          FVal.lt (sqrDistFloat (computeCentroidFloat pSet ids) (pSet.pointAt x))
            (sqrDistFloat (computeCentroidFloat pSet ids) (pSet.pointAt b)) = false) →
        pSet.pointAt a = pSet.pointAt b) →
      pSet.pointAt (closestToCentroid pSet (computeCentroidFloat pSet ids') ids') =
        pSet.pointAt (closestToCentroid pSet (computeCentroidFloat pSet ids) ids)) := by
  have hscan' : ScanFinds pSet ids' := by
    obtain ⟨q, hq, hlt⟩ := hscan
    exact ⟨q, hperm.mem_iff.2 hq, by rw [hcen]; exact hlt⟩
  obtain ⟨m1, min1⟩ := closestToCentroid_min pSet ids hscan
  obtain ⟨m2, min2⟩ := closestToCentroid_min pSet ids' hscan'
  rw [hcen] at min2 m2
  have m2' := hperm.mem_iff.1 m2
  have min2' : ∀ x ∈ ids,
      FVal.lt (sqrDistFloat (computeCentroidFloat pSet ids) (pSet.pointAt x))
        (sqrDistFloat (computeCentroidFloat pSet ids)
          (pSet.pointAt (closestToCentroid pSet (computeCentroidFloat pSet ids) ids'))) = false :=
    fun x hx => min2 x (hperm.mem_iff.2 hx)
  rw [hcen]
  refine ⟨?_, ?_⟩
  · rcases fval_lt_total (scanFinds_nonneg pSet ids hscan
        (pSet.pointAt (closestToCentroid pSet (computeCentroidFloat pSet ids) ids')))
      (scanFinds_nonneg pSet ids hscan
        (pSet.pointAt (closestToCentroid pSet (computeCentroidFloat pSet ids) ids))) with
      h | h | h
    · rw [min1 _ m2'] at h; exact absurd h Bool.false_ne_true
    · exact h
    · rw [min2' _ m1] at h; exact absurd h Bool.false_ne_true
  · intro huniq
    exact huniq _ m2' _ m1 min2' min1

/-! ## Output order and tracking -/

/-- C7, amended. When every voxel group of three or more points holds the
source point 0 or is one in which the scan finds a member (`KeepsMembers`; so
it is whenever all coordinates have magnitude at most `2^125`): the
voxel keys of the output points, in output order, are strictly ascending in
the tuple order, for every source set (whatever the order of its points); the
output has as many colours as points; and output position `j` holds the point
and the colour of one and the same source point, the representative chosen for
the `j`-th map entry, which is a member of that entry. -/
theorem computeScaledSet_ascending_keys (s : Scale)
    (hne : s.pSet.points ≠ []) (_hres : 0 < s.resolution)
    (hempty : s.scaledSet.points = [])
    (hkeeps : s.KeepsMembers) :
    ∃ out, computeScaledSet s = some out ∧
      (out.scaledSet.points.map s.pointKey).Pairwise keyLt ∧
      out.scaledSet.colors.length = out.scaledSet.points.length ∧
      out.scaledSet.points.length = s.voxels.length ∧
      ∀ j t, s.voxels[j]? = some t →
        s.repOf t ∈ t.2 ∧
        out.scaledSet.pointAt j = s.pSet.pointAt (s.repOf t) ∧
        out.scaledSet.colorAt j = s.pSet.colorAt (s.repOf t) := by
  obtain ⟨out, hout, hlen, hcol, _, hrun⟩ := computeScaledSet_run s hne hempty
  refine ⟨out, hout, ?_, by rw [hcol, hlen], hlen, ?_⟩
  · rw [output_keys s out hkeeps hlen hrun]
    exact voxels_keys_pairwise s
  · intro j t hj
    have ht := voxels_mem_of_getElem? s j t hj
    exact ⟨(repOf_spec s t ht (hkeeps t ht)).1, hrun j t hj⟩

theorem trackLog_fst (base : Nat) (m : List (VoxelKey × List Nat)) :
    (trackLog base m).map Prod.fst = allIds m := by
  induction m generalizing base with
  | nil => simp [trackLog, allIds]
  | cons t rest ih =>
    simp only [trackLog, allIds, List.map_append, ih, List.map_map]
    have : (Prod.fst ∘ fun i : Nat => (i, base)) = id := rfl
    rw [this, List.map_id]

theorem trackLog_mem (base : Nat) (m : List (VoxelKey × List Nat)) (e : Nat × Nat)
    (he : e ∈ trackLog base m) :
    ∃ j t, m[j]? = some t ∧ e.1 ∈ t.2 ∧ e.2 = base + j := by
  induction m generalizing base with
  | nil => simp [trackLog] at he
  | cons t rest ih =>
    simp only [trackLog, List.mem_append, List.mem_map] at he
    rcases he with ⟨i, hi, rfl⟩ | he
    · exact ⟨0, t, by simp, hi, by simp⟩
    · obtain ⟨j, u, h1, h2, h3⟩ := ih (base + 1) he
      exact ⟨j + 1, u, by simpa using h1, h2, by omega⟩

/-- C8, amended. The records that `computeScaledSet` appends to the tracking
log: for `id = 0` their original indices are every source index exactly once,
and each record `(i, j)` has `j` a valid output index; when every voxel group
of three or more points holds the source point 0 or is one in which the scan
finds a member (`KeepsMembers`), the output point at `j` has the voxel key of
source point `i`; for `id > 0` no record is appended. -/
theorem computeScaledSet_tracking (s : Scale)
    (hne : s.pSet.points ≠ []) (_hres : 0 < s.resolution)
    (hempty : s.scaledSet.points = []) :
    ∃ out log, computeScaledSet s = some out ∧
      out.scaledSet.pointMap = s.scaledSet.pointMap ++ log ∧
      (s.id = 0 →
        (log.map Prod.fst).Perm (List.range s.pSet.count) ∧
        (∀ e ∈ log, e.2 < out.scaledSet.count) ∧
        (s.KeepsMembers → ∀ e ∈ log,
          s.pointKey (out.scaledSet.pointAt e.2) = s.pointKey (s.pSet.pointAt e.1))) ∧
      (0 < s.id → log = []) := by
  obtain ⟨out, hout, hlen, _, hmap, hrun⟩ := computeScaledSet_run s hne hempty
  refine ⟨out, _, hout, hmap, ?_, ?_⟩
  · intro hid
    rw [if_pos hid]
    refine ⟨?_, ?_, ?_⟩
    · rw [trackLog_fst]
      exact (voxels_spec s).2.2.2
    · intro e he
      obtain ⟨j, t, h1, _, h3⟩ := trackLog_mem 0 s.voxels e he
      have hj : j < s.voxels.length := (List.getElem?_eq_some_iff.1 h1).1
      have e2 : e.2 = j := by omega
      rw [e2]
      unfold PointSet.count; rw [hlen]; exact hj
    · intro hkeeps e he
      obtain ⟨j, t, h1, h2, h3⟩ := trackLog_mem 0 s.voxels e he
      have ht := voxels_mem_of_getElem? s j t h1
      have hkey := voxels_member s t ht e.1 h2
      have e2 : e.2 = j := by omega
      rw [e2, (hrun j t h1).1, (repOf_spec s t ht (hkeeps t ht)).2.2]
      exact hkey.2.symm
  · intro hid
    rw [if_neg (by omega)]

/-! ## Concrete runs of the downsampler -/

/-- C1, counterexample. The four points of `overflowPoints` are values of
`float` and the resolution `2^128` is a positive `double`. The last three
points share the voxel `(0, 0, 1)`; the running mean of their x coordinates
overflows, the centroid is not a number, no squared distance is below
`DBL_MAX`, and `pmin` keeps its start value 0: the output holds the source
point 0 twice. The second output point is not a point of its voxel, the keys
of the output points are not pairwise distinct, and no output point has the
key `(0, 0, 1)` of the source points 1, 2 and 3. -/
theorem overflow_output_repeats_first_point :
    overflowScale.pSet.points ≠ [] ∧ 0 < overflowScale.resolution ∧
    overflowScale.scaledSet.points = [] ∧
    (∀ p ∈ overflowScale.pSet.points, IsFloatPoint p) ∧ IsDouble overflowScale.resolution ∧
    overflowScale.pSet.points.map overflowScale.pointKey =
      [(0, 0, 0), (0, 0, 1), (0, 0, 1), (0, 0, 1)] ∧
    overflowScale.voxels = [((0, 0, 0), [0]), ((0, 0, 1), [1, 2, 3])] ∧
    computeCentroidFloat overflowPoints [1, 2, 3] = (FVal.nan, 0, FVal.fin (2 ^ 127)) ∧
    (computeScaledSet overflowScale).map (fun out => out.scaledSet.points) =
      some [(0, 0, -2 ^ 127), (0, 0, -2 ^ 127)] ∧
    (computeScaledSet overflowScale).map
        (fun out => out.scaledSet.points.map overflowScale.pointKey) =
      some [(0, 0, 0), (0, 0, 0)] ∧
    ¬ ([(0, 0, 0), (0, 0, 0)] : List VoxelKey).Nodup := by
  decide!

/-- C1, amended, at `clusterScale`: five source points in three voxels, one of
them a group of three that does not hold the source point 0. -/
theorem computeScaledSet_one_point_per_voxel_witness :
    clusterScale.pSet.points ≠ [] ∧ 0 < clusterScale.resolution ∧
    clusterScale.scaledSet.points = [] ∧ clusterScale.KeepsMembers ∧
    clusterScale.voxels = [((0, 0, 0), [0]), ((1, 0, 0), [1, 2, 3]), ((2, 0, 0), [4])] ∧
    ∃ out, computeScaledSet clusterScale = some out ∧
      out.scaledSet.count =
        ((clusterScale.pSet.points.map clusterScale.pointKey).dedup).length ∧
      (out.scaledSet.points.map clusterScale.pointKey).Nodup ∧
      out.scaledSet.colors.length = out.scaledSet.count ∧
      (∀ j < out.scaledSet.count, ∃ i < clusterScale.pSet.count,
          out.scaledSet.pointAt j = clusterScale.pSet.pointAt i ∧
          out.scaledSet.colorAt j = clusterScale.pSet.colorAt i) ∧
      (∀ i < clusterScale.pSet.count, ∃ j < out.scaledSet.count,
          clusterScale.pointKey (out.scaledSet.pointAt j) =
            clusterScale.pointKey (clusterScale.pSet.pointAt i)) ∧
      (∀ i < clusterScale.pSet.count,
          (∀ i' < clusterScale.pSet.count,
              clusterScale.pointKey (clusterScale.pSet.pointAt i') =
                clusterScale.pointKey (clusterScale.pSet.pointAt i) → i' = i) →
          ∃ j < out.scaledSet.count,
            out.scaledSet.pointAt j = clusterScale.pSet.pointAt i ∧
            out.scaledSet.colorAt j = clusterScale.pSet.colorAt i) :=
  ⟨by decide, by decide!, by decide, by decide!, by decide!,
    computeScaledSet_one_point_per_voxel clusterScale (by decide) (by decide!) (by decide)
      (by decide!)⟩

/-- C2, counterexample. In `tieScale` the second map entry is the two-point
group `[1, 2]` of voxel `(1, 0, 0)`; the computed centre is `(2, 6, 2)`; both
members are at squared distance 35 from it, in exact arithmetic and as
computed; the point kept at output position 1 is source point 2, `(5, 1, 3)`,
not the first-encountered source point 1, `(5, 1, 1)`. -/
theorem size2_tie_keeps_second :
    tieScale.voxels[1]? = some ((1, 0, 0), [1, 2]) ∧
    tieScale.centerOf (1, 0, 0) = (2, 6, 2) ∧
    sqrDist (2, 6, 2) (tieScale.pSet.pointAt 1) = 35 ∧
    sqrDist (2, 6, 2) (tieScale.pSet.pointAt 2) = 35 ∧
    sqrDistDouble (tieScale.centerOf (1, 0, 0)) (tieScale.pSet.pointAt 1) = 35 ∧
    sqrDistDouble (tieScale.centerOf (1, 0, 0)) (tieScale.pSet.pointAt 2) = 35 ∧
    (computeScaledSet tieScale).map (fun out => out.scaledSet.pointAt 1) =
      some (tieScale.pSet.pointAt 2) ∧
    tieScale.pSet.pointAt 2 ≠ tieScale.pSet.pointAt 1 := by
  decide!

/-- An exact tie that rounding breaks. In `stretchedPairScale` the two members
of the group `[1, 2]` are at the same squared distance `2^54 + 9/2` from the
computed centre `(0, 0, 0)`; the sums computed in `double` are `2^54 + 4` and
`2^54 + 8`, and the point kept is the first member. -/
theorem size2_exact_tie_keeps_first :
    stretchedPairScale.voxels[1]? = some ((0, 0, 1), [1, 2]) ∧
    stretchedPairScale.centerOf (0, 0, 1) = (0, 0, 0) ∧
    sqrDist (0, 0, 0) (stretchedPairScale.pSet.pointAt 1) = 2 ^ 54 + 9 / 2 ∧
    sqrDist (0, 0, 0) (stretchedPairScale.pSet.pointAt 2) = 2 ^ 54 + 9 / 2 ∧
    sqrDistDouble (stretchedPairScale.centerOf (0, 0, 1)) (stretchedPairScale.pSet.pointAt 1) =
      FVal.fin (2 ^ 54 + 4) ∧
    sqrDistDouble (stretchedPairScale.centerOf (0, 0, 1)) (stretchedPairScale.pSet.pointAt 2) =
      FVal.fin (2 ^ 54 + 8) ∧
    (computeScaledSet stretchedPairScale).map (fun out => out.scaledSet.pointAt 1) =
      some (stretchedPairScale.pSet.pointAt 1) := by
  decide!

/-- C2, amended, at the two-point group of `tieScale`. -/
theorem computeScaledSet_size2_tie_witness :
    tieScale.pSet.points ≠ [] ∧ 0 < tieScale.resolution ∧ tieScale.scaledSet.points = [] ∧
    tieScale.voxels[1]? = some ((1, 0, 0), [1, 2]) ∧
    sqrDistDouble (tieScale.centerOf (1, 0, 0)) (tieScale.pSet.pointAt 1) =
      sqrDistDouble (tieScale.centerOf (1, 0, 0)) (tieScale.pSet.pointAt 2) ∧
    ∃ out, computeScaledSet tieScale = some out ∧ 1 < 2 ∧
      out.scaledSet.pointAt 1 = tieScale.pSet.pointAt 2 ∧
      out.scaledSet.colorAt 1 = tieScale.pSet.colorAt 2 :=
  ⟨by decide, by decide!, by decide, by decide!, by decide!,
    computeScaledSet_size2_tie tieScale (by decide) (by decide!) (by decide) 1 (1, 0, 0) 1 2
      (by decide!) (by decide!)⟩

/-- C3, counterexample. The points of `roundedPairPoints` are values of
`float`. The two members of the group `[1, 2]` of voxel `(0, 0, 1)` are at the
squared distances `512144` and `512144 + 2^-60` from the computed centre
`(512, 512, 0)`: they differ, and the first member is the closer one. Both
sums are `512144` in `double`, the comparison `d1 < d2` is false, and the
point kept is the second member, the one farther from the centre. -/
theorem size2_rounded_distances_keep_farther :
    (∀ p ∈ roundedPairScale.pSet.points, IsFloatPoint p) ∧
    roundedPairScale.voxels[1]? = some ((0, 0, 1), [1, 2]) ∧
    roundedPairScale.centerOf (0, 0, 1) = (512, 512, 0) ∧
    sqrDist (512, 512, 0) (roundedPairScale.pSet.pointAt 1) = 512144 ∧
    sqrDist (512, 512, 0) (roundedPairScale.pSet.pointAt 2) = 512144 + 1 / 2 ^ 60 ∧
    sqrDist (512, 512, 0) (roundedPairScale.pSet.pointAt 1) <
      sqrDist (512, 512, 0) (roundedPairScale.pSet.pointAt 2) ∧
    sqrDistDouble (roundedPairScale.centerOf (0, 0, 1)) (roundedPairScale.pSet.pointAt 1) =
      512144 ∧
    sqrDistDouble (roundedPairScale.centerOf (0, 0, 1)) (roundedPairScale.pSet.pointAt 2) =
      512144 ∧
    (computeScaledSet roundedPairScale).map (fun out => out.scaledSet.pointAt 1) =
      some (roundedPairScale.pSet.pointAt 2) ∧
    roundedPairScale.pSet.pointAt 2 ≠ roundedPairScale.pSet.pointAt 1 := by
  decide!

/-- C3, amended, at the two-point group of `nearScale`, where the second member
is the closer one and is kept, and at that of `belowOriginScale`, where the
first member is the closer one and is kept. -/
theorem computeScaledSet_size2_closer_witness :
    (nearScale.pSet.points ≠ [] ∧ 0 < nearScale.resolution ∧ nearScale.scaledSet.points = [] ∧
    nearScale.voxels[1]? = some ((1, 0, 0), [1, 2]) ∧
    sqrDistDouble (nearScale.centerOf (1, 0, 0)) (nearScale.pSet.pointAt 1) ≠
      sqrDistDouble (nearScale.centerOf (1, 0, 0)) (nearScale.pSet.pointAt 2) ∧
    ∃ out, computeScaledSet nearScale = some out ∧
      ((FVal.lt (sqrDistDouble (nearScale.centerOf (1, 0, 0)) (nearScale.pSet.pointAt 1))
            (sqrDistDouble (nearScale.centerOf (1, 0, 0)) (nearScale.pSet.pointAt 2)) = true ∧
          out.scaledSet.pointAt 1 = nearScale.pSet.pointAt 1 ∧
          out.scaledSet.colorAt 1 = nearScale.pSet.colorAt 1) ∨
       (FVal.lt (sqrDistDouble (nearScale.centerOf (1, 0, 0)) (nearScale.pSet.pointAt 2))
            (sqrDistDouble (nearScale.centerOf (1, 0, 0)) (nearScale.pSet.pointAt 1)) = true ∧
          out.scaledSet.pointAt 1 = nearScale.pSet.pointAt 2 ∧
          out.scaledSet.colorAt 1 = nearScale.pSet.colorAt 2))) ∧
    (computeScaledSet nearScale).map (fun out => out.scaledSet.pointAt 1) =
      some (nearScale.pSet.pointAt 2) ∧
    FVal.lt (sqrDistDouble (belowOriginScale.centerOf (0, 0, -1)) (belowOriginScale.pSet.pointAt 1))
      (sqrDistDouble (belowOriginScale.centerOf (0, 0, -1)) (belowOriginScale.pSet.pointAt 2))
      = true ∧
    (computeScaledSet belowOriginScale).map (fun out => out.scaledSet.pointAt 0) =
      some (belowOriginScale.pSet.pointAt 1) :=
  ⟨⟨by decide, by decide!, by decide, by decide!, by decide!,
    computeScaledSet_size2_closer nearScale (by decide) (by decide!) (by decide) 1 (1, 0, 0) 1 2
      (by decide!) (by decide!)⟩, by decide!, by decide!, by decide!⟩

/-- C4, counterexample. In `overflowScale`, whose points are values of `float`,
the group `[1, 2, 3]` of voxel `(0, 0, 1)` has a computed centroid that is not
a number; the point kept for it, at output position 1, is the source point 0,
which is not a point of the group. In `nudgedScale` the three points form one
group with computed centroid `(8, 0, 512)`; the first two have the same
computed squared distance `262160` to it, and the first is kept, while the
second is the closer one in exact arithmetic. -/
theorem size3_keeps_point_outside_group :
    (∀ p ∈ overflowScale.pSet.points, IsFloatPoint p) ∧
    overflowScale.voxels[1]? = some ((0, 0, 1), [1, 2, 3]) ∧
    computeCentroidFloat overflowPoints [1, 2, 3] = (FVal.nan, 0, FVal.fin (2 ^ 127)) ∧
    (computeScaledSet overflowScale).map (fun out => out.scaledSet.pointAt 1) =
      some (overflowScale.pSet.pointAt 0) ∧
    (∀ i ∈ [1, 2, 3], overflowScale.pSet.pointAt i ≠ overflowScale.pSet.pointAt 0) ∧
    (∀ p ∈ nudgedScale.pSet.points, IsFloatPoint p) ∧
    nudgedScale.voxels = [((0, 0, 0), [0, 1, 2])] ∧
    computeCentroidFloat nudgedPoints [0, 1, 2] = (8, 0, 512) ∧
    sqrDistFloat (8, 0, 512) (nudgedPoints.pointAt 0) = 262160 ∧
    sqrDistFloat (8, 0, 512) (nudgedPoints.pointAt 1) = 262160 ∧
    sqrDist (8, 0, 512) (nudgedPoints.pointAt 1) < sqrDist (8, 0, 512) (nudgedPoints.pointAt 0) ∧
    (computeScaledSet nudgedScale).map (fun out => out.scaledSet.points) =
      some [nudgedPoints.pointAt 0] := by
  decide!

/-- C4, amended, at the three-point group of `clusterScale`. -/
theorem computeScaledSet_size3_closest_witness :
    clusterScale.pSet.points ≠ [] ∧ 0 < clusterScale.resolution ∧
    clusterScale.scaledSet.points = [] ∧
    clusterScale.voxels[1]? = some ((1, 0, 0), [1, 2, 3]) ∧ 3 ≤ [1, 2, 3].length ∧
    ScanFinds clusterScale.pSet [1, 2, 3] ∧
    ∃ out, computeScaledSet clusterScale = some out ∧
      ∃ pre r post, [1, 2, 3] = pre ++ r :: post ∧
        out.scaledSet.pointAt 1 = clusterScale.pSet.pointAt r ∧
        out.scaledSet.colorAt 1 = clusterScale.pSet.colorAt r ∧
        (∀ x ∈ [1, 2, 3],
          FVal.lt (sqrDistFloat (computeCentroidFloat clusterScale.pSet [1, 2, 3])
              (clusterScale.pSet.pointAt x))
            (sqrDistFloat (computeCentroidFloat clusterScale.pSet [1, 2, 3])
              (clusterScale.pSet.pointAt r)) = false) ∧
        (∀ x ∈ pre,
          FVal.lt (sqrDistFloat (computeCentroidFloat clusterScale.pSet [1, 2, 3])
              (clusterScale.pSet.pointAt r))
            (sqrDistFloat (computeCentroidFloat clusterScale.pSet [1, 2, 3])
              (clusterScale.pSet.pointAt x)) = true) :=
  ⟨by decide, by decide!, by decide, by decide!, by decide, by decide!,
    computeScaledSet_size3_closest clusterScale (by decide) (by decide!) (by decide)
      1 (1, 0, 0) [1, 2, 3] (by decide!) (by decide) (by decide!)⟩

/-- C5, counterexample. The three points of `trianglePoints` form one voxel
group; listed as `[0, 1, 2]` the point kept is `(0, 0, 0)`, listed as
`[1, 0, 2]` it is `(0, 2, 0)`: both are at the computed squared distance 2 from
the computed centroid `(1, 1, 0)`. The same happens in whole runs of
`computeScaledSet`: the source set with its first two points exchanged is again
one voxel group, and the output is `(0, 2, 0)` instead of `(0, 0, 0)`. The
computed centroid itself depends on the order: for x coordinates 0, 0, 1 it
is `11184811 / 2^25`, for the order 1, 0, 0 it is `11184810 / 2^25`. That
decides the selection even where no two computed distances are equal: the four
points of `wobblePoints` (values of `float`) have the mean `7/2`; listed as
`[0, 1, 2, 3]` the computed centroid is `7/2 - 2^-22` and the point kept is
`(1, 0, 0)`, strictly nearest; listed as `[1, 3, 2, 0]` the computed centroid
is `7/2 + 2^-22` and the point kept is `(6, 0, 0)`, strictly nearest; and so
in whole runs of `computeScaledSet` on the two orders of the source set. -/
theorem size3_selection_depends_on_order :
    triangleScale.voxels = [((0, 0, 0), [0, 1, 2])] ∧
    [1, 0, 2].Perm [0, 1, 2] ∧
    computeCentroidFloat trianglePoints [0, 1, 2] = (1, 1, 0) ∧
    computeCentroidFloat trianglePoints [1, 0, 2] = (1, 1, 0) ∧
    trianglePoints.pointAt
        (closestToCentroid trianglePoints (computeCentroidFloat trianglePoints [0, 1, 2])
          [0, 1, 2]) = (0, 0, 0) ∧
    trianglePoints.pointAt
        (closestToCentroid trianglePoints (computeCentroidFloat trianglePoints [1, 0, 2])
          [1, 0, 2]) = (0, 2, 0) ∧
    swappedTriangleScale.voxels = [((0, 0, 0), [0, 1, 2])] ∧
    (computeScaledSet triangleScale).map (fun out => out.scaledSet.points) =
      some [(0, 0, 0)] ∧
    (computeScaledSet swappedTriangleScale).map (fun out => out.scaledSet.points) =
      some [(0, 2, 0)] ∧
    computeCentroidFloat thirdPoints [0, 1, 2] = (FVal.fin (11184811 / 2 ^ 25), 0, 0) ∧
    computeCentroidFloat thirdPoints [2, 0, 1] = (FVal.fin (11184810 / 2 ^ 25), 0, 0) ∧
    (∀ p ∈ wobblePoints.points, IsFloatPoint p) ∧
    [1, 3, 2, 0].Perm [0, 1, 2, 3] ∧
    computeCentroidFloat wobblePoints [0, 1, 2, 3] = (FVal.fin (14680063 / 2 ^ 22), 0, 0) ∧
    computeCentroidFloat wobblePoints [1, 3, 2, 0] = (FVal.fin (14680065 / 2 ^ 22), 0, 0) ∧
    wobblePoints.pointAt
        (closestToCentroid wobblePoints (computeCentroidFloat wobblePoints [0, 1, 2, 3])
          [0, 1, 2, 3]) = (1, 0, 0) ∧
    wobblePoints.pointAt
        (closestToCentroid wobblePoints (computeCentroidFloat wobblePoints [1, 3, 2, 0])
          [1, 3, 2, 0]) = (6, 0, 0) ∧
    (∀ x ∈ [0, 1, 2], FVal.lt
        (sqrDistFloat (computeCentroidFloat wobblePoints [0, 1, 2, 3]) (wobblePoints.pointAt 3))
        (sqrDistFloat (computeCentroidFloat wobblePoints [0, 1, 2, 3]) (wobblePoints.pointAt x))
          = true) ∧
    (∀ x ∈ [1, 2, 3], FVal.lt
        (sqrDistFloat (computeCentroidFloat wobblePoints [1, 3, 2, 0]) (wobblePoints.pointAt 0))
        (sqrDistFloat (computeCentroidFloat wobblePoints [1, 3, 2, 0]) (wobblePoints.pointAt x))
          = true) ∧
    wobbleScale.voxels = [((0, 0, 0), [0, 1, 2, 3])] ∧
    shuffledWobbleScale.voxels = [((0, 0, 0), [0, 1, 2, 3])] ∧
    (computeScaledSet wobbleScale).map (fun out => out.scaledSet.points) =
      some [(1, 0, 0)] ∧
    (computeScaledSet shuffledWobbleScale).map (fun out => out.scaledSet.points) =
      some [(6, 0, 0)] := by
  refine ⟨by decide!, List.Perm.swap 0 1 [2], by decide!, by decide!, by decide!, by decide!,
    by decide!, by decide!, by decide!, by decide!, by decide!, by decide!, by decide,
    by decide!, by decide!, by decide!, by decide!, by decide!, by decide!, by decide!,
    by decide!, by decide!, by decide!⟩

/-- C5, amended, at the three points of `trianglePoints`, listed as `[2, 0, 1]`. -/
theorem size3_selection_permutation_witness :
    3 ≤ [0, 1, 2].length ∧ [2, 0, 1].Perm [0, 1, 2] ∧ ScanFinds trianglePoints [0, 1, 2] ∧
    computeCentroidFloat trianglePoints [2, 0, 1] =
      computeCentroidFloat trianglePoints [0, 1, 2] ∧
    (sqrDistFloat (computeCentroidFloat trianglePoints [0, 1, 2])
        (trianglePoints.pointAt
          (closestToCentroid trianglePoints (computeCentroidFloat trianglePoints [2, 0, 1])
            [2, 0, 1])) =
      sqrDistFloat (computeCentroidFloat trianglePoints [0, 1, 2])
        (trianglePoints.pointAt
          (closestToCentroid trianglePoints (computeCentroidFloat trianglePoints [0, 1, 2])
            [0, 1, 2])) ∧
    ((∀ a ∈ [0, 1, 2], ∀ b ∈ [0, 1, 2],
        (∀ x ∈ [0, 1, 2],
          FVal.lt (sqrDistFloat (computeCentroidFloat trianglePoints [0, 1, 2])
              (trianglePoints.pointAt x))
            (sqrDistFloat (computeCentroidFloat trianglePoints [0, 1, 2])
              (trianglePoints.pointAt a)) = false) →
        (∀ x ∈ [0, 1, 2],
          FVal.lt (sqrDistFloat (computeCentroidFloat trianglePoints [0, 1, 2])
              (trianglePoints.pointAt x))
            (sqrDistFloat (computeCentroidFloat trianglePoints [0, 1, 2])
              (trianglePoints.pointAt b)) = false) →
        trianglePoints.pointAt a = trianglePoints.pointAt b) →
      trianglePoints.pointAt
          (closestToCentroid trianglePoints (computeCentroidFloat trianglePoints [2, 0, 1])
            [2, 0, 1]) =
        trianglePoints.pointAt
          (closestToCentroid trianglePoints (computeCentroidFloat trianglePoints [0, 1, 2])
            [0, 1, 2]))) :=
  ⟨by decide, (List.perm_append_comm : ([2] ++ [0, 1]).Perm ([0, 1] ++ [2])), by decide!,
    by decide!,
    size3_selection_permutation trianglePoints [0, 1, 2] [2, 0, 1] (by decide)
      (List.perm_append_comm : ([2] ++ [0, 1]).Perm ([0, 1] ++ [2])) (by decide!) (by decide!)⟩

/-- C7, counterexample. In `overflowScale`, whose points are values of `float`,
the output holds the source point 0 twice (the second time for the group of
voxel `(0, 0, 1)`, whose centroid is not a number): the keys of the output
points are `(0, 0, 0)`, `(0, 0, 0)`, not strictly ascending, and the colour at
output position 1 is that of source point 0, which is not a member of the
group `[1, 2, 3]` that position 1 stands for. -/
theorem overflow_output_keys_not_ascending :
    (∀ p ∈ overflowScale.pSet.points, IsFloatPoint p) ∧
    overflowScale.voxels = [((0, 0, 0), [0]), ((0, 0, 1), [1, 2, 3])] ∧
    (computeScaledSet overflowScale).map
        (fun out => out.scaledSet.points.map overflowScale.pointKey) =
      some [(0, 0, 0), (0, 0, 0)] ∧
    ¬ ([(0, 0, 0), (0, 0, 0)] : List VoxelKey).Pairwise keyLt ∧
    (computeScaledSet overflowScale).map (fun out => out.scaledSet.colors) =
      some [overflowScale.pSet.colorAt 0, overflowScale.pSet.colorAt 0] ∧
    overflowScale.repOf ((0, 0, 1), [1, 2, 3]) = 0 := by
  decide!

/-- C7, amended, at `clusterScale`. -/
theorem computeScaledSet_ascending_keys_witness :
    clusterScale.pSet.points ≠ [] ∧ 0 < clusterScale.resolution ∧
    clusterScale.scaledSet.points = [] ∧ clusterScale.KeepsMembers ∧
    ∃ out, computeScaledSet clusterScale = some out ∧
      (out.scaledSet.points.map clusterScale.pointKey).Pairwise keyLt ∧
      out.scaledSet.colors.length = out.scaledSet.points.length ∧
      out.scaledSet.points.length = clusterScale.voxels.length ∧
      ∀ j t, clusterScale.voxels[j]? = some t →
        clusterScale.repOf t ∈ t.2 ∧
        out.scaledSet.pointAt j = clusterScale.pSet.pointAt (clusterScale.repOf t) ∧
        out.scaledSet.colorAt j = clusterScale.pSet.colorAt (clusterScale.repOf t) :=
  ⟨by decide, by decide!, by decide, by decide!,
    computeScaledSet_ascending_keys clusterScale (by decide) (by decide!) (by decide)
      (by decide!)⟩

/-- C8, counterexample. In `overflowScale`, a level with `id = 0` whose points
are values of `float`, the source indices 1, 2 and 3 are recorded against the
output index 1; the output point at index 1 is a copy of source point 0 and has
the voxel key `(0, 0, 0)`, while the source points 1, 2 and 3 have the key
`(0, 0, 1)`. -/
theorem overflow_tracking_against_other_voxel :
    overflowScale.id = 0 ∧
    (∀ p ∈ overflowScale.pSet.points, IsFloatPoint p) ∧
    (computeScaledSet overflowScale).map (fun out => out.scaledSet.pointMap) =
      some [(0, 0), (1, 1), (2, 1), (3, 1)] ∧
    (computeScaledSet overflowScale).map
        (fun out => overflowScale.pointKey (out.scaledSet.pointAt 1)) = some (0, 0, 0) ∧
    overflowScale.pointKey (overflowScale.pSet.pointAt 1) = (0, 0, 1) ∧
    overflowScale.pointKey (overflowScale.pSet.pointAt 2) = (0, 0, 1) ∧
    overflowScale.pointKey (overflowScale.pSet.pointAt 3) = (0, 0, 1) := by
  decide!

/-- C8, amended, at `clusterScale`, a level with `id = 0`. -/
theorem computeScaledSet_tracking_witness :
    clusterScale.pSet.points ≠ [] ∧ 0 < clusterScale.resolution ∧
    clusterScale.scaledSet.points = [] ∧ clusterScale.id = 0 ∧ clusterScale.KeepsMembers ∧
    ∃ out log, computeScaledSet clusterScale = some out ∧
      out.scaledSet.pointMap = clusterScale.scaledSet.pointMap ++ log ∧
      (clusterScale.id = 0 →
        (log.map Prod.fst).Perm (List.range clusterScale.pSet.count) ∧
        (∀ e ∈ log, e.2 < out.scaledSet.count) ∧
        (clusterScale.KeepsMembers → ∀ e ∈ log,
          clusterScale.pointKey (out.scaledSet.pointAt e.2) =
            clusterScale.pointKey (clusterScale.pSet.pointAt e.1))) ∧
      (0 < clusterScale.id → log = []) :=
  ⟨by decide, by decide!, by decide, by decide, by decide!,
    computeScaledSet_tracking clusterScale (by decide) (by decide!) (by decide)⟩

/-! ## The voxel key -/

/-- The conversion of a finite `double` whose truncation fits into 64 bits is
truncation toward zero. -/
theorem toSsize_fin (q : ℚ) (h1 : -2 ^ 63 - 1 < q) (h2 : q < 2 ^ 63) :
    toSsize (FVal.fin q) = truncTowardZero q := by
  have hden : (0 : Int) ≤ (q.den : Int) := Int.ofNat_nonneg _
  have ht : Int.tdiv q.num (q.den : Int) = truncTowardZero q := by
    unfold truncTowardZero
    by_cases h : 0 ≤ q
    · rw [if_pos h, Rat.floor_def]
      exact Int.tdiv_eq_ediv (Rat.num_nonneg.2 h) hden
    · rw [if_neg h]
      have hneg : q < 0 := not_le.1 h
      have hnum : q.num < 0 := Rat.num_neg.2 hneg
      have e1 : ⌈q⌉ = -⌊-q⌋ := by rw [Int.floor_neg, neg_neg]
      rw [e1, Rat.floor_def, Rat.neg_num, Rat.neg_den]
      have e2 : q.num = -(-q.num) := by ring
      rw [e2, Int.neg_tdiv, neg_neg]
      congr 1
      exact Int.tdiv_eq_ediv (by omega) hden
  have hr : -2 ^ 63 ≤ truncTowardZero q ∧ truncTowardZero q < 2 ^ 63 := by
    unfold truncTowardZero
    by_cases h : 0 ≤ q
    · rw [if_pos h]
      constructor
      · have : (0 : Int) ≤ ⌊q⌋ := Int.floor_nonneg.2 h
        omega
      · rw [Int.floor_lt]
        exact_mod_cast h2
    · rw [if_neg h]
      have hneg : q < 0 := not_le.1 h
      constructor
      · have : (-2 ^ 63 - 1 : Int) < ⌈q⌉ := by
          rw [Int.lt_ceil]
          exact_mod_cast h1
        omega
      · have : ⌈q⌉ ≤ 0 := by
          rw [Int.ceil_le]
          exact_mod_cast hneg.le
        omega
  simp only [toSsize, ht]
  rw [if_pos hr]

/-- The conversion of anything else gives `-2^63`. -/
theorem toSsize_out_of_range :
    toSsize FVal.posInf = -2 ^ 63 ∧ toSsize FVal.negInf = -2 ^ 63 ∧
    toSsize FVal.nan = -2 ^ 63 ∧
    (∀ q : ℚ, 2 ^ 63 ≤ q → toSsize (FVal.fin q) = -2 ^ 63) ∧
    (∀ q : ℚ, q ≤ -2 ^ 63 - 1 → toSsize (FVal.fin q) = -2 ^ 63) := by
  refine ⟨rfl, rfl, rfl, ?_, ?_⟩
  · intro q hq
    have h0 : 0 ≤ q := le_trans (by norm_num) hq
    have ht : Int.tdiv q.num (q.den : Int) = ⌊q⌋ := by
      rw [Rat.floor_def]
      exact Int.tdiv_eq_ediv (Rat.num_nonneg.2 h0) (Int.ofNat_nonneg _)
    have hf : (2 : Int) ^ 63 ≤ ⌊q⌋ := by
      rw [Int.le_floor]
      exact_mod_cast hq
    simp only [toSsize, ht]
    rw [if_neg (by omega)]
  · intro q hq
    have hneg : q < 0 := lt_of_le_of_lt hq (by norm_num)
    have hnum : q.num < 0 := Rat.num_neg.2 hneg
    have ht : Int.tdiv q.num (q.den : Int) = ⌈q⌉ := by
      have e1 : ⌈q⌉ = -⌊-q⌋ := by rw [Int.floor_neg, neg_neg]
      rw [e1, Rat.floor_def, Rat.neg_num, Rat.neg_den]
      have e2 : q.num = -(-q.num) := by ring
      rw [e2, Int.neg_tdiv, neg_neg]
      congr 1
      exact Int.tdiv_eq_ediv (by omega) (Int.ofNat_nonneg _)
    have hc : ⌈q⌉ ≤ -2 ^ 63 - 1 := by
      rw [Int.ceil_le]
      exact_mod_cast hq
    simp only [toSsize, ht]
    by_cases h : (-2 : Int) ^ 63 ≤ ⌈q⌉ ∧ ⌈q⌉ < 2 ^ 63
    · omega
    · exact if_neg (by omega)

theorem truncTowardZero_small_negative (q : ℚ) (h1 : -1 < q) (h2 : q < 0) :
    truncTowardZero q = 0 ∧ ⌊q⌋ = -1 := by
  unfold truncTowardZero
  rw [if_neg (not_le.2 h2)]
  constructor
  · rw [Int.ceil_eq_iff]
    constructor
    · simpa using h1
    · simpa using h2.le
  · rw [Int.floor_eq_iff]
    constructor
    · simpa using h1.le
    · simpa using h2

theorem mem_allIds (m : List (VoxelKey × List Nat)) (i : Nat) :
    i ∈ allIds m ↔ ∃ t ∈ m, i ∈ t.2 := by
  induction m with
  | nil => simp [allIds]
  | cons t rest ih =>
    simp only [allIds, List.mem_append, ih, List.mem_cons]
    constructor
    · rintro (h | ⟨u, hu, hi⟩)
      · exact ⟨t, Or.inl rfl, h⟩
      · exact ⟨u, Or.inr hu, hi⟩
    · rintro ⟨u, (rfl | hu), hi⟩
      · exact Or.inl hi
      · exact Or.inr ⟨u, hu, hi⟩

/-- C16, amended. Every source point `i` is filed by `computeScaledSet` in the
map entry whose key is, with `(x0, y0, z0)` the first source point, the triple
of the conversions to `ssize_t` of the quotients `(x - y0) / resolution`,
`(y - x0) / resolution`, `(z - z0) / resolution` as computed in `double`: the x
offset is taken from `y0` and the y offset from `x0`. The conversion of a
finite quotient `q` with `-2^63 - 1 < q < 2^63` is `q` rounded toward zero; the
conversion of any other quotient is `-2^63`. Rounding toward zero is not
flooring: a quotient strictly between -1 and 0 gives 0, while its floor is -1. -/
theorem computeScaledSet_key_truncates (s : Scale) (_hres : 0 < s.resolution)
    (i : Nat) (hi : i < s.pSet.count) :
    (∃ t ∈ s.voxels, i ∈ t.2) ∧
    (∀ t ∈ s.voxels, i ∈ t.2 →
      t.1 = (toSsize (quotient64 (s.pSet.pointAt i).1 (s.pSet.pointAt 0).2.1 s.resolution),
             toSsize (quotient64 (s.pSet.pointAt i).2.1 (s.pSet.pointAt 0).1 s.resolution),
             toSsize (quotient64 (s.pSet.pointAt i).2.2 (s.pSet.pointAt 0).2.2 s.resolution))) ∧
    (∀ q : ℚ, -2 ^ 63 - 1 < q → q < 2 ^ 63 → toSsize (FVal.fin q) = truncTowardZero q) ∧
    (∀ v : FVal, (∀ q : ℚ, v = FVal.fin q → q ≤ -2 ^ 63 - 1 ∨ 2 ^ 63 ≤ q) →
      toSsize v = -2 ^ 63) ∧
    (∀ q : ℚ, -1 < q → q < 0 → truncTowardZero q = 0 ∧ ⌊q⌋ = -1) := by
  refine ⟨?_, ?_, toSsize_fin, ?_, truncTowardZero_small_negative⟩
  · have hperm := (voxels_spec s).2.2.2
    have : i ∈ allIds s.voxels := hperm.mem_iff.2 (List.mem_range.2 hi)
    exact (mem_allIds _ _).1 this
  · intro t ht hit
    rw [← (voxels_member s t ht i hit).2]
    rfl
  · intro v hv
    cases v with
    | fin q =>
      rcases hv q rfl with h | h
      · exact toSsize_out_of_range.2.2.2.2 q h
      · exact toSsize_out_of_range.2.2.2.1 q h
    | posInf => rfl
    | negInf => rfl
    | nan => rfl

/-- C16, counterexample. In `fineScale` the resolution is the `double` nearest
to `0.005` and the second point lies at `x = 1`: the quotient `1 / resolution`
is below 200 in exact arithmetic and truncates to 199, but it is 200 as
computed in `double`, and the point is filed under the key `(200, 0, 0)`. In
`farScale`, at resolution 1, the points at `x = 2^64` and `x = -2^64` have
quotients outside the range of `ssize_t`: both are filed under the key
`(-2^63, 0, 0)`, which is the truncation of neither quotient. -/
theorem key_is_not_truncated_exact_quotient :
    (∀ p ∈ fineScale.pSet.points, IsFloatPoint p) ∧ IsDouble fineScale.resolution ∧
    0 < fineScale.resolution ∧
    truncTowardZero (((fineScale.pSet.pointAt 1).1 - (fineScale.pSet.pointAt 0).2.1) /
      fineScale.resolution) = 199 ∧
    quotient64 (fineScale.pSet.pointAt 1).1 (fineScale.pSet.pointAt 0).2.1 fineScale.resolution
      = 200 ∧
    fineScale.voxels = [((0, 0, 0), [0]), ((200, 0, 0), [1])] ∧
    (∀ p ∈ farScale.pSet.points, IsFloatPoint p) ∧ 0 < farScale.resolution ∧
    quotient64 (farScale.pSet.pointAt 1).1 (farScale.pSet.pointAt 0).2.1 farScale.resolution
      = FVal.fin (2 ^ 64) ∧
    quotient64 (farScale.pSet.pointAt 2).1 (farScale.pSet.pointAt 0).2.1 farScale.resolution
      = FVal.fin (-2 ^ 64) ∧
    truncTowardZero (2 ^ 64) = 2 ^ 64 ∧ truncTowardZero (-2 ^ 64) = -2 ^ 64 ∧
    farScale.voxels = [((-2 ^ 63, 0, 0), [1, 2]), ((0, 0, 0), [0])] := by
  decide!

/-- C16, amended, at `skewScale`, whose first point `(1, 5, 0)` has different x
and y, for the source point 1, `(2, 7, -1)`: the x quotient `(2 - 5) / 4` is
`-3/4`, which gives 0 where the floor is -1; the y quotient `(7 - 1) / 4` gives
1; with the offsets taken from their own origins the key would be `(0, 0, 0)`.
The source point 2, `(14, 6, -9)`, has the z quotient `-9/4`, which gives -2. -/
theorem computeScaledSet_key_truncates_witness :
    0 < skewScale.resolution ∧ 1 < skewScale.pSet.count ∧
    ((∃ t ∈ skewScale.voxels, 1 ∈ t.2) ∧
    (∀ t ∈ skewScale.voxels, 1 ∈ t.2 →
      t.1 = (toSsize (quotient64 (skewScale.pSet.pointAt 1).1 (skewScale.pSet.pointAt 0).2.1
               skewScale.resolution),
             toSsize (quotient64 (skewScale.pSet.pointAt 1).2.1 (skewScale.pSet.pointAt 0).1
               skewScale.resolution),
             toSsize (quotient64 (skewScale.pSet.pointAt 1).2.2 (skewScale.pSet.pointAt 0).2.2
               skewScale.resolution))) ∧
    (∀ q : ℚ, -2 ^ 63 - 1 < q → q < 2 ^ 63 → toSsize (FVal.fin q) = truncTowardZero q) ∧
    (∀ v : FVal, (∀ q : ℚ, v = FVal.fin q → q ≤ -2 ^ 63 - 1 ∨ 2 ^ 63 ≤ q) →
      toSsize v = -2 ^ 63) ∧
    (∀ q : ℚ, -1 < q → q < 0 → truncTowardZero q = 0 ∧ ⌊q⌋ = -1)) ∧
    skewScale.voxels = [((-1, 1, 0), [0]), ((0, 1, 0), [1]), ((2, 1, -2), [2])] ∧
    quotient64 (skewScale.pSet.pointAt 1).1 (skewScale.pSet.pointAt 0).2.1 skewScale.resolution
      = FVal.fin (-3 / 4) ∧
    quotient64 (skewScale.pSet.pointAt 1).2.1 (skewScale.pSet.pointAt 0).1 skewScale.resolution
      = FVal.fin (3 / 2) ∧
    toSsize (quotient64 (skewScale.pSet.pointAt 1).1 (skewScale.pSet.pointAt 0).1
      skewScale.resolution) = 0 ∧
    toSsize (quotient64 (skewScale.pSet.pointAt 1).2.1 (skewScale.pSet.pointAt 0).2.1
      skewScale.resolution) = 0 ∧
    quotient64 (skewScale.pSet.pointAt 2).2.2 (skewScale.pSet.pointAt 0).2.2 skewScale.resolution
      = FVal.fin (-9 / 4) :=
  ⟨by decide!, by decide,
    computeScaledSet_key_truncates skewScale (by decide!) 1 (by decide),
    by decide!, by decide!, by decide!, by decide!, by decide!, by decide!⟩

/-! ## Downsampling a downsampled set -/

theorem mapPushBack_append (key : VoxelKey) (id : Nat) (m : List (VoxelKey × List Nat))
    (h : ∀ t ∈ m, keyLt t.1 key) : mapPushBack key id m = m ++ [(key, [id])] := by
  induction m with
  | nil => simp [mapPushBack]
  | cons hd rest ih =>
    obtain ⟨k, ids⟩ := hd
    have hk : keyLt k key := h (k, ids) (List.mem_cons_self _ _)
    have h1 : ¬ key = k := fun e => keyLt_ne hk e.symm
    have h2 : ¬ keyLt key k := fun e => keyLt_irrefl _ (keyLt_trans hk e)
    simp only [mapPushBack, if_neg h1, if_neg h2, List.cons_append]
    rw [ih (fun t ht => h t (List.mem_cons_of_mem _ ht))]

/-- When the keys of the ids pushed are strictly ascending, every id gets an
entry of its own, in the order pushed. -/
theorem foldl_mapPushBack_ascending (f : Nat → VoxelKey) (l : List Nat)
    (h : (l.map f).Pairwise keyLt) :
    l.foldl (fun m id => mapPushBack (f id) id m) [] = l.map (fun i => (f i, [i])) := by
  induction l using List.reverseRecOn with
  | nil => simp
  | append_singleton l a ih =>
    rw [List.map_append, List.pairwise_append] at h
    rw [List.foldl_append, ih h.1]
    simp only [List.foldl_cons, List.foldl_nil, List.map_append, List.map_cons, List.map_nil]
    apply mapPushBack_append
    intro t ht
    obtain ⟨i, hi, rfl⟩ := List.mem_map.1 ht
    exact h.2.2 (f i) (List.mem_map.2 ⟨i, hi, rfl⟩) (f a) (by simp)

theorem range_map_getD {α : Type} (l : List α) (d : α) :
    (List.range l.length).map (fun i => l.getD i d) = l := by
  apply List.ext_getElem
  · simp
  · intro i h1 h2
    rw [List.getElem_map, List.getElem_range]
    exact List.getD_eq_getElem _ _ h2

/-- A level whose source points have strictly ascending keys, in source order,
is left as it is by the downsampler: same points, same colours, same order. -/
theorem computeScaledSet_of_ascending (s : Scale) (hne : s.pSet.points ≠ [])
    (hempty : s.scaledSet.points = [])
    (hcol : s.pSet.colors.length = s.pSet.points.length)
    (hasc : (s.pSet.points.map s.pointKey).Pairwise keyLt) :
    ∃ out, computeScaledSet s = some out ∧
      out.scaledSet.points = s.pSet.points ∧ out.scaledSet.colors = s.pSet.colors := by
  have hkeys : (List.range s.pSet.count).map (fun i => s.pointKey (s.pSet.pointAt i)) =
      s.pSet.points.map s.pointKey := by
    have := congrArg (List.map s.pointKey) (range_map_getD s.pSet.points (0, 0, 0))
    rw [List.map_map] at this
    exact this
  have hv : s.voxels =
      (List.range s.pSet.count).map (fun i => (s.pointKey (s.pSet.pointAt i), [i])) := by
    unfold Scale.voxels populated_voxel_ids
    exact foldl_mapPushBack_ascending (fun i => s.pointKey (s.pSet.pointAt i)) _
      (by rw [hkeys]; exact hasc)
  refine ⟨_, computeScaledSet_eq s hne hempty, ?_, ?_⟩
  · simp only [hv, List.map_map]
    have : ((fun t => s.pSet.pointAt (s.repOf t)) ∘
        fun i => (s.pointKey (s.pSet.pointAt i), [i])) = fun i => s.pSet.points.getD i (0, 0, 0) := by
      funext i
      simp [Scale.repOf, representative, PointSet.pointAt]
    rw [this]
    exact range_map_getD _ _
  · simp only [hv, List.map_map]
    have : ((fun t => s.pSet.colorAt (s.repOf t)) ∘
        fun i => (s.pointKey (s.pSet.pointAt i), [i])) = fun i => s.pSet.colors.getD i (0, 0, 0) := by
      funext i
      simp [Scale.repOf, representative, PointSet.colorAt]
    rw [this]
    have hc : s.pSet.count = s.pSet.colors.length := by
      unfold PointSet.count; exact hcol.symm
    rw [hc]
    exact range_map_getD _ _

theorem voxels_ne_nil (s : Scale) (hne : s.pSet.points ≠ []) : s.voxels ≠ [] := by
  have hpos : 0 < s.pSet.count := List.length_pos.2 hne
  obtain ⟨t, ht, _⟩ := (voxels_spec s).2.2.1 0 hpos
  exact List.ne_nil_of_mem ht

/-- A map of non-empty entries that holds as many ids as it has entries holds
one id per entry. -/
theorem allIds_length (m : List (VoxelKey × List Nat)) (hne : ∀ t ∈ m, t.2 ≠ []) :
    m.length ≤ (allIds m).length ∧
    ((allIds m).length = m.length → ∀ t ∈ m, t.2.length = 1) := by
  induction m with
  | nil => simp [allIds]
  | cons t rest ih =>
    obtain ⟨h1, h2⟩ := ih (fun u hu => hne u (List.mem_cons_of_mem _ hu))
    have ht : 1 ≤ t.2.length := List.length_pos.2 (hne t (List.mem_cons_self _ _))
    simp only [allIds, List.length_append, List.length_cons]
    refine ⟨by omega, ?_⟩
    intro e u hu
    rcases List.mem_cons.1 hu with h | h
    · rw [h]; omega
    · exact h2 (by omega) u h

/-- A level whose map has as many entries as the source has points keeps a
member for every entry: every entry holds one id. -/
theorem keepsMembers_of_length (s : Scale) (h : s.voxels.length = s.pSet.count) :
    s.KeepsMembers := by
  obtain ⟨_, h2, _, h4⟩ := voxels_spec s
  have hlen : (allIds s.voxels).length = s.voxels.length := by
    rw [h4.length_eq, List.length_range, h]
  intro t ht h3
  have := (allIds_length s.voxels (fun u hu => (h2 u hu).2)).2 hlen t ht
  omega

/-- C19, amended. Downsampling the downsampled set once more at the same
resolution returns the same points and colours in the same order if and only
if the voxel keys of the downsampled points, computed in the grid anchored at
the first downsampled point, are strictly ascending in output order; this is
so whenever the first downsampled point is the first source point and the
first run kept a member of every voxel group (`KeepsMembers`). -/
theorem computeScaledSet_twice (s : Scale)
    (hne : s.pSet.points ≠ []) (_hres : 0 < s.resolution)
    (hempty : s.scaledSet.points = []) :
    ∃ out out2, computeScaledSet s = some out ∧ computeScaledSet out.rerun = some out2 ∧
      ((out2.scaledSet.points = out.scaledSet.points ∧
          out2.scaledSet.colors = out.scaledSet.colors) ↔
        (out.scaledSet.points.map out.rerun.pointKey).Pairwise keyLt) ∧
      (s.KeepsMembers → out.scaledSet.pointAt 0 = s.pSet.pointAt 0 →
        out2.scaledSet.points = out.scaledSet.points ∧
        out2.scaledSet.colors = out.scaledSet.colors) := by
  obtain ⟨out, hout, hlen, hcol, _, hrun⟩ := computeScaledSet_run s hne hempty
  have hres : out.resolution = s.resolution := by
    rw [computeScaledSet_eq s hne hempty] at hout
    injection hout with e
    rw [← e]
  have hne2 : out.rerun.pSet.points ≠ [] := by
    intro e
    have h0 : out.scaledSet.points.length = 0 := by
      simp only [Scale.rerun] at e; rw [e]; rfl
    rw [hlen] at h0
    exact voxels_ne_nil s hne (List.length_eq_zero.1 h0)
  have hempty2 : out.rerun.scaledSet.points = [] := rfl
  have hcol2 : out.rerun.pSet.colors.length = out.rerun.pSet.points.length := by
    show out.scaledSet.colors.length = out.scaledSet.points.length
    rw [hcol, hlen]
  obtain ⟨out2, hout2, hlen2, _, _, hrun2⟩ := computeScaledSet_run out.rerun hne2 hempty2
  have hiff : (out2.scaledSet.points = out.scaledSet.points ∧
        out2.scaledSet.colors = out.scaledSet.colors) ↔
      (out.scaledSet.points.map out.rerun.pointKey).Pairwise keyLt := by
    constructor
    · rintro ⟨hp, _⟩
      have hk : out.rerun.KeepsMembers := by
        apply keepsMembers_of_length
        rw [← hlen2, hp]
        rfl
      rw [← hp, output_keys out.rerun out2 hk hlen2 hrun2]
      exact voxels_keys_pairwise out.rerun
    · intro hasc
      obtain ⟨o, ho, h1, h2⟩ := computeScaledSet_of_ascending out.rerun hne2 hempty2 hcol2 hasc
      rw [hout2] at ho
      injection ho with e
      rw [e]
      exact ⟨h1, h2⟩
  refine ⟨out, out2, hout, hout2, hiff, ?_⟩
  intro hkeeps horigin
  apply hiff.2
  have hkey : out.rerun.pointKey = s.pointKey := by
    funext p
    simp only [Scale.pointKey, Scale.keyOf, Scale.origin, Scale.rerun, hres]
    rw [horigin]
  rw [hkey, output_keys s out hkeeps hlen hrun]
  exact voxels_keys_pairwise s

/-- C19, amended, at `clusterScale`, where the first downsampled point is the
first source point. -/
theorem computeScaledSet_twice_witness :
    clusterScale.pSet.points ≠ [] ∧ 0 < clusterScale.resolution ∧
    clusterScale.scaledSet.points = [] ∧
    (∃ out out2, computeScaledSet clusterScale = some out ∧
      computeScaledSet out.rerun = some out2 ∧
      ((out2.scaledSet.points = out.scaledSet.points ∧
          out2.scaledSet.colors = out.scaledSet.colors) ↔
        (out.scaledSet.points.map out.rerun.pointKey).Pairwise keyLt) ∧
      (clusterScale.KeepsMembers → out.scaledSet.pointAt 0 = clusterScale.pSet.pointAt 0 →
        out2.scaledSet.points = out.scaledSet.points ∧
        out2.scaledSet.colors = out.scaledSet.colors)) ∧
    clusterScale.KeepsMembers ∧
    (computeScaledSet clusterScale).map (fun out => out.scaledSet.pointAt 0) =
      some (clusterScale.pSet.pointAt 0) ∧
    ((computeScaledSet clusterScale).bind (fun out => computeScaledSet out.rerun)).map
        (fun out2 => out2.scaledSet.points) =
      (computeScaledSet clusterScale).map (fun out => out.scaledSet.points) :=
  ⟨by decide, by decide!, by decide,
    computeScaledSet_twice clusterScale (by decide) (by decide!) (by decide),
    by decide!, by decide!, by decide!⟩

/-- C19, counterexample. Downsampling `driftPoints` at resolution 4 keeps the
two points at `z = 7/2` and `z = 9/2`; downsampling that result again at
resolution 4 keeps only the point at `z = 9/2`: the second grid is anchored at
`z = 7/2`, and there both points fall in voxel `(0, 0, 0)`. -/
theorem redownsampling_differs :
    driftScale.pSet.points ≠ [] ∧ 0 < driftScale.resolution ∧
    (computeScaledSet driftScale).map (fun out => out.scaledSet.points) =
      some [(0, 0, 7 / 2), (0, 0, 9 / 2)] ∧
    ((computeScaledSet driftScale).bind (fun out => computeScaledSet out.rerun)).map
        (fun out2 => out2.scaledSet.points) =
      some [(0, 0, 9 / 2)] := by
  decide!

/-! ## Neighbour lists within the range of the `float` sum -/

/-- The square of the `float` difference of two values within `2^j` is a
finite `double` in `[0, 2^(2j+2)]`. -/
theorem sq64_sub32_pow {c p : ℚ} (j : Int) (h1 : -126 ≤ j) (h2 : j ≤ 126)
    (hc : |c| ≤ twoPow j) (hp : |p| ≤ twoPow j) :
    ∃ s, sq64 (sub32 (FVal.fin c) (FVal.fin p)) = FVal.fin s ∧ 0 ≤ s ∧
      s ≤ twoPow (2 * j + 2) := by
  have hB := twoPow_pos j
  have e1 : twoPow (j + 1) = 2 * twoPow j := twoPow_succ j
  have hsub : sub32 (FVal.fin c) (FVal.fin p) = rnd32 (c - p) := by
    simp [sub32, FVal.sub, FVal.add, FVal.neg, sub_eq_add_neg]
  have hc2 := abs_le.1 hc
  have hp2 := abs_le.1 hp
  have hx : |c - p| ≤ twoPow (j + 1) := by
    rw [abs_le]
    constructor <;> linarith
  obtain ⟨d, hd, hdb, _, _⟩ := rnd32_bound (j + 1) (by omega) (by omega) hx
  have e2 : twoPow (2 * j + 2) = twoPow (j + 1) * twoPow (j + 1) := by
    rw [← twoPow_add]
    congr 1
    ring
  have hsq : |d * d| ≤ twoPow (2 * j + 2) := by
    rw [abs_mul, e2]
    exact mul_le_mul hdb hdb (abs_nonneg d) (le_of_lt (twoPow_pos _))
  obtain ⟨s, hs, hsb, hsp, _⟩ := rnd64_bound (2 * j + 2) (by omega) (by omega) hsq
  refine ⟨s, ?_, hsp (mul_self_nonneg d), le_trans (le_abs_self s) hsb⟩
  rw [hsub, hd]
  exact hs

/-- The computed squared distance of two points with coordinates within `2^j`
is a finite `double` in `[0, 2^(2j+4)]`. -/
theorem sqrDistFloat_pow {a b : Point} (j : Int) (h1 : -126 ≤ j) (h2 : j ≤ 126)
    (ha : |a.1| ≤ twoPow j ∧ |a.2.1| ≤ twoPow j ∧ |a.2.2| ≤ twoPow j)
    (hb : |b.1| ≤ twoPow j ∧ |b.2.1| ≤ twoPow j ∧ |b.2.2| ≤ twoPow j) :
    ∃ w, sqrDistFloat (promote a) b = FVal.fin w ∧ 0 ≤ w ∧ w ≤ twoPow (2 * j + 4) := by
  obtain ⟨s1, e1, n1, u1⟩ := sq64_sub32_pow j h1 h2 ha.1 hb.1
  obtain ⟨s2, e2, n2, u2⟩ := sq64_sub32_pow j h1 h2 ha.2.1 hb.2.1
  obtain ⟨s3, e3, n3, u3⟩ := sq64_sub32_pow j h1 h2 ha.2.2 hb.2.2
  have p3 : twoPow (2 * j + 3) = 2 * twoPow (2 * j + 2) := by
    rw [← twoPow_succ]
    congr 1
    omega
  have p4 : twoPow (2 * j + 4) = 2 * twoPow (2 * j + 3) := by
    rw [← twoPow_succ]
    congr 1
    omega
  have h12 : |s1 + s2| ≤ twoPow (2 * j + 3) := by
    rw [abs_of_nonneg (add_nonneg n1 n2)]
    linarith
  obtain ⟨t, ht, htb, htp, _⟩ := rnd64_bound (2 * j + 3) (by omega) (by omega) h12
  have ht0 := htp (add_nonneg n1 n2)
  have ht1 := le_trans (le_abs_self t) htb
  have h123 : |t + s3| ≤ twoPow (2 * j + 4) := by
    rw [abs_of_nonneg (add_nonneg ht0 n3)]
    linarith [twoPow_pos (2 * j + 2)]
  obtain ⟨w, hw, hwb, hwp, _⟩ := rnd64_bound (2 * j + 4) (by omega) (by omega) h123
  refine ⟨w, ?_, hwp (add_nonneg ht0 n3), le_trans (le_abs_self w) hwb⟩
  unfold sqrDistFloat promote
  simp only [e1, e2, e3]
  have hadd : add64 (FVal.fin s1) (FVal.fin s2) = FVal.fin t := ht
  rw [hadd]
  exact hw

/-- The `float` sum over distances within `2^m` stays finite and at most
doubles with every term. -/
theorem floatSum_foldl_bound (d : Nat → FVal) (m : Int) (hm : -126 ≤ m)
    (hd : ∀ j, ∃ w, d j = FVal.fin w ∧ 0 ≤ w ∧ w ≤ twoPow m) :
    ∀ (ids : List Nat) (σ : ℚ) (e : Int), m ≤ e → e + ids.length ≤ 127 → 0 ≤ σ →
      σ ≤ twoPow e →
      ∃ τ, ids.foldl (fun sum j => (add64 sum (d j)).toFloat) (FVal.fin σ) = FVal.fin τ ∧
        0 ≤ τ ∧ τ ≤ twoPow (e + ids.length)
  | [], σ, e, _, _, h0, h1 => ⟨σ, rfl, h0, by simpa using h1⟩
  | j :: rest, σ, e, hme, hlen, h0, h1 => by
    obtain ⟨w, hw, w0, w1⟩ := hd j
    have hlen2 : e + 1 + (rest.length : Int) ≤ 127 := by
      simp only [List.length_cons, Nat.cast_add, Nat.cast_one] at hlen
      omega
    have hsum : |σ + w| ≤ twoPow (e + 1) := by
      rw [abs_of_nonneg (add_nonneg h0 w0), twoPow_succ]
      have := twoPow_le_twoPow hme
      linarith
    obtain ⟨t, ht, htb, htp, _⟩ := rnd64_bound (e + 1) (by omega) (by omega) hsum
    have ht0 := htp (add_nonneg h0 w0)
    obtain ⟨f, hf, hfb, hfp, _⟩ := rnd32_bound (e + 1) (by omega) (by omega) htb
    have hstep : (add64 (FVal.fin σ) (d j)).toFloat = FVal.fin f := by
      rw [hw]
      have hadd : add64 (FVal.fin σ) (FVal.fin w) = FVal.fin t := ht
      rw [hadd]
      exact hf
    obtain ⟨τ, hτ, τ0, τ1⟩ := floatSum_foldl_bound d m hm hd rest f (e + 1) (by omega) hlen2
      (hfp ht0) (le_trans (le_abs_self f) hfb)
    refine ⟨τ, ?_, τ0, ?_⟩
    · rw [List.foldl_cons, hstep]
      exact hτ
    · have e3 : e + ((j :: rest).length : Int) = e + 1 + (rest.length : Int) := by
        simp only [List.length_cons, Nat.cast_add, Nat.cast_one]
        ring
      rw [e3]
      exact τ1

theorem twoPow_127_lt : twoPow 127 < FLT_MAX := by
  have h := twoPow_natCast 127
  have h2 : twoPow 127 = 2 ^ 127 := by exact_mod_cast h
  rw [h2, FLT_MAX]
  norm_num

/-- For points with coordinates within `2^k` and a neighbour list of length
`n` with `2 k + n + 4 <= 127`, every sum that `computeMedoid` accumulates is
below `FLT_MAX`. -/
theorem medoidSum_lt_max (scaledSet : PointSet) (neighborIds : List Nat) (k : Nat)
    (hk : 2 * k + neighborIds.length + 4 ≤ 127)
    (hb : ∀ p ∈ scaledSet.points, |p.1| ≤ 2 ^ k ∧ |p.2.1| ≤ 2 ^ k ∧ |p.2.2| ≤ 2 ^ k)
    (i : Nat) :
    FVal.lt (medoidSum scaledSet neighborIds i) (FVal.fin FLT_MAX) = true := by
  have hall : ∀ j, |(scaledSet.pointAt j).1| ≤ twoPow (k : Int) ∧
      |(scaledSet.pointAt j).2.1| ≤ twoPow (k : Int) ∧
      |(scaledSet.pointAt j).2.2| ≤ twoPow (k : Int) := by
    intro j
    rw [twoPow_natCast]
    unfold PointSet.pointAt
    by_cases hj : j < scaledSet.points.length
    · rw [List.getD_eq_getElem _ _ hj]
      exact hb _ (List.getElem_mem hj)
    · rw [List.getD_eq_default _ _ (by omega)]
      simp
  have hd : ∀ j, ∃ w, sqrDistFloat (promote (scaledSet.pointAt i)) (scaledSet.pointAt j) =
      FVal.fin w ∧ 0 ≤ w ∧ w ≤ twoPow (2 * (k : Int) + 4) :=
    fun j => sqrDistFloat_pow (k : Int) (by omega) (by omega) (hall i) (hall j)
  have h0 : (0 : ℚ) ≤ twoPow (2 * (k : Int) + 4) := le_of_lt (twoPow_pos _)
  obtain ⟨τ, hτ, _, τ1⟩ := floatSum_foldl_bound
    (fun j => sqrDistFloat (promote (scaledSet.pointAt i)) (scaledSet.pointAt j))
    (2 * (k : Int) + 4) (by omega) hd neighborIds 0 (2 * (k : Int) + 4) le_rfl (by omega)
    le_rfl h0
  have hval : medoidSum scaledSet neighborIds i = FVal.fin τ := by
    unfold medoidSum
    have hz : (0 : FVal) = FVal.fin 0 := by
      show FVal.fin ((0 : Nat) : ℚ) = FVal.fin 0
      simp
    rw [hz]
    exact hτ
  rw [hval]
  simp only [FVal.lt, decide_eq_true_eq]
  have h127 : twoPow (2 * (k : Int) + 4 + (neighborIds.length : Int)) ≤ twoPow 127 :=
    twoPow_le_twoPow (by omega)
  exact lt_of_le_of_lt (le_trans τ1 h127) twoPow_127_lt

/-! ## The medoid -/

/-- The `float` sum of the inner loop of `computeMedoid` is a number that is
not negative (it may be `+inf`). -/
theorem medoidSum_nonneg (scaledSet : PointSet) (neighborIds : List Nat) (i : Nat) :
    (medoidSum scaledSet neighborIds i).IsNonneg := by
  unfold medoidSum
  have h : ∀ (l : List Nat) (a : FVal), a.IsNonneg →
      (l.foldl (fun sum j =>
        (add64 sum (sqrDistFloat (promote (scaledSet.pointAt i))
          (scaledSet.pointAt j))).toFloat) a).IsNonneg := by
    intro l
    induction l with
    | nil => intro a ha; exact ha
    | cons x rest ih =>
      intro a ha
      rw [List.foldl_cons]
      exact ih _ (toFloat_nonneg (add64_nonneg ha
        (sqrDistFloat_nonneg (promote_isFinite _) _)))
  exact h neighborIds 0 (by show (0 : ℚ) ≤ ((0 : Nat) : ℚ); simp)

/-- C17, amended. For a neighbour id list in which at least one listed point
has a sum of squared distances to the listed points, as accumulated by the
code in `float`, below `FLT_MAX` (the start value of `minDist`; so it is for
every non-empty list of `n` ids over coordinates of magnitude at most `2^k`
with `2 k + n + 4 <= 127`, `medoidSum_lt_max`), `computeMedoid` returns the coordinates of a listed point `r` such that no
listed point has a smaller computed sum, and every entry listed before `r` has
a strictly larger computed sum: `r` is the first entry at the least computed
sum. -/
theorem computeMedoid_first_min (scaledSet : PointSet) (neighborIds : List Nat)
    (hsmall : ∃ i ∈ neighborIds,
      FVal.lt (medoidSum scaledSet neighborIds i) (FVal.fin FLT_MAX) = true) :
    ∃ pre r post, neighborIds = pre ++ r :: post ∧
      computeMedoid scaledSet neighborIds = scaledSet.pointAt r ∧
      (∀ x ∈ neighborIds,
        FVal.lt (medoidSum scaledSet neighborIds x) (medoidSum scaledSet neighborIds r)
          = false) ∧
      (∀ x ∈ pre,
        FVal.lt (medoidSum scaledSet neighborIds r) (medoidSum scaledSet neighborIds x)
          = true) := by
  obtain ⟨i, hi, hlt⟩ := hsmall
  have hfold : computeMedoid scaledSet neighborIds =
      (neighborIds.foldl (fun st p =>
        if FVal.lt (medoidSum scaledSet neighborIds p) st.2 = true
        then (scaledSet.pointAt p, medoidSum scaledSet neighborIds p) else st)
        ((0, 0, 0), FVal.fin FLT_MAX)).1 := rfl
  rcases scan_foldl (fun p => medoidSum scaledSet neighborIds p) (fun p => scaledSet.pointAt p)
      neighborIds (0, 0, 0) (FVal.fin FLT_MAX) with
    ⟨_, h2⟩ | ⟨pre, r, post, h1, h2, _, h4, h5⟩
  · rw [h2 i hi] at hlt
    exact absurd hlt Bool.false_ne_true
  · refine ⟨pre, r, post, h1, by rw [hfold, h2], ?_, ?_⟩
    · intro x hx
      rw [h1] at hx
      rcases List.mem_append.1 hx with hx' | hx'
      · exact (h4 x hx').1
      · rcases List.mem_cons.1 hx' with e | hx''
        · rw [e]; exact fval_lt_irrefl _
        · exact h5 x hx''
    · intro x hx
      obtain ⟨h6, h7⟩ := h4 x hx
      rcases fval_lt_total (medoidSum_nonneg scaledSet neighborIds x)
          (medoidSum_nonneg scaledSet neighborIds r) with h | h | h
      · rw [h6] at h; exact absurd h Bool.false_ne_true
      · exact absurd h h7
      · exact h

/-- C17, amended, at the five points of `clusterPoints`, whose medoid is the
second listed point. -/
theorem computeMedoid_first_min_witness :
    (∃ i ∈ [0, 1, 2, 3, 4],
      FVal.lt (medoidSum clusterPoints [0, 1, 2, 3, 4] i) (FVal.fin FLT_MAX) = true) ∧
    (∃ pre r post, [0, 1, 2, 3, 4] = pre ++ r :: post ∧
      computeMedoid clusterPoints [0, 1, 2, 3, 4] = clusterPoints.pointAt r ∧
      (∀ x ∈ [0, 1, 2, 3, 4],
        FVal.lt (medoidSum clusterPoints [0, 1, 2, 3, 4] x)
          (medoidSum clusterPoints [0, 1, 2, 3, 4] r) = false) ∧
      (∀ x ∈ pre,
        FVal.lt (medoidSum clusterPoints [0, 1, 2, 3, 4] r)
          (medoidSum clusterPoints [0, 1, 2, 3, 4] x) = true)) ∧
    computeMedoid clusterPoints [0, 1, 2, 3, 4] = (5, 1, 1) :=
  ⟨by decide!, computeMedoid_first_min clusterPoints [0, 1, 2, 3, 4] (by decide!), by decide!⟩

/-- C17, counterexample. The four points of `lineupPoints` are values of
`float`. The sums of squared distances of the first and of the second point to
all four are `200030003.25` and `200030002.25`: the second point has the
smaller sum. Accumulated in `float`, both sums are `200030000`; the second is
not below the first, and the medoid returned is the first point, whose sum is
not the least. For the two points of `hugePairPoints`, at `2^64` and `-2^64`
on the x axis, both `float` sums are `+inf`, not below `FLT_MAX`; `minDist` is
never replaced and the medoid returned is `(0, 0, 0)`, which is neither of the
two listed points. -/
theorem computeMedoid_not_least_sum :
    (∀ p ∈ lineupPoints.points, IsFloatPoint p) ∧
    ([0, 1, 2, 3].map (fun j => sqrDist (lineupPoints.pointAt 0) (lineupPoints.pointAt j))).sum
      = 800120013 / 4 ∧
    ([0, 1, 2, 3].map (fun j => sqrDist (lineupPoints.pointAt 1) (lineupPoints.pointAt j))).sum
      = 800120009 / 4 ∧
    medoidSum lineupPoints [0, 1, 2, 3] 0 = 200030000 ∧
    medoidSum lineupPoints [0, 1, 2, 3] 1 = 200030000 ∧
    computeMedoid lineupPoints [0, 1, 2, 3] = lineupPoints.pointAt 0 ∧
    lineupPoints.pointAt 0 ≠ lineupPoints.pointAt 1 ∧
    (∀ p ∈ hugePairPoints.points, IsFloatPoint p) ∧
    medoidSum hugePairPoints [0, 1] 0 = FVal.posInf ∧
    medoidSum hugePairPoints [0, 1] 1 = FVal.posInf ∧
    computeMedoid hugePairPoints [0, 1] = (0, 0, 0) ∧
    computeMedoid hugePairPoints [0, 1] ≠ hugePairPoints.pointAt 0 ∧
    computeMedoid hugePairPoints [0, 1] ≠ hugePairPoints.pointAt 1 := by
  decide!

/-! ## The covariance matrix -/

theorem mul64_comm (a b : FVal) : mul64 a b = mul64 b a := by
  cases a <;> cases b <;> simp [mul64, FVal.mul, mul_comm]

theorem mulTransposeEntry_comm (A : List FPoint) (r c : Nat) :
    mulTransposeEntry A r c = mulTransposeEntry A c r := by
  unfold mulTransposeEntry
  congr 1
  funext acc col
  rw [mul64_comm]

/-- The entry `(r, c)` of the matrix returned by `computeCovariance`. -/
theorem computeCovariance_entry (scaledSet : PointSet) (neighborIds : List Nat)
    (medoid : FPoint) (r c : Nat) (hr : r < 3) (hc : c < 3) :
    (computeCovariance scaledSet neighborIds medoid).entry r c =
      div64 (mulTransposeEntry (covarianceColumns scaledSet neighborIds medoid) r c)
        (doubleOfSize (covarianceDivisor neighborIds.length)) := by
  have hr' : r = 0 ∨ r = 1 ∨ r = 2 := by omega
  have hc' : c = 0 ∨ c = 1 ∨ c = 2 := by omega
  rcases hr' with rfl | rfl | rfl <;> rcases hc' with rfl | rfl | rfl <;> rfl

theorem zero_notNeg : (0 : FVal).NotNeg := by
  show (0 : ℚ) ≤ ((0 : Nat) : ℚ)
  simp

/-- A diagonal entry of `A * A.transpose()`, a sum of squares, is never below zero. -/
theorem mulTransposeEntry_diag_notNeg (A : List FPoint) (r : Nat) :
    (mulTransposeEntry A r r).NotNeg := by
  unfold mulTransposeEntry
  have h : ∀ (l : List FPoint) (acc : FVal), acc.NotNeg →
      (l.foldl (fun acc col => add64 acc (mul64 (coord r col) (coord r col))) acc).NotNeg := by
    intro l
    induction l with
    | nil => intro acc hacc; exact hacc
    | cons col rest ih =>
      intro acc hacc
      rw [List.foldl_cons]
      exact ih _ (add64_notNeg hacc (sq64_notNeg (coord r col)))
  exact h A 0 zero_notNeg

/-- A count `n >= 1` converts to `+inf` or to a finite `double` at least 1. -/
theorem doubleOfSize_ge {n : Nat} (hn : 1 ≤ n) :
    doubleOfSize n = FVal.posInf ∨ ∃ d, doubleOfSize n = FVal.fin d ∧ 1 ≤ d := by
  have h1 : twoPow 0 ≤ (n : ℚ) := by
    rw [twoPow_zero]
    exact_mod_cast hn
  rcases roundTo_ge 53 (-1022) 1023 0 (by norm_num) (by norm_num) h1 with h | ⟨y, hy, hy1⟩
  · exact Or.inl h
  · exact Or.inr ⟨y, hy, by rw [twoPow_zero] at hy1; exact hy1⟩

/-- The quotient of a value that is not below zero by a positive count is not
below zero. -/
theorem div64_notNeg {a d : FVal} (ha : a.NotNeg)
    (hd : d = FVal.posInf ∨ ∃ q, d = FVal.fin q ∧ 1 ≤ q) : (div64 a d).NotNeg := by
  rcases hd with rfl | ⟨q, rfl, hq⟩
  · cases a <;> simp [div64, FVal.div, FVal.NotNeg] at *
  · have hq0 : 0 < q := by linarith
    cases a with
    | fin x =>
      simp only [FVal.NotNeg] at ha
      have h : div64 (FVal.fin x) (FVal.fin q) = rnd64 (x / q) := by
        simp [div64, FVal.div, hq0.ne']
      rw [h]
      exact notNeg_of_isNonneg (roundTo_nonneg 53 (-1022) 1023 (div_nonneg ha hq0.le))
    | posInf => simp [div64, FVal.div, FVal.NotNeg, hq0.le]
    | negInf => simp [FVal.NotNeg] at ha
    | nan => simp [div64, FVal.div, FVal.NotNeg]

/-- C18, amended. For a neighbour list of length `k >= 2` and any medoid
vector, the divisor of `computeCovariance` is `k - 1`, which is not zero;
entry `(r, c)` of the result is the quotient by `k - 1`, in `double`, of the
sum over the neighbours, in `double`, of the products of the `float`
differences `p[r] - medoid[r]` and `p[c] - medoid[c]`; the matrix is
symmetric; and no diagonal entry is below zero. -/
theorem computeCovariance_spec (scaledSet : PointSet) (neighborIds : List Nat)
    (medoid : FPoint) (hk : 2 ≤ neighborIds.length) :
    covarianceDivisor neighborIds.length = neighborIds.length - 1 ∧
    0 < neighborIds.length - 1 ∧
    (∀ r c, r < 3 → c < 3 →
      (computeCovariance scaledSet neighborIds medoid).entry r c =
        div64
          ((neighborIds.map (fun i =>
              (sub32 (FVal.fin (scaledSet.pointAt i).1) medoid.1,
               sub32 (FVal.fin (scaledSet.pointAt i).2.1) medoid.2.1,
               sub32 (FVal.fin (scaledSet.pointAt i).2.2) medoid.2.2))).foldl
            (fun acc col => add64 acc (mul64 (coord r col) (coord c col))) 0)
          (doubleOfSize (neighborIds.length - 1))) ∧
    (∀ r c, r < 3 → c < 3 →
      (computeCovariance scaledSet neighborIds medoid).entry r c =
        (computeCovariance scaledSet neighborIds medoid).entry c r) ∧
    (∀ r, r < 3 → ((computeCovariance scaledSet neighborIds medoid).entry r r).NotNeg) := by
  have hd : covarianceDivisor neighborIds.length = neighborIds.length - 1 := by
    unfold covarianceDivisor
    rw [if_neg (by omega)]
  refine ⟨hd, by omega, ?_, ?_, ?_⟩
  · intro r c hr hc
    rw [computeCovariance_entry _ _ _ r c hr hc, hd]
    rfl
  · intro r c hr hc
    rw [computeCovariance_entry _ _ _ r c hr hc, computeCovariance_entry _ _ _ c r hc hr,
      mulTransposeEntry_comm]
  · intro r hr
    rw [computeCovariance_entry _ _ _ r r hr hr, hd]
    exact div64_notNeg (mulTransposeEntry_diag_notNeg _ r) (doubleOfSize_ge (by omega))

/-- C18, amended, at the three points of `slantPoints` and their medoid, the origin. -/
theorem computeCovariance_spec_witness :
    2 ≤ [0, 1, 2].length ∧
    (covarianceDivisor [0, 1, 2].length = [0, 1, 2].length - 1 ∧
    0 < [0, 1, 2].length - 1 ∧
    (∀ r c, r < 3 → c < 3 →
      (computeCovariance slantPoints [0, 1, 2] (0, 0, 0)).entry r c =
        div64
          (([0, 1, 2].map (fun i =>
              (sub32 (FVal.fin (slantPoints.pointAt i).1) ((0, 0, 0) : FPoint).1,
               sub32 (FVal.fin (slantPoints.pointAt i).2.1) ((0, 0, 0) : FPoint).2.1,
               sub32 (FVal.fin (slantPoints.pointAt i).2.2) ((0, 0, 0) : FPoint).2.2))).foldl
            (fun acc col => add64 acc (mul64 (coord r col) (coord c col))) 0)
          (doubleOfSize ([0, 1, 2].length - 1))) ∧
    (∀ r c, r < 3 → c < 3 →
      (computeCovariance slantPoints [0, 1, 2] (0, 0, 0)).entry r c =
        (computeCovariance slantPoints [0, 1, 2] (0, 0, 0)).entry c r) ∧
    (∀ r, r < 3 → ((computeCovariance slantPoints [0, 1, 2] (0, 0, 0)).entry r r).NotNeg)) ∧
    computeCovariance slantPoints [0, 1, 2] (0, 0, 0) =
      ((FVal.fin (8776637902272825 / 2), FVal.fin (8893291361624475 / 2), 0),
       (FVal.fin (8893291361624475 / 2), 4505747652085712, 0),
       (0, 0, 0)) :=
  ⟨by decide, computeCovariance_spec slantPoints [0, 1, 2] (0, 0, 0) (by decide), by decide!⟩

/-- C18, counterexample. The three points of `slantPoints` are values of
`float`: the origin, `a = (2859, 2897, 0)` and `-2^15 a`; their medoid is the
origin. In exact arithmetic their covariance matrix about the origin is
`(1 + 2^30) / 2` times `a a^T`, which is positive semi-definite. The entries
computed in `double` are rounded, and for `v = (2897, -2859, 0)` the product
`v^T C v` of the matrix returned is `-8173881 / 2`, below zero. -/
theorem computeCovariance_not_positive_semidefinite :
    (∀ p ∈ slantPoints.points, IsFloatPoint p) ∧ 2 ≤ [0, 1, 2].length ∧
    computeMedoid slantPoints [0, 1, 2] = (0, 0, 0) ∧
    computeCovariance slantPoints [0, 1, 2] (promote (computeMedoid slantPoints [0, 1, 2])) =
      ((FVal.fin (8776637902272825 / 2), FVal.fin (8893291361624475 / 2), 0),
       (FVal.fin (8893291361624475 / 2), 4505747652085712, 0),
       (0, 0, 0)) ∧
    (1 + 2 ^ 30) / 2 * (2897 * 2897 : ℚ) ≠ 4505747652085712 ∧
    quadForm (computeCovariance slantPoints [0, 1, 2]
      (promote (computeMedoid slantPoints [0, 1, 2]))) (2897, -2859, 0) = -8173881 / 2 ∧
    quadForm (computeCovariance slantPoints [0, 1, 2]
      (promote (computeMedoid slantPoints [0, 1, 2]))) (2897, -2859, 0) < 0 := by
  decide!

/-! ## Height range: bounds -/

theorem heightStep_foldl_bounds (scaledSet : PointSet) (ids : List Nat) (h : ℚ × ℚ) :
    (ids.foldl (heightStep scaledSet) h).1 ≤ h.1 ∧
    h.2 ≤ (ids.foldl (heightStep scaledSet) h).2 ∧
    ∀ n ∈ ids, (ids.foldl (heightStep scaledSet) h).1 ≤ (scaledSet.pointAt n).2.2 ∧
      (scaledSet.pointAt n).2.2 ≤ (ids.foldl (heightStep scaledSet) h).2 := by
  induction ids generalizing h with
  | nil => simp
  | cons a rest ih =>
    rw [List.foldl_cons]
    obtain ⟨h1, h2, h3⟩ := ih (heightStep scaledSet h a)
    have hlo : (heightStep scaledSet h a).1 ≤ h.1 ∧
        (heightStep scaledSet h a).1 ≤ (scaledSet.pointAt a).2.2 := by
      simp only [heightStep]
      split_ifs with c
      · exact ⟨c.le, le_refl _⟩
      · exact ⟨le_refl _, not_lt.1 c⟩
    have hhi : h.2 ≤ (heightStep scaledSet h a).2 ∧
        (scaledSet.pointAt a).2.2 ≤ (heightStep scaledSet h a).2 := by
      simp only [heightStep]
      split_ifs with c
      · exact ⟨c.le, le_refl _⟩
      · exact ⟨le_refl _, not_lt.1 c⟩
    refine ⟨h1.trans hlo.1, hhi.1.trans h2, ?_⟩
    intro n hn
    rcases List.mem_cons.1 hn with e | hn'
    · rw [e]; exact ⟨h1.trans hlo.2, hhi.2.trans h2⟩
    · exact h3 n hn'

/-! ## `init` and `build` -/

theorem vecResize_length {α : Type} (v : List α) (n : Nat) (d : α) :
    (vecResize v n d).length = n := by
  unfold vecResize
  rw [List.length_append, List.length_take, List.length_replicate]
  omega

theorem allocate_toScale (s : ScaleState) : s.allocate.toScale = s.toScale := by
  unfold ScaleState.allocate
  by_cases h0 : s.id = 0
  · simp [h0]
  · by_cases h1 : s.id = 1 <;> simp [h0, h1]

/-- The array lengths after the allocations of `init` on a level with `id > 0`. -/
theorem allocate_lengths (s : ScaleState) (hid : s.id ≠ 0) :
    s.allocate.eigenValues.length = s.pSet.count ∧
    s.allocate.eigenVectors.length = s.pSet.count ∧
    s.allocate.orderAxis.length = s.pSet.count ∧
    s.allocate.heightMin.length = s.pSet.count ∧
    s.allocate.heightMax.length = s.pSet.count ∧
    s.allocate.avgHsv.length = (if s.id = 1 then s.pSet.count else s.avgHsv.length) := by
  unfold ScaleState.allocate
  by_cases h1 : s.id = 1 <;> simp [hid, h1, vecResize_length]

theorem updateScaleCoordinates_fields (s : ScaleState) :
    s.updateScaleCoordinates.toScale = s.toScale ∧
    s.updateScaleCoordinates.eigenValues = s.eigenValues ∧
    s.updateScaleCoordinates.eigenVectors = s.eigenVectors ∧
    s.updateScaleCoordinates.orderAxis = s.orderAxis ∧
    s.updateScaleCoordinates.heightMin = s.heightMin ∧
    s.updateScaleCoordinates.heightMax = s.heightMax ∧
    s.updateScaleCoordinates.avgHsv = s.avgHsv := by
  unfold ScaleState.updateScaleCoordinates
  cases s.scaledSet.points <;> simp

/-- What `computeScaledSet` returns on a level that has source points or
scaled points: the level parameters are kept, and a `scaledSet` that already
holds points is kept as it is. -/
theorem computeScaledSet_some (s : Scale)
    (h : s.pSet.points ≠ [] ∨ s.scaledSet.points ≠ []) :
    ∃ sc, computeScaledSet s = some sc ∧ sc.id = s.id ∧ sc.pSet = s.pSet ∧
      sc.resolution = s.resolution ∧ sc.kNeighbors = s.kNeighbors ∧ sc.radius = s.radius ∧
      (s.scaledSet.points ≠ [] → sc.scaledSet = s.scaledSet) := by
  by_cases he : s.scaledSet.points = []
  · have hne : s.pSet.points ≠ [] := by
      rcases h with h | h
      · exact h
      · exact absurd he h
    exact ⟨_, computeScaledSet_eq s hne he, rfl, rfl, rfl, rfl, rfl, fun h' => absurd he h'⟩
  · refine ⟨s, ?_, rfl, rfl, rfl, rfl, rfl, fun _ => rfl⟩
    unfold computeScaledSet
    have : s.scaledSet.points.isEmpty = false := by
      cases hp : s.scaledSet.points with
      | nil => exact absurd hp he
      | cons a l => rfl
    simp [this]

/-- The result of `init` on a level that has source points or scaled points. -/
theorem init_some (s : ScaleState)
    (h : s.pSet.points ≠ [] ∨ s.scaledSet.points ≠ []) :
    ∃ s1, s.init = some s1 ∧ computeScaledSet s.toScale = some s1.toScale ∧
      s1.id = s.id ∧ s1.pSet = s.pSet ∧ s1.resolution = s.resolution ∧
      s1.kNeighbors = s.kNeighbors ∧ s1.radius = s.radius ∧
      (s.scaledSet.points ≠ [] → s1.scaledSet = s.scaledSet) ∧
      s1.eigenValues = s.allocate.eigenValues ∧
      s1.eigenVectors = s.allocate.eigenVectors ∧
      s1.orderAxis = s.allocate.orderAxis ∧
      s1.heightMin = s.allocate.heightMin ∧
      s1.heightMax = s.allocate.heightMax ∧
      s1.avgHsv = s.allocate.avgHsv := by
  obtain ⟨sc, h0, h1, h2, h3, h4, h5, h6⟩ := computeScaledSet_some s.toScale h
  obtain ⟨u0, u1, u2, u3, u4, u5, u6⟩ :=
    updateScaleCoordinates_fields ({ s.allocate with toScale := sc } : ScaleState)
  refine ⟨({ s.allocate with toScale := sc } : ScaleState).updateScaleCoordinates,
    ?_, ?_, ?_, ?_, ?_, ?_, ?_, ?_, u1, u2, u3, u4, u5, u6⟩
  · unfold ScaleState.init
    rw [allocate_toScale, h0]
  · rw [u0]; exact h0
  · rw [u0]; exact h1
  · rw [u0]; exact h2
  · rw [u0]; exact h3
  · rw [u0]; exact h4
  · rw [u0]; exact h5
  · intro hne; rw [u0]; exact h6 hne

theorem buildPoint_foldl (ext : Externals) (ids : List Nat) (s : ScaleState) :
    (ids.foldl (buildPoint ext) s).toScale = s.toScale ∧
    (ids.foldl (buildPoint ext) s).eigenValues.length = s.eigenValues.length ∧
    (ids.foldl (buildPoint ext) s).eigenVectors.length = s.eigenVectors.length ∧
    (ids.foldl (buildPoint ext) s).orderAxis.length = s.orderAxis.length ∧
    (ids.foldl (buildPoint ext) s).heightMin.length = s.heightMin.length ∧
    (ids.foldl (buildPoint ext) s).heightMax.length = s.heightMax.length ∧
    (ids.foldl (buildPoint ext) s).avgHsv = s.avgHsv := by
  induction ids generalizing s with
  | nil => simp
  | cons a rest ih =>
    rw [List.foldl_cons]
    obtain ⟨h0, h1, h2, h3, h4, h5, h6⟩ := ih (buildPoint ext s a)
    refine ⟨h0.trans rfl, h1.trans ?_, h2.trans ?_, h3.trans ?_, h4.trans ?_, h5.trans ?_,
      h6.trans rfl⟩ <;> simp [buildPoint]

theorem avgHsvPoint_foldl (ext : Externals) (ids : List Nat) (s : ScaleState) :
    (ids.foldl (avgHsvPoint ext) s).toScale = s.toScale ∧
    (ids.foldl (avgHsvPoint ext) s).eigenValues = s.eigenValues ∧
    (ids.foldl (avgHsvPoint ext) s).eigenVectors = s.eigenVectors ∧
    (ids.foldl (avgHsvPoint ext) s).orderAxis = s.orderAxis ∧
    (ids.foldl (avgHsvPoint ext) s).heightMin = s.heightMin ∧
    (ids.foldl (avgHsvPoint ext) s).heightMax = s.heightMax ∧
    (ids.foldl (avgHsvPoint ext) s).avgHsv.length = s.avgHsv.length := by
  induction ids generalizing s with
  | nil => simp
  | cons a rest ih =>
    rw [List.foldl_cons]
    obtain ⟨h0, h1, h2, h3, h4, h5, h6⟩ := ih (avgHsvPoint ext s a)
    refine ⟨h0.trans rfl, h1.trans rfl, h2.trans rfl, h3.trans rfl, h4.trans rfl, h5.trans rfl,
      h6.trans ?_⟩
    simp [avgHsvPoint]

/-- The function `build` keeps the level parameters, both point sets and the
lengths of all descriptor arrays. -/
theorem build_fields (ext : Externals) (s : ScaleState) :
    (s.build ext).toScale = s.toScale ∧
    (s.build ext).eigenValues.length = s.eigenValues.length ∧
    (s.build ext).eigenVectors.length = s.eigenVectors.length ∧
    (s.build ext).orderAxis.length = s.orderAxis.length ∧
    (s.build ext).heightMin.length = s.heightMin.length ∧
    (s.build ext).heightMax.length = s.heightMax.length ∧
    (s.build ext).avgHsv.length = s.avgHsv.length := by
  obtain ⟨h0, h1, h2, h3, h4, h5, h6⟩ := buildPoint_foldl ext (List.range s.pSet.count) s
  unfold ScaleState.build
  by_cases hid : s.id = 1
  · simp only [hid, if_true]
    obtain ⟨g0, g1, g2, g3, g4, g5, g6⟩ := avgHsvPoint_foldl ext (List.range s.pSet.count)
      ((List.range s.pSet.count).foldl (buildPoint ext) s)
    refine ⟨g0.trans h0, ?_, ?_, ?_, ?_, ?_, ?_⟩
    · rw [g1]; exact h1
    · rw [g2]; exact h2
    · rw [g3]; exact h3
    · rw [g4]; exact h4
    · rw [g5]; exact h5
    · rw [g6, h6]
  · simp only [hid, if_false]
    exact ⟨h0, h1, h2, h3, h4, h5, by rw [h6]⟩

theorem initAll_some (l : List ScaleState)
    (h : ∀ s ∈ l, s.pSet.points ≠ [] ∨ s.scaledSet.points ≠ []) :
    ∃ l1, initAll l = some l1 ∧ l1.length = l.length ∧
      ∀ (i : Nat) (s : ScaleState), l[i]? = some s →
        ∃ s1, l1[i]? = some s1 ∧ s.init = some s1 := by
  induction l with
  | nil => exact ⟨[], rfl, rfl, by simp⟩
  | cons a rest ih =>
    obtain ⟨rest1, h1, h2, h3⟩ := ih (fun s hs => h s (List.mem_cons_of_mem _ hs))
    obtain ⟨a1, ha, _⟩ := init_some a (h a (List.mem_cons_self _ _))
    refine ⟨a1 :: rest1, by simp [initAll, ha, h1], by simp [h2], ?_⟩
    intro i s hi
    cases i with
    | zero =>
      simp only [List.getElem?_cons_zero, Option.some.injEq] at hi
      exact ⟨a1, by simp, by rw [← hi]; exact ha⟩
    | succ j =>
      simp only [List.getElem?_cons_succ] at hi ⊢
      exact h3 j s hi

/-! ## `computeScales` -/

/-- The base level of `computeScales` on a non-empty input: `init` succeeds, the
level is the result of `computeScaledSet` from an empty `scaledSet`, and its
`scaledSet` holds at least one point. -/
theorem baseScale_some (pSet : PointSet) (startResolution radius : ℚ)
    (hne : pSet.points ≠ []) :
    ∃ base, baseScale pSet startResolution radius = some base ∧
      computeScaledSet ⟨0, pSet, PointSet.empty, startResolution * 2 ^ 0, 10, radius⟩ =
        some base.toScale ∧
      base.resolution = startResolution ∧
      base.scaledSet.points ≠ [] := by
  obtain ⟨base, h0, h1, _, _, h4, _⟩ :=
    init_some (Scale.new 0 pSet (startResolution * 2 ^ 0) 10 radius) (Or.inl hne)
  refine ⟨base, h0, h1, ?_, ?_⟩
  · rw [h4]; simp [Scale.new]
  · obtain ⟨out, hout, hlen, _⟩ := computeScaledSet_run
      ⟨0, pSet, PointSet.empty, startResolution * 2 ^ 0, 10, radius⟩ hne rfl
    have e : (Scale.new 0 pSet (startResolution * 2 ^ 0) 10 radius).toScale =
        ⟨0, pSet, PointSet.empty, startResolution * 2 ^ 0, 10, radius⟩ := rfl
    rw [e, hout] at h1
    injection h1 with e1
    rw [← e1]
    intro hnil
    rw [hnil] at hlen
    exact voxels_ne_nil _ hne (List.length_eq_zero.1 hlen.symm)

theorem allocate_avgHsv (s : ScaleState) (hid : s.id ≠ 0) (h : s.avgHsv = []) :
    s.allocate.avgHsv =
      (if s.id = 1 then List.replicate s.pSet.count (0, 0, 0) else []) := by
  unfold ScaleState.allocate
  by_cases h1 : s.id = 1 <;> simp [hid, h1, vecResize, h]

/-- The levels that enter `init` in `computeScales`. -/
theorem siblingScales_level (base : ScaleState) (numScales : Nat)
    (startResolution radius : ℚ) (hnum : 1 ≤ numScales) (i : Nat) (x : ScaleState)
    (hx : ((siblingScales base numScales startResolution radius).set 0
      (aliasScaledSet (Scale.new 1 base.scaledSet (startResolution * 2 ^ 0) 10 radius)
        base))[i]? = some x) :
    x.id = i + 1 ∧ x.pSet = base.scaledSet ∧ x.resolution = startResolution * 2 ^ i ∧
    x.kNeighbors = 10 ∧ x.radius = radius ∧ (i = 0 → x.scaledSet = base.scaledSet) ∧
    x.eigenValues = [] ∧ x.eigenVectors = [] ∧ x.orderAxis = [] ∧ x.heightMin = [] ∧
    x.heightMax = [] ∧ x.avgHsv = [] := by
  by_cases hi : i = 0
  · subst hi
    rw [List.getElem?_set_self (by simp [siblingScales]; omega)] at hx
    injection hx with e
    obtain ⟨u0, u1, u2, u3, u4, u5, u6⟩ := updateScaleCoordinates_fields
      ({ Scale.new 1 base.scaledSet (startResolution * 2 ^ 0) 10 radius with
          scaledSet := base.scaledSet } : ScaleState)
    rw [← e]
    unfold aliasScaledSet
    refine ⟨?_, ?_, ?_, ?_, ?_, ?_, ?_, ?_, ?_, ?_, ?_, ?_⟩
    · rw [u0]; rfl
    · rw [u0]; rfl
    · rw [u0]; rfl
    · rw [u0]; rfl
    · rw [u0]; rfl
    · intro _; rw [u0]
    · rw [u1]; rfl
    · rw [u2]; rfl
    · rw [u3]; rfl
    · rw [u4]; rfl
    · rw [u5]; rfl
    · rw [u6]; rfl
  · unfold siblingScales at hx
    rw [List.getElem?_set_ne (fun e => hi e.symm), List.getElem?_map] at hx
    by_cases hlt : i < numScales
    · rw [List.getElem?_range hlt] at hx
      simp only [Option.map_some', Option.some.injEq] at hx
      rw [← hx]
      exact ⟨rfl, rfl, rfl, rfl, rfl, fun e => absurd e hi, rfl, rfl, rfl, rfl, rfl, rfl⟩
    · rw [List.getElem?_eq_none (by simp; omega)] at hx
      simp at hx

/-- The levels returned by `computeScales` for a non-empty input and at least
one level: the level at position `i` is `build` of a level `x1` that left `init`
with the listed parameters and array lengths. -/
theorem computeScales_run (ext : Externals) (numScales : Nat) (pSet : PointSet)
    (startResolution radius : ℚ) (hne : pSet.points ≠ []) (hnum : 1 ≤ numScales) :
    ∃ base scales, baseScale pSet startResolution radius = some base ∧
      computeScales ext numScales pSet startResolution radius = some scales ∧
      scales.length = numScales ∧
      ∀ (i : Nat) (s : ScaleState), scales[i]? = some s →
        ∃ x1 : ScaleState, s = x1.build ext ∧
          x1.id = i + 1 ∧ x1.pSet = base.scaledSet ∧
          x1.resolution = startResolution * 2 ^ i ∧ x1.kNeighbors = 10 ∧
          x1.radius = radius ∧
          (i = 0 → x1.scaledSet = base.scaledSet) ∧
          x1.eigenValues.length = base.scaledSet.count ∧
          x1.eigenVectors.length = base.scaledSet.count ∧
          x1.orderAxis.length = base.scaledSet.count ∧
          x1.heightMin.length = base.scaledSet.count ∧
          x1.heightMax.length = base.scaledSet.count ∧
          x1.avgHsv =
            (if i = 0 then List.replicate base.scaledSet.count (0, 0, 0) else []) := by
  obtain ⟨base, hb, _, _, hbne⟩ := baseScale_some pSet startResolution radius hne
  have hfirst : (siblingScales base numScales startResolution radius)[0]? =
      some (Scale.new 1 base.scaledSet (startResolution * 2 ^ 0) 10 radius) := by
    unfold siblingScales
    rw [List.getElem?_map, List.getElem?_range (by omega)]
    rfl
  have hlevel := siblingScales_level base numScales startResolution radius hnum
  have hall : ∀ x ∈ (siblingScales base numScales startResolution radius).set 0
      (aliasScaledSet (Scale.new 1 base.scaledSet (startResolution * 2 ^ 0) 10 radius) base),
      x.pSet.points ≠ [] ∨ x.scaledSet.points ≠ [] := by
    intro x hx
    obtain ⟨i, hi⟩ := List.mem_iff_getElem?.1 hx
    left
    rw [(hlevel i x hi).2.1]
    exact hbne
  obtain ⟨inited, hin, hlen, hidx⟩ := initAll_some _ hall
  refine ⟨base, inited.map (ScaleState.build ext), hb, ?_, ?_, ?_⟩
  · unfold computeScales
    simp only [hb, hfirst, hin]
  · rw [List.length_map, hlen]; simp [siblingScales]
  · intro i s hs
    rw [List.getElem?_map] at hs
    cases hx1 : inited[i]? with
    | none => rw [hx1] at hs; simp at hs
    | some x1 =>
      rw [hx1] at hs
      simp only [Option.map_some', Option.some.injEq] at hs
      have hi : i < inited.length := (List.getElem?_eq_some_iff.1 hx1).1
      rw [hlen] at hi
      obtain ⟨x, hx⟩ : ∃ x, ((siblingScales base numScales startResolution radius).set 0
          (aliasScaledSet (Scale.new 1 base.scaledSet (startResolution * 2 ^ 0) 10 radius)
            base))[i]? = some x := ⟨_, List.getElem?_eq_getElem hi⟩
      obtain ⟨x1', h1, h2⟩ := hidx i x hx
      rw [hx1] at h1
      injection h1 with e
      rw [← e] at h2
      obtain ⟨p0, p1, p2, p3, p4, p5, q1, q2, q3, q4, q5, q6⟩ := hlevel i x hx
      obtain ⟨y, hy, _, a1, a2, a3, a4, a5, a6, b1, b2, b3, b4, b5, b6⟩ :=
        init_some x (hall x (List.mem_iff_getElem?.2 ⟨i, hx⟩))
      rw [h2] at hy
      injection hy with e2
      subst e2
      have hid : x.id ≠ 0 := by rw [p0]; omega
      obtain ⟨c1, c2, c3, c4, c5, _⟩ := allocate_lengths x hid
      rw [p1] at c1 c2 c3 c4 c5
      refine ⟨x1, hs.symm, a1.trans p0, a2.trans p1, a3.trans p2, a4.trans p3, a5.trans p4,
        ?_, by rw [b1]; exact c1, by rw [b2]; exact c2, by rw [b3]; exact c3,
        by rw [b4]; exact c4, by rw [b5]; exact c5, ?_⟩
      · intro hi0
        have hsc := p5 hi0
        have hne2 : x.scaledSet.points ≠ [] := by rw [hsc]; exact hbne
        rw [a6 hne2, hsc]
      · rw [b6, allocate_avgHsv x hid q6, p0, p1]
        by_cases hi0 : i = 0
        · simp [hi0]
        · have : ¬ i + 1 = 1 := by omega
          simp [hi0, this]

/-! ## The slots written by `build` -/

/-- The slots of the point `idx` after the first loop of `build` over the
points `0, ..., n - 1`: the normalised eigenvalues of the neighbours of `idx`
and their height range. -/
theorem buildPoint_foldl_slots (ext : Externals) (n : Nat) (s : ScaleState) (idx : Nat)
    (hidx : idx < n) (h1 : idx < s.eigenValues.length) (h4 : idx < s.heightMin.length)
    (h5 : idx < s.heightMax.length) :
    ((List.range n).foldl (buildPoint ext) s).eigenValues[idx]? =
        some (normalizedEigenvalues (solverEigenvalues ext s.toScale idx)) ∧
    ((List.range n).foldl (buildPoint ext) s).heightMin[idx]? =
        some (heightRange s.scaledSet (neighborsOf ext s.toScale idx)).1 ∧
    ((List.range n).foldl (buildPoint ext) s).heightMax[idx]? =
        some (heightRange s.scaledSet (neighborsOf ext s.toScale idx)).2 := by
  induction n with
  | zero => omega
  | succ n ih =>
    rw [List.range_succ, List.foldl_append, List.foldl_cons, List.foldl_nil]
    obtain ⟨g0, g1, _, _, g4, g5, _⟩ := buildPoint_foldl ext (List.range n) s
    have e1 : (buildPoint ext ((List.range n).foldl (buildPoint ext) s) n).eigenValues =
        ((List.range n).foldl (buildPoint ext) s).eigenValues.set n
          (normalizedEigenvalues (solverEigenvalues ext
            ((List.range n).foldl (buildPoint ext) s).toScale n)) := rfl
    have e4 : (buildPoint ext ((List.range n).foldl (buildPoint ext) s) n).heightMin =
        ((List.range n).foldl (buildPoint ext) s).heightMin.set n
          (heightRange ((List.range n).foldl (buildPoint ext) s).toScale.scaledSet
            (neighborsOf ext ((List.range n).foldl (buildPoint ext) s).toScale n)).1 := rfl
    have e5 : (buildPoint ext ((List.range n).foldl (buildPoint ext) s) n).heightMax =
        ((List.range n).foldl (buildPoint ext) s).heightMax.set n
          (heightRange ((List.range n).foldl (buildPoint ext) s).toScale.scaledSet
            (neighborsOf ext ((List.range n).foldl (buildPoint ext) s).toScale n)).2 := rfl
    rw [e1, e4, e5, g0]
    by_cases hn : idx = n
    · subst hn
      refine ⟨?_, ?_, ?_⟩
      · exact List.getElem?_set_self (by rw [g1]; exact h1)
      · exact List.getElem?_set_self (by rw [g4]; exact h4)
      · exact List.getElem?_set_self (by rw [g5]; exact h5)
    · obtain ⟨i1, i4, i5⟩ := ih (by omega)
      refine ⟨?_, ?_, ?_⟩
      · rw [List.getElem?_set_ne (fun e => hn e.symm)]; exact i1
      · rw [List.getElem?_set_ne (fun e => hn e.symm)]; exact i4
      · rw [List.getElem?_set_ne (fun e => hn e.symm)]; exact i5

/-- The slot of the point `idx` after the second loop of `build` over the
points `0, ..., n - 1`: the average of the converted colours of the points
that the radius query returned for `idx`. -/
theorem avgHsvPoint_foldl_slot (ext : Externals) (n : Nat) (s : ScaleState) (idx : Nat)
    (hidx : idx < n) (h6 : idx < s.avgHsv.length) :
    ((List.range n).foldl (avgHsvPoint ext) s).avgHsv[idx]? =
      some (hsvAverage ext s.scaledSet (radiusMatchesOf ext s.toScale idx)) := by
  induction n with
  | zero => omega
  | succ n ih =>
    rw [List.range_succ, List.foldl_append, List.foldl_cons, List.foldl_nil]
    obtain ⟨g0, _, _, _, _, _, g6⟩ := avgHsvPoint_foldl ext (List.range n) s
    have e6 : (avgHsvPoint ext ((List.range n).foldl (avgHsvPoint ext) s) n).avgHsv =
        ((List.range n).foldl (avgHsvPoint ext) s).avgHsv.set n
          (hsvAverage ext ((List.range n).foldl (avgHsvPoint ext) s).toScale.scaledSet
            (radiusMatchesOf ext ((List.range n).foldl (avgHsvPoint ext) s).toScale n)) := rfl
    rw [e6, g0]
    by_cases hn : idx = n
    · subst hn
      exact List.getElem?_set_self (by rw [g6]; exact h6)
    · rw [List.getElem?_set_ne (fun e => hn e.symm)]
      exact ih (by omega)

/-- The slots that `build` writes for the point `idx` of the reference set. -/
theorem build_slots (ext : Externals) (s : ScaleState) (idx : Nat) (hidx : idx < s.pSet.count)
    (h1 : s.eigenValues.length = s.pSet.count) (h4 : s.heightMin.length = s.pSet.count)
    (h5 : s.heightMax.length = s.pSet.count) :
    (s.build ext).eigenValues[idx]? =
        some (normalizedEigenvalues (solverEigenvalues ext s.toScale idx)) ∧
    (s.build ext).heightMin[idx]? =
        some (heightRange s.scaledSet (neighborsOf ext s.toScale idx)).1 ∧
    (s.build ext).heightMax[idx]? =
        some (heightRange s.scaledSet (neighborsOf ext s.toScale idx)).2 ∧
    (s.id = 1 → s.avgHsv.length = s.pSet.count →
      (s.build ext).avgHsv[idx]? =
        some (hsvAverage ext s.scaledSet (radiusMatchesOf ext s.toScale idx))) := by
  obtain ⟨i1, i4, i5⟩ := buildPoint_foldl_slots ext s.pSet.count s idx hidx
    (by rw [h1]; exact hidx) (by rw [h4]; exact hidx) (by rw [h5]; exact hidx)
  obtain ⟨g0, _, _, _, _, _, g6⟩ := buildPoint_foldl ext (List.range s.pSet.count) s
  unfold ScaleState.build
  by_cases hid : s.id = 1
  · simp only [hid, if_true]
    obtain ⟨k0, k1, _, _, k4, k5, _⟩ := avgHsvPoint_foldl ext (List.range s.pSet.count)
      ((List.range s.pSet.count).foldl (buildPoint ext) s)
    refine ⟨by rw [k1]; exact i1, by rw [k4]; exact i4, by rw [k5]; exact i5, ?_⟩
    intro _ h6
    have := avgHsvPoint_foldl_slot ext s.pSet.count
      ((List.range s.pSet.count).foldl (buildPoint ext) s) idx hidx
      (by rw [g6, h6]; exact hidx)
    rw [g0] at this
    exact this
  · simp only [hid, if_false]
    exact ⟨i1, i4, i5, fun h => h.elim⟩

/-! ## The levels of `computeScales` -/

/-- C15. For a non-empty input and `numScales >= 1`, `computeScales` returns
exactly `numScales` levels. The level at position `i` (from 0) has id `i + 1`,
resolution `startResolution * 2^i` (the base level has resolution
`startResolution`, that of position 0), neighbour count 10, the given radius,
and the base level's downsampled set as its reference set; its arrays
`eigenValues`, `eigenVectors`, `orderAxis`, `heightMin` and `heightMax` have as
many slots as the reference set has points; `avgHsv` has that many slots for
id 1 and none otherwise. -/
theorem computeScales_levels (ext : Externals) (numScales : Nat) (pSet : PointSet)
    (startResolution radius : ℚ) (hne : pSet.points ≠ []) (hnum : 1 ≤ numScales)
    (_hres : 0 < startResolution) :
    ∃ base scales, baseScale pSet startResolution radius = some base ∧
      computeScales ext numScales pSet startResolution radius = some scales ∧
      scales.length = numScales ∧ base.resolution = startResolution ∧
      ∀ (i : Nat) (s : ScaleState), scales[i]? = some s →
        s.id = i + 1 ∧ s.resolution = startResolution * 2 ^ i ∧ s.kNeighbors = 10 ∧
        s.radius = radius ∧ s.pSet = base.scaledSet ∧
        s.eigenValues.length = s.pSet.count ∧
        s.eigenVectors.length = s.pSet.count ∧
        s.orderAxis.length = s.pSet.count ∧
        s.heightMin.length = s.pSet.count ∧
        s.heightMax.length = s.pSet.count ∧
        s.avgHsv.length = (if s.id = 1 then s.pSet.count else 0) := by
  obtain ⟨base, scales, hb, hs, hlen, hidx⟩ :=
    computeScales_run ext numScales pSet startResolution radius hne hnum
  obtain ⟨base', hb', _, hres, _⟩ := baseScale_some pSet startResolution radius hne
  rw [hb] at hb'
  injection hb' with e
  subst e
  refine ⟨base, scales, hb, hs, hlen, hres, ?_⟩
  intro i s hi
  obtain ⟨x1, rfl, a0, a1, a2, a3, a4, _, c1, c2, c3, c4, c5, c6⟩ := hidx i s hi
  obtain ⟨f0, f1, f2, f3, f4, f5, f6⟩ := build_fields ext x1
  have hid : (x1.build ext).id = i + 1 := by
    have : (x1.build ext).toScale.id = x1.toScale.id := by rw [f0]
    exact this.trans a0
  have hp : (x1.build ext).pSet = base.scaledSet := by
    have : (x1.build ext).toScale.pSet = x1.toScale.pSet := by rw [f0]
    exact this.trans a1
  refine ⟨hid, ?_, ?_, ?_, hp, ?_, ?_, ?_, ?_, ?_, ?_⟩
  · have : (x1.build ext).toScale.resolution = x1.toScale.resolution := by rw [f0]
    exact this.trans a2
  · have : (x1.build ext).toScale.kNeighbors = x1.toScale.kNeighbors := by rw [f0]
    exact this.trans a3
  · have : (x1.build ext).toScale.radius = x1.toScale.radius := by rw [f0]
    exact this.trans a4
  · rw [f1, c1, hp]
  · rw [f2, c2, hp]
  · rw [f3, c3, hp]
  · rw [f4, c4, hp]
  · rw [f5, c5, hp]
  · rw [f6, c6, hid, hp]
    by_cases hi0 : i = 0
    · simp [hi0]
    · have : ¬ i + 1 = 1 := by omega
      simp [hi0, this]

/-- C15 at `tiePoints` with two levels. -/
theorem computeScales_levels_witness :
    tiePoints.points ≠ [] ∧ 1 ≤ 2 ∧ (0 : ℚ) < 4 ∧
    ∃ base scales, baseScale tiePoints 4 (3 / 4) = some base ∧
      computeScales sampleExternals 2 tiePoints 4 (3 / 4) = some scales ∧
      scales.length = 2 ∧ base.resolution = 4 ∧
      ∀ (i : Nat) (s : ScaleState), scales[i]? = some s →
        s.id = i + 1 ∧ s.resolution = 4 * 2 ^ i ∧ s.kNeighbors = 10 ∧
        s.radius = 3 / 4 ∧ s.pSet = base.scaledSet ∧
        s.eigenValues.length = s.pSet.count ∧
        s.eigenVectors.length = s.pSet.count ∧
        s.orderAxis.length = s.pSet.count ∧
        s.heightMin.length = s.pSet.count ∧
        s.heightMax.length = s.pSet.count ∧
        s.avgHsv.length = (if s.id = 1 then s.pSet.count else 0) :=
  ⟨by decide, by decide, by decide!,
    computeScales_levels sampleExternals 2 tiePoints 4 (3 / 4) (by decide) (by decide)
      (by decide!)⟩

/-- C13. `init` on a level whose `scaledSet` already holds points leaves the
points and colours of that set as they are; and for a non-empty input and
`numScales >= 1`, after `computeScales` the first level (id 1) has the points
and colours of the base level's `scaledSet`, in the same order. -/
theorem computeScales_first_level_alias (ext : Externals) (numScales : Nat) (pSet : PointSet)
    (startResolution radius : ℚ) (hne : pSet.points ≠ []) (hnum : 1 ≤ numScales)
    (_hres : 0 < startResolution) :
    (∀ s : ScaleState, s.scaledSet.points ≠ [] →
      ∃ s1, s.init = some s1 ∧ s1.scaledSet.points = s.scaledSet.points ∧
        s1.scaledSet.colors = s.scaledSet.colors) ∧
    ∃ base scales first, baseScale pSet startResolution radius = some base ∧
      computeScales ext numScales pSet startResolution radius = some scales ∧
      scales[0]? = some first ∧ first.id = 1 ∧
      first.scaledSet.points = base.scaledSet.points ∧
      first.scaledSet.colors = base.scaledSet.colors := by
  constructor
  · intro s hs
    obtain ⟨s1, h0, _, _, _, _, _, _, h7, _⟩ := init_some s (Or.inr hs)
    exact ⟨s1, h0, by rw [h7 hs], by rw [h7 hs]⟩
  · obtain ⟨base, scales, hb, hs, hlen, hidx⟩ :=
      computeScales_run ext numScales pSet startResolution radius hne hnum
    have h0 : 0 < scales.length := by omega
    obtain ⟨x1, hx, a0, _, _, _, _, a5, _⟩ := hidx 0 _ (List.getElem?_eq_getElem h0)
    have f0 := (build_fields ext x1).1
    have hsc : (x1.build ext).scaledSet = base.scaledSet := by
      have : (x1.build ext).toScale.scaledSet = x1.toScale.scaledSet := by rw [f0]
      exact this.trans (a5 rfl)
    have hid : (x1.build ext).id = 1 := by
      have : (x1.build ext).toScale.id = x1.toScale.id := by rw [f0]
      exact this.trans a0
    refine ⟨base, scales, scales[0], hb, hs, List.getElem?_eq_getElem h0, ?_, ?_, ?_⟩
    · rw [hx]; exact hid
    · rw [hx, hsc]
    · rw [hx, hsc]

/-- C13 at `tiePoints` with two levels. -/
theorem computeScales_first_level_alias_witness :
    tiePoints.points ≠ [] ∧ 1 ≤ 2 ∧ (0 : ℚ) < 4 ∧
    ((∀ s : ScaleState, s.scaledSet.points ≠ [] →
      ∃ s1, s.init = some s1 ∧ s1.scaledSet.points = s.scaledSet.points ∧
        s1.scaledSet.colors = s.scaledSet.colors) ∧
    ∃ base scales first, baseScale tiePoints 4 (3 / 4) = some base ∧
      computeScales sampleExternals 2 tiePoints 4 (3 / 4) = some scales ∧
      scales[0]? = some first ∧ first.id = 1 ∧
      first.scaledSet.points = base.scaledSet.points ∧
      first.scaledSet.colors = base.scaledSet.colors) :=
  ⟨by decide, by decide, by decide!,
    computeScales_first_level_alias sampleExternals 2 tiePoints 4 (3 / 4) (by decide)
      (by decide) (by decide!)⟩

/-- C12, the code at the failing input. On an empty point set the constructor
records no origin (its guard at scale.cpp:5 skips the read), but
`computeScaledSet` reads `pSet->points[0]` without a guard: `init` of the base
level, and with it `computeScales`, does not complete. -/
theorem init_empty_input_reads_out_of_range :
    (Scale.new 0 PointSet.empty 4 10 (3 / 4)).scaleCoordinates = none ∧
    computeScaledSet (Scale.new 0 PointSet.empty 4 10 (3 / 4)).toScale = none ∧
    (Scale.new 0 PointSet.empty 4 10 (3 / 4)).init = none ∧
    computeScales sampleExternals 1 PointSet.empty 4 (3 / 4) = none := by
  decide!

/-! ## Height range and voxel centre at failing inputs -/

/-- C10, the code at a failing input. For ten neighbours with z-coordinates
`-1, ..., -10` the stored `heightMin` is `-10`, the least z, but the stored
`heightMax` is the positive constant `FLT_MIN` it was initialised with
(scale.cpp:93), not the greatest z, `-1`; likewise for neighbours all at `z = 0`. -/
theorem heightRange_below_zero :
    heightRange belowZeroPoints [0, 1, 2, 3, 4, 5, 6, 7, 8, 9] = (-10, FLT_MIN) ∧
    (heightRange belowZeroPoints [0, 1, 2, 3, 4, 5, 6, 7, 8, 9]).2 ≠ -1 ∧
    heightRange trianglePoints [0, 1, 2] = (0, FLT_MIN) ∧
    (heightRange trianglePoints [0, 1, 2]).2 ≠ 0 := by
  decide!

/-- C20, the code at two failing inputs. In `tieScale` the two-point group of
key `(1, 0, 0)` gets the centre `(2, 6, 2)`, whose own key is `(0, 1, 0)`: the
first key component, made from x, places `y_center`, and the second, made from
y, places `x_center`. In `belowOriginScale` the two-point group of key
`(0, 0, -1)` gets the centre `(2, 2, -2)`, whose own key is `(0, 0, 0)`: the
centre of a cell below the origin is placed one cell too high. -/
theorem voxelCenter_outside_voxel :
    tieScale.voxels[1]? = some ((1, 0, 0), [1, 2]) ∧
    tieScale.centerOf (1, 0, 0) = (2, 6, 2) ∧
    tieScale.keyOf (tieScale.centerOf (1, 0, 0)) = (0, 1, 0) ∧
    belowOriginScale.voxels[0]? = some ((0, 0, -1), [1, 2]) ∧
    belowOriginScale.centerOf (0, 0, -1) = (2, 2, -2) ∧
    belowOriginScale.keyOf (belowOriginScale.centerOf (0, 0, -1)) = (0, 0, 0) := by
  decide!

/-! ## The descriptors stored by `build` -/

/-- After `init`, a level with `id > 0` has descriptor arrays with one slot per
point of its reference set. -/
theorem init_lengths (s : ScaleState) (hid : 0 < s.id)
    (h : s.pSet.points ≠ [] ∨ s.scaledSet.points ≠ []) :
    ∃ s1, s.init = some s1 ∧ s1.id = s.id ∧ s1.pSet = s.pSet ∧
      s1.eigenValues.length = s1.pSet.count ∧ s1.heightMin.length = s1.pSet.count ∧
      s1.heightMax.length = s1.pSet.count ∧
      (s.id = 1 → s1.avgHsv.length = s1.pSet.count) := by
  obtain ⟨s1, h0, _, a1, a2, _, _, _, _, b1, _, _, b4, b5, b6⟩ := init_some s h
  obtain ⟨c1, _, _, c4, c5, c6⟩ := allocate_lengths s (by omega)
  refine ⟨s1, h0, a1, a2, ?_, ?_, ?_, ?_⟩
  · rw [b1, c1, a2]
  · rw [b4, c4, a2]
  · rw [b5, c5, a2]
  · intro h1
    rw [b6, c6, if_pos h1, a2]

/-- C11. For every level with `id > 0` that `init` has set up, every point
`idx` of its reference set and every neighbour `n` of the neighbour list that
`build` uses for `idx`: the value `build` stores in `heightMin[idx]` is at most
the z-coordinate of `n`, which is at most the value stored in `heightMax[idx]`. -/
theorem build_height_brackets (ext : Externals) (s : ScaleState) (hid : 0 < s.id)
    (h : s.pSet.points ≠ [] ∨ s.scaledSet.points ≠ []) :
    ∃ s1, s.init = some s1 ∧
      ∀ idx < s1.pSet.count, ∃ lo hi,
        (s1.build ext).heightMin[idx]? = some lo ∧
        (s1.build ext).heightMax[idx]? = some hi ∧
        ∀ n ∈ ext.knnSearch (s1.build ext).scaledSet ((s1.build ext).pSet.pointAt idx)
            (s1.build ext).kNeighbors,
          lo ≤ ((s1.build ext).scaledSet.pointAt n).2.2 ∧
          ((s1.build ext).scaledSet.pointAt n).2.2 ≤ hi := by
  obtain ⟨s1, h0, _, _, l1, l4, l5, _⟩ := init_lengths s hid h
  refine ⟨s1, h0, ?_⟩
  intro idx hidx
  obtain ⟨_, i4, i5, _⟩ := build_slots ext s1 idx hidx l1 l4 l5
  have hts : (s1.build ext).toScale = s1.toScale := (build_fields ext s1).1
  refine ⟨_, _, i4, i5, ?_⟩
  intro n hn
  have e1 : (s1.build ext).scaledSet = s1.scaledSet := congrArg Scale.scaledSet hts
  have e2 : (s1.build ext).pSet = s1.pSet := congrArg Scale.pSet hts
  have e3 : (s1.build ext).kNeighbors = s1.kNeighbors := congrArg Scale.kNeighbors hts
  rw [e1, e2, e3] at hn
  rw [e1]
  exact (heightStep_foldl_bounds s1.scaledSet (neighborsOf ext s1.toScale idx)
    (FLT_MAX, FLT_MIN)).2.2 n hn

/-- C11 at the level 1 over `belowZeroPoints` at resolution 1, with the sample
library answers: the ten points are their own neighbours; the stored values are
`heightMin = -10` and `heightMax = FLT_MIN` for every point. -/
theorem build_height_brackets_witness :
    0 < (Scale.new 1 belowZeroPoints 1 10 (3 / 4)).id ∧
    ((Scale.new 1 belowZeroPoints 1 10 (3 / 4)).pSet.points ≠ [] ∨
      (Scale.new 1 belowZeroPoints 1 10 (3 / 4)).scaledSet.points ≠ []) ∧
    (∃ s1, (Scale.new 1 belowZeroPoints 1 10 (3 / 4)).init = some s1 ∧
      ∀ idx < s1.pSet.count, ∃ lo hi,
        (s1.build sampleExternals).heightMin[idx]? = some lo ∧
        (s1.build sampleExternals).heightMax[idx]? = some hi ∧
        ∀ n ∈ sampleExternals.knnSearch (s1.build sampleExternals).scaledSet
            ((s1.build sampleExternals).pSet.pointAt idx) (s1.build sampleExternals).kNeighbors,
          lo ≤ ((s1.build sampleExternals).scaledSet.pointAt n).2.2 ∧
          ((s1.build sampleExternals).scaledSet.pointAt n).2.2 ≤ hi) ∧
    ((Scale.new 1 belowZeroPoints 1 10 (3 / 4)).init.map
        (fun s1 => (s1.build sampleExternals).heightMin)) =
      some [-10, -10, -10, -10, -10, -10, -10, -10, -10, -10] ∧
    ((Scale.new 1 belowZeroPoints 1 10 (3 / 4)).init.map
        (fun s1 => (s1.build sampleExternals).heightMax)) =
      some [FLT_MIN, FLT_MIN, FLT_MIN, FLT_MIN, FLT_MIN, FLT_MIN, FLT_MIN, FLT_MIN, FLT_MIN,
        FLT_MIN] :=
  ⟨by decide, Or.inl (by decide),
    build_height_brackets sampleExternals (Scale.new 1 belowZeroPoints 1 10 (3 / 4))
      (by decide) (Or.inl (by decide)),
    by decide!, by decide!⟩

/-! ## The stored eigenvalues -/

theorem maxZero_notNeg (a : FVal) : (maxZero a).NotNeg := by
  unfold maxZero
  cases a with
  | fin q =>
    by_cases h : q < 0
    · simp [FVal.lt, h, FVal.NotNeg]
    · have h0 : (0 : ℚ) = ((0 : Nat) : ℚ) := by simp
      have : FVal.lt (FVal.fin q) 0 = false := by
        show decide (q < ((0 : Nat) : ℚ)) = false
        rw [← h0]
        simpa using h
      rw [this]
      simpa [FVal.NotNeg] using h
  | posInf => simp [FVal.lt, FVal.NotNeg]
  | negInf =>
    have : FVal.lt FVal.negInf 0 = true := rfl
    rw [this]
    show (0 : ℚ) ≤ ((0 : Nat) : ℚ)
    simp
  | nan => simp [FVal.lt, FVal.NotNeg]

/-- An eigenvalue that is not positive is clamped to zero, or is not a number. -/
theorem maxZero_of_not_pos (a : FVal) (h : FVal.lt 0 a = false) :
    maxZero a = FVal.fin 0 ∨ maxZero a = FVal.nan := by
  have h0 : (0 : FVal) = FVal.fin 0 := by
    show FVal.fin ((0 : Nat) : ℚ) = FVal.fin 0
    simp
  rw [h0] at h
  unfold maxZero
  rw [h0]
  cases a with
  | fin q =>
    simp only [FVal.lt, decide_eq_false_iff_not, not_lt] at h
    by_cases hq : q < 0
    · left; simp [FVal.lt, hq]
    · left
      have : q = 0 := le_antisymm h (not_lt.1 hq)
      simp [FVal.lt, this]
  | posInf => simp [FVal.lt] at h
  | negInf => left; simp [FVal.lt]
  | nan => right; simp [FVal.lt]

theorem rnd64_zero : rnd64 0 = FVal.fin 0 := by
  simp [rnd64, roundTo]

theorem add64_zero_or_nan {a b : FVal} (ha : a = FVal.fin 0 ∨ a = FVal.nan)
    (hb : b = FVal.fin 0 ∨ b = FVal.nan) :
    add64 a b = FVal.fin 0 ∨ add64 a b = FVal.nan := by
  rcases ha with rfl | rfl <;> rcases hb with rfl | rfl <;>
    simp [add64, FVal.add, rnd64, roundTo]

theorem div64_zero_or_nan {a b : FVal} (ha : a = FVal.fin 0 ∨ a = FVal.nan)
    (hb : b = FVal.fin 0 ∨ b = FVal.nan) :
    (div64 a b).toFloat = FVal.nan := by
  rcases ha with rfl | rfl <;> rcases hb with rfl | rfl <;>
    simp [div64, FVal.div, FVal.toFloat]

/-- When no solver eigenvalue is positive, every entry of the stored triple is
not a number. -/
theorem normalizedEigenvalues_nan (ev : FPoint) (h1 : FVal.lt 0 ev.1 = false)
    (h2 : FVal.lt 0 ev.2.1 = false) (h3 : FVal.lt 0 ev.2.2 = false) :
    normalizedEigenvalues ev = (FVal.nan, FVal.nan, FVal.nan) := by
  have c1 := maxZero_of_not_pos _ h1
  have c2 := maxZero_of_not_pos _ h2
  have c3 := maxZero_of_not_pos _ h3
  have hs : eigenvalueSum ev = FVal.fin 0 ∨ eigenvalueSum ev = FVal.nan :=
    add64_zero_or_nan (add64_zero_or_nan c1 c2) c3
  unfold normalizedEigenvalues
  simp only [clampEigenvalues]
  rw [div64_zero_or_nan c1 hs, div64_zero_or_nan c2 hs, div64_zero_or_nan c3 hs]

theorem isFinite_notNeg_div (a s : FVal) (ha : a.IsFinite) (hn : a.NotNeg) (hs : s.IsFinite)
    (hpos : FVal.lt 0 s = true) : (div64 a s).toFloat.IsNonneg := by
  have h0 : (0 : FVal) = FVal.fin 0 := by
    show FVal.fin ((0 : Nat) : ℚ) = FVal.fin 0
    simp
  rw [h0] at hpos
  cases a with
  | fin x =>
    cases s with
    | fin y =>
      simp only [FVal.lt, decide_eq_true_eq] at hpos
      simp only [FVal.NotNeg] at hn
      have : div64 (FVal.fin x) (FVal.fin y) = rnd64 (x / y) := by
        simp [div64, FVal.div, hpos.ne', rnd64]
      rw [this]
      exact toFloat_nonneg (roundTo_nonneg 53 (-1022) 1023 (div_nonneg hn hpos.le))
    | posInf => simp [FVal.IsFinite] at hs
    | negInf => simp [FVal.IsFinite] at hs
    | nan => simp [FVal.IsFinite] at hs
  | posInf => simp [FVal.IsFinite] at ha
  | negInf => simp [FVal.IsFinite] at ha
  | nan => simp [FVal.IsFinite] at ha

/-- When the sum of the clamped eigenvalues is a finite positive number, every
entry of the stored triple is a number that is not negative. -/
theorem normalizedEigenvalues_nonneg (ev : FPoint) (hfin : (eigenvalueSum ev).IsFinite)
    (hpos : FVal.lt 0 (eigenvalueSum ev) = true) :
    (normalizedEigenvalues ev).1.IsNonneg ∧ (normalizedEigenvalues ev).2.1.IsNonneg ∧
      (normalizedEigenvalues ev).2.2.IsNonneg := by
  have hf := hfin
  unfold eigenvalueSum at hf
  simp only [clampEigenvalues] at hf
  obtain ⟨h12, f3⟩ := add64_isFinite hf
  obtain ⟨f1, f2⟩ := add64_isFinite h12
  unfold normalizedEigenvalues
  simp only [clampEigenvalues]
  exact ⟨isFinite_notNeg_div _ _ f1 (maxZero_notNeg _) hfin hpos,
    isFinite_notNeg_div _ _ f2 (maxZero_notNeg _) hfin hpos,
    isFinite_notNeg_div _ _ f3 (maxZero_notNeg _) hfin hpos⟩

theorem twoPow_neg_1022 : twoPow (-1022) = 1 / 2 ^ 1022 := twoPow_neg_nat 1022

theorem twoPow_small (k : Int) (hk : k ≤ -53) : twoPow k ≤ 1 / 2 ^ 53 := by
  have h := twoPow_le_twoPow hk
  have h2 : twoPow (-53) = 1 / 2 ^ 53 := twoPow_neg_nat 53
  rw [h2] at h
  exact h

/-- A number in `[0, 2]` rounded to `double` and then to `float`: both results
are finite and not negative, with the errors of the two roundings. -/
theorem toFloat_rnd64_error {x : ℚ} (h0 : 0 ≤ x) (h2 : x ≤ 2) :
    ∃ q f, rnd64 x = FVal.fin q ∧ rnd32 q = FVal.fin f ∧ 0 ≤ q ∧ 0 ≤ f ∧
      |q - x| ≤ 1 / 2 ^ 53 * (x + twoPow (-1022)) ∧
      |f - q| ≤ 1 / 2 ^ 24 * (q + twoPow (-126)) := by
  have hx : |x| ≤ twoPow 1 := by
    rw [abs_of_nonneg h0, twoPow_one]
    exact h2
  obtain ⟨q, hq, hqb, hqp, _⟩ := rnd64_bound 1 (by norm_num) (by norm_num) hx
  have hq0 := hqp h0
  obtain ⟨f, hf, _, hfp, _⟩ := rnd32_bound 1 (by norm_num) (by norm_num) hqb
  have e1 := rnd64_error hq
  have e2 := rnd32_error hf
  rw [abs_of_nonneg h0] at e1
  rw [abs_of_nonneg hq0] at e2
  exact ⟨q, f, hq, hf, hq0, hfp hq0, e1, e2⟩

/-- When the `double` sum `S` of three numbers that are not negative is at
least `2^-1022`, the three quotients by `S`, computed in `double` and converted
to `float`, are finite, not negative, and sum to 1 within `2^-23`. -/
theorem normalized_near_one {c1 c2 c3 S : ℚ} (h1 : 0 ≤ c1) (h2 : 0 ≤ c2) (h3 : 0 ≤ c3)
    (hS : add64 (add64 (FVal.fin c1) (FVal.fin c2)) (FVal.fin c3) = FVal.fin S)
    (hn : 1 / 2 ^ 1022 ≤ S) :
    ∃ f1 f2 f3,
      (div64 (FVal.fin c1) (FVal.fin S)).toFloat = FVal.fin f1 ∧
      (div64 (FVal.fin c2) (FVal.fin S)).toFloat = FVal.fin f2 ∧
      (div64 (FVal.fin c3) (FVal.fin S)).toFloat = FVal.fin f3 ∧
      0 ≤ f1 ∧ 0 ≤ f2 ∧ 0 ≤ f3 ∧ |f1 + f2 + f3 - 1| ≤ 1 / 2 ^ 23 := by
  have hm := twoPow_pos (-1022)
  have hm2 := twoPow_small (-1022) (by norm_num)
  have hm3 := twoPow_pos (-126)
  have hm4 := twoPow_small (-126) (by norm_num)
  rw [← twoPow_neg_1022] at hn
  have hSpos : 0 < S := lt_of_lt_of_le hm hn
  have hfin : (add64 (FVal.fin c1) (FVal.fin c2)).IsFinite := by
    have h : (add64 (add64 (FVal.fin c1) (FVal.fin c2)) (FVal.fin c3)).IsFinite := by
      rw [hS]
      trivial
    exact (add64_isFinite h).1
  have h12 : add64 (FVal.fin c1) (FVal.fin c2) = rnd64 (c1 + c2) := rfl
  obtain ⟨s, hs⟩ : ∃ s, rnd64 (c1 + c2) = FVal.fin s := by
    rw [h12] at hfin
    cases hv : rnd64 (c1 + c2) with
    | fin s => exact ⟨s, rfl⟩
    | posInf => rw [hv] at hfin; exact hfin.elim
    | negInf => rw [hv] at hfin; exact hfin.elim
    | nan => rw [hv] at hfin; exact hfin.elim
  have hs0 : 0 ≤ s := by
    have h := roundTo_nonneg 53 (-1022) 1023 (add_nonneg h1 h2)
    have h4 : roundTo 53 (-1022) 1023 (c1 + c2) = FVal.fin s := hs
    rw [h4] at h
    exact h
  have hS2 : rnd64 (s + c3) = FVal.fin S := by
    rw [h12, hs] at hS
    exact hS
  have e1 := abs_le.1 (rnd64_error hs)
  rw [abs_of_nonneg (add_nonneg h1 h2)] at e1
  have e2 := abs_le.1 (rnd64_error_normal hS2 hn (add_nonneg hs0 h3))
  have hu : (1 : ℚ) / 2 ^ 53 = 1 / 9007199254740992 := by norm_num
  have hu2 : (1 : ℚ) / 2 ^ 52 = 1 / 4503599627370496 := by norm_num
  have hv : (1 : ℚ) / 2 ^ 24 = 1 / 16777216 := by norm_num
  have hv2 : (1 : ℚ) / 2 ^ 23 = 1 / 8388608 := by norm_num
  rw [hu] at e1 hm2 hm4
  rw [hu2] at e2
  have hc12 : c1 + c2 ≤ 2 * S := by linarith [e1.1, e1.2, e2.1, e2.2]
  have hT : |c1 + c2 + c3 - S| ≤ 5 / 9007199254740992 * S := by
    rw [abs_le]
    constructor <;> linarith [e1.1, e1.2, e2.1, e2.2]
  have hX : |c1 / S + c2 / S + c3 / S - 1| ≤ 5 / 9007199254740992 := by
    have e : c1 / S + c2 / S + c3 / S - 1 = (c1 + c2 + c3 - S) / S := by
      field_simp
    rw [e, abs_div, abs_of_pos hSpos, div_le_iff₀ hSpos]
    exact hT
  have hX2 := abs_le.1 hX
  have x1 : 0 ≤ c1 / S := div_nonneg h1 (le_of_lt hSpos)
  have x2 : 0 ≤ c2 / S := div_nonneg h2 (le_of_lt hSpos)
  have x3 : 0 ≤ c3 / S := div_nonneg h3 (le_of_lt hSpos)
  obtain ⟨q1, f1, hq1, hf1, q1n, f1n, a1, b1⟩ := toFloat_rnd64_error x1 (by linarith [hX2.2])
  obtain ⟨q2, f2, hq2, hf2, q2n, f2n, a2, b2⟩ := toFloat_rnd64_error x2 (by linarith [hX2.2])
  obtain ⟨q3, f3, hq3, hf3, q3n, f3n, a3, b3⟩ := toFloat_rnd64_error x3 (by linarith [hX2.2])
  have hne : S ≠ 0 := ne_of_gt hSpos
  have d1 : (div64 (FVal.fin c1) (FVal.fin S)).toFloat = FVal.fin f1 := by
    simp only [div64, FVal.div, hne, if_false, hq1, FVal.toFloat]
    exact hf1
  have d2 : (div64 (FVal.fin c2) (FVal.fin S)).toFloat = FVal.fin f2 := by
    simp only [div64, FVal.div, hne, if_false, hq2, FVal.toFloat]
    exact hf2
  have d3 : (div64 (FVal.fin c3) (FVal.fin S)).toFloat = FVal.fin f3 := by
    simp only [div64, FVal.div, hne, if_false, hq3, FVal.toFloat]
    exact hf3
  refine ⟨f1, f2, f3, d1, d2, d3, f1n, f2n, f3n, ?_⟩
  rw [hu] at a1 a2 a3
  rw [hv] at b1 b2 b3
  rw [hv2]
  have a1 := abs_le.1 a1
  have a2 := abs_le.1 a2
  have a3 := abs_le.1 a3
  have b1 := abs_le.1 b1
  have b2 := abs_le.1 b2
  have b3 := abs_le.1 b3
  rw [abs_le]
  constructor <;>
    linarith [a1.1, a1.2, a2.1, a2.2, a3.1, a3.2, b1.1, b1.2, b2.1, b2.2, b3.1, b3.2,
      hX2.1, hX2.2]

/-- When the sum of the clamped eigenvalues is a finite number at least
`2^-1022`, the stored entries are finite, not negative, and sum to 1 within
`2^-23`. -/
theorem normalizedEigenvalues_near_one (ev : FPoint) {S : ℚ}
    (hS : eigenvalueSum ev = FVal.fin S) (hn : 1 / 2 ^ 1022 ≤ S) :
    ∃ f1 f2 f3, normalizedEigenvalues ev = (FVal.fin f1, FVal.fin f2, FVal.fin f3) ∧
      0 ≤ f1 ∧ 0 ≤ f2 ∧ 0 ≤ f3 ∧ |f1 + f2 + f3 - 1| ≤ 1 / 2 ^ 23 := by
  have hfin : (eigenvalueSum ev).IsFinite := by
    rw [hS]
    trivial
  unfold eigenvalueSum at hfin hS
  simp only [clampEigenvalues] at hfin hS
  obtain ⟨h12, f3⟩ := add64_isFinite hfin
  obtain ⟨f1, f2⟩ := add64_isFinite h12
  have n1 := maxZero_notNeg ev.1
  have n2 := maxZero_notNeg ev.2.1
  have n3 := maxZero_notNeg ev.2.2
  cases hc1 : maxZero ev.1 with
  | fin c1 =>
    cases hc2 : maxZero ev.2.1 with
    | fin c2 =>
      cases hc3 : maxZero ev.2.2 with
      | fin c3 =>
        rw [hc1] at n1
        rw [hc2] at n2
        rw [hc3] at n3
        rw [hc1, hc2, hc3] at hS
        obtain ⟨g1, g2, g3, d1, d2, d3, p1, p2, p3, hsum⟩ := normalized_near_one n1 n2 n3 hS hn
        refine ⟨g1, g2, g3, ?_, p1, p2, p3, hsum⟩
        unfold normalizedEigenvalues eigenvalueSum
        simp only [clampEigenvalues, hc1, hc2, hc3, hS, d1, d2, d3]
      | posInf => rw [hc3] at f3; exact f3.elim
      | negInf => rw [hc3] at f3; exact f3.elim
      | nan => rw [hc3] at f3; exact f3.elim
    | posInf => rw [hc2] at f2; exact f2.elim
    | negInf => rw [hc2] at f2; exact f2.elim
    | nan => rw [hc2] at f2; exact f2.elim
  | posInf => rw [hc1] at f1; exact f1.elim
  | negInf => rw [hc1] at f1; exact f1.elim
  | nan => rw [hc1] at f1; exact f1.elim

/-- C9, amended. For every level with `id > 0` that `init` has set up and
every point `idx` of its reference set, `build` stores in `eigenValues[idx]`
the triple made from the solver eigenvalues `ev` of the neighbours of `idx`:
each clamped below at 0 and divided, in `double`, by the sum of the three
clamped values, then converted to `float`. When that sum is a finite positive
number, the three stored entries are numbers that are not negative. When that
sum is a finite number at least `2^-1022`, the least positive normal `double`,
the three stored entries are finite and their sum differs from 1 by at most
`2^-23`. When no eigenvalue is positive (as for a zero covariance matrix), the
three stored entries are not-a-number. -/
theorem build_stores_normalized_eigenvalues (ext : Externals) (s : ScaleState)
    (hid : 0 < s.id) (h : s.pSet.points ≠ [] ∨ s.scaledSet.points ≠ []) :
    ∃ s1, s.init = some s1 ∧
      ∀ idx < s1.pSet.count, ∃ ev stored,
        ev = (ext.eigenSolver
          (computeCovariance s1.scaledSet
            (ext.knnSearch s1.scaledSet (s1.pSet.pointAt idx) s1.kNeighbors)
            (promote (computeMedoid s1.scaledSet
              (ext.knnSearch s1.scaledSet (s1.pSet.pointAt idx) s1.kNeighbors))))).1 ∧
        (s1.build ext).eigenValues[idx]? = some stored ∧
        stored =
          ((div64 (maxZero ev.1) (eigenvalueSum ev)).toFloat,
           (div64 (maxZero ev.2.1) (eigenvalueSum ev)).toFloat,
           (div64 (maxZero ev.2.2) (eigenvalueSum ev)).toFloat) ∧
        ((eigenvalueSum ev).IsFinite → FVal.lt 0 (eigenvalueSum ev) = true →
          stored.1.IsNonneg ∧ stored.2.1.IsNonneg ∧ stored.2.2.IsNonneg) ∧
        (∀ S : ℚ, eigenvalueSum ev = FVal.fin S → 1 / 2 ^ 1022 ≤ S →
          ∃ f1 f2 f3, stored = (FVal.fin f1, FVal.fin f2, FVal.fin f3) ∧
            |f1 + f2 + f3 - 1| ≤ 1 / 2 ^ 23) ∧
        (FVal.lt 0 ev.1 = false → FVal.lt 0 ev.2.1 = false → FVal.lt 0 ev.2.2 = false →
          stored = (FVal.nan, FVal.nan, FVal.nan)) := by
  obtain ⟨s1, h0, _, _, l1, l4, l5, _⟩ := init_lengths s hid h
  refine ⟨s1, h0, ?_⟩
  intro idx hidx
  obtain ⟨i1, _, _, _⟩ := build_slots ext s1 idx hidx l1 l4 l5
  refine ⟨solverEigenvalues ext s1.toScale idx, _, rfl, i1, rfl,
    normalizedEigenvalues_nonneg _, ?_, normalizedEigenvalues_nan _⟩
  intro S hS hn
  obtain ⟨f1, f2, f3, e, _, _, _, hsum⟩ := normalizedEigenvalues_near_one _ hS hn
  exact ⟨f1, f2, f3, e, hsum⟩

/-- C9, counterexample. With the sample library answers, level 1 of the
pipeline over `lonePoint` has one point whose ten neighbour slots all hold that
point: the covariance matrix is zero, the eigenvalues are `(0, 0, 0)`, their
sum is 0, and the stored triple is `0 / 0` in every entry, not-a-number. Over
`starPoints` the covariance matrix of every point is `32/3` times the unit
matrix, the three eigenvalues are equal, and every stored entry is the `float`
nearest to `1/3`, `11184811 / 2^25`: the three stored entries sum to
`1 + 2^-25`, not to 1. -/
theorem stored_eigenvalues_not_summing_to_one :
    (computeScales sampleExternals 1 lonePoint 4 (3 / 4)).map
        (fun scales => scales.map (fun s => s.id)) = some [1] ∧
    (computeScales sampleExternals 1 lonePoint 4 (3 / 4)).map
        (fun scales => scales.map (fun s => s.eigenValues)) =
      some [[(FVal.nan, FVal.nan, FVal.nan)]] ∧
    solverEigenvalues sampleExternals
      ⟨1, ⟨[(1, 2, 3)], [(255, 0, 0)], []⟩, ⟨[(1, 2, 3)], [(255, 0, 0)], []⟩, 4, 10, 3 / 4⟩ 0
      = (0, 0, 0) ∧
    (∀ p ∈ starPoints.points, IsFloatPoint p) ∧
    (computeScales sampleExternals 1 starPoints 1 (3 / 4)).map
        (fun scales => scales.map (fun s => s.id)) = some [1] ∧
    (computeScales sampleExternals 1 starPoints 1 (3 / 4)).map
        (fun scales => scales.map (fun s => s.eigenValues[3]?)) =
      some [some (FVal.fin (11184811 / 2 ^ 25), FVal.fin (11184811 / 2 ^ 25),
        FVal.fin (11184811 / 2 ^ 25))] ∧
    (11184811 / 2 ^ 25 + 11184811 / 2 ^ 25 + 11184811 / 2 ^ 25 : ℚ) = 1 + 1 / 2 ^ 25 := by
  refine ⟨by decide!, by decide!, by decide!, by decide!, by decide!, by decide!, by decide!⟩

/-- C9, amended, at the level 1 over `starPoints` at resolution 1, with the
sample library answers. -/
theorem build_stores_normalized_eigenvalues_witness :
    0 < (Scale.new 1 starPoints 1 10 (3 / 4)).id ∧
    ((Scale.new 1 starPoints 1 10 (3 / 4)).pSet.points ≠ [] ∨
      (Scale.new 1 starPoints 1 10 (3 / 4)).scaledSet.points ≠ []) ∧
    ∃ s1, (Scale.new 1 starPoints 1 10 (3 / 4)).init = some s1 ∧
      ∀ idx < s1.pSet.count, ∃ ev stored,
        ev = (sampleExternals.eigenSolver
          (computeCovariance s1.scaledSet
            (sampleExternals.knnSearch s1.scaledSet (s1.pSet.pointAt idx) s1.kNeighbors)
            (promote (computeMedoid s1.scaledSet
              (sampleExternals.knnSearch s1.scaledSet (s1.pSet.pointAt idx)
                s1.kNeighbors))))).1 ∧
        (s1.build sampleExternals).eigenValues[idx]? = some stored ∧
        stored =
          ((div64 (maxZero ev.1) (eigenvalueSum ev)).toFloat,
           (div64 (maxZero ev.2.1) (eigenvalueSum ev)).toFloat,
           (div64 (maxZero ev.2.2) (eigenvalueSum ev)).toFloat) ∧
        ((eigenvalueSum ev).IsFinite → FVal.lt 0 (eigenvalueSum ev) = true →
          stored.1.IsNonneg ∧ stored.2.1.IsNonneg ∧ stored.2.2.IsNonneg) ∧
        (∀ S : ℚ, eigenvalueSum ev = FVal.fin S → 1 / 2 ^ 1022 ≤ S →
          ∃ f1 f2 f3, stored = (FVal.fin f1, FVal.fin f2, FVal.fin f3) ∧
            |f1 + f2 + f3 - 1| ≤ 1 / 2 ^ 23) ∧
        (FVal.lt 0 ev.1 = false → FVal.lt 0 ev.2.1 = false → FVal.lt 0 ev.2.2 = false →
          stored = (FVal.nan, FVal.nan, FVal.nan)) :=
  ⟨by decide, Or.inl (by decide),
    build_stores_normalized_eigenvalues sampleExternals (Scale.new 1 starPoints 1 10 (3 / 4))
      (by decide) (Or.inl (by decide))⟩

/-! ## Coincident points -/

/-- Two entries of a map in ascending key order that have the same key are one entry. -/
theorem entry_eq_of_key_eq (m : List (VoxelKey × List Nat)) (hm : KeysAscending m)
    (t u : VoxelKey × List Nat) (ht : t ∈ m) (hu : u ∈ m) (h : t.1 = u.1) : t = u := by
  induction m with
  | nil => cases ht
  | cons a rest ih =>
    unfold KeysAscending at hm ih
    rw [List.pairwise_cons] at hm
    rcases List.mem_cons.1 ht with e1 | h1 <;> rcases List.mem_cons.1 hu with e2 | h2
    · rw [e1, e2]
    · have := hm.1 u h2
      rw [← e1, h] at this
      exact absurd this (keyLt_irrefl _)
    · have := hm.1 t h1
      rw [← e2, ← h] at this
      exact absurd this (keyLt_irrefl _)
    · exact ih hm.2 h1 h2

/-- An id lies in one entry of the map only. -/
theorem voxels_entry_unique (s : Scale) (t u : VoxelKey × List Nat) (ht : t ∈ s.voxels)
    (hu : u ∈ s.voxels) (x : Nat) (hxt : x ∈ t.2) (hxu : x ∈ u.2) : t = u :=
  entry_eq_of_key_eq s.voxels (voxels_spec s).1 t u ht hu
    ((voxels_member s t ht x hxt).2.symm.trans (voxels_member s u hu x hxu).2)

/-- Two source points with the same coordinates lie in one entry of the map. -/
theorem voxels_coincident (s : Scale) (i j : Nat) (hi : i < s.pSet.count)
    (hj : j < s.pSet.count) (hsame : s.pSet.pointAt i = s.pSet.pointAt j) :
    ∃ t ∈ s.voxels, i ∈ t.2 ∧ j ∈ t.2 := by
  obtain ⟨_, h2, h3, _⟩ := voxels_spec s
  obtain ⟨t, ht, hk⟩ := h3 i hi
  refine ⟨t, ht, ?_, ?_⟩
  · rw [(h2 t ht).1, List.mem_filter]
    exact ⟨List.mem_range.2 hi, by simpa using hk.symm⟩
  · rw [(h2 t ht).1, List.mem_filter]
    refine ⟨List.mem_range.2 hj, ?_⟩
    rw [← hsame]
    simpa using hk.symm

/-- When every representative is taken from its own entry, the representatives
are pairwise different source indices, and of two source points with the same
coordinates at most one is a representative. -/
theorem representatives_nodup (s : Scale) (hkeeps : s.KeepsMembers) (i j : Nat)
    (hij : i ≠ j) (hi : i < s.pSet.count) (hj : j < s.pSet.count)
    (hsame : s.pSet.pointAt i = s.pSet.pointAt j) :
    (s.voxels.map s.repOf).Nodup ∧
      (i ∉ s.voxels.map s.repOf ∨ j ∉ s.voxels.map s.repOf) := by
  have hmem : ∀ t ∈ s.voxels, s.repOf t ∈ t.2 :=
    fun t ht => (repOf_spec s t ht (hkeeps t ht)).1
  constructor
  · apply List.Nodup.map_on
    · intro t ht u hu e
      exact voxels_entry_unique s t u ht hu (s.repOf t) (hmem t ht) (by rw [e]; exact hmem u hu)
    · exact List.Nodup.of_map _ (voxels_keys_nodup s)
  · obtain ⟨t, ht, hit, hjt⟩ := voxels_coincident s i j hi hj hsame
    by_contra hc
    simp only [not_or, not_not] at hc
    obtain ⟨⟨a, ha, ea⟩, ⟨b, hb, eb⟩⟩ := And.intro (List.mem_map.1 hc.1) (List.mem_map.1 hc.2)
    have h1 : a = t := voxels_entry_unique s a t ha ht i (by rw [← ea]; exact hmem a ha) hit
    have h2 : b = t := voxels_entry_unique s b t hb ht j (by rw [← eb]; exact hmem b hb) hjt
    rw [h1] at ea
    rw [h2] at eb
    exact hij (ea.symm.trans eb)

/-- C14, amended. For a cloud that holds two coincident points `i` and `j`
with different colours, and at least one level: both points lie in one voxel
group of the base downsampling; the base's `scaledSet` holds the points and
colours of one source point per group, the representatives `reps`; when every
group keeps one of its own members (`KeepsMembers`), the representatives are
pairwise different and at most one of `i` and `j` is among them. Level 1 has
the base's `scaledSet` as reference set and as `scaledSet`, and one `avgHsv`
entry per point of it: the sum, in `float`, of the HSV conversions of the
colours of those points of the base's `scaledSet` that the radius query
returns, divided by their number when there is one. The colour of a point that
the downsampling dropped enters no average. -/
theorem computeScales_coincident_pair (ext : Externals) (numScales : Nat) (pSet : PointSet)
    (startResolution radius : ℚ) (hnum : 1 ≤ numScales) (i j : Nat) (hij : i ≠ j)
    (hi : i < pSet.count) (hj : j < pSet.count) (hsame : pSet.pointAt i = pSet.pointAt j)
    (_hcolour : pSet.colorAt i ≠ pSet.colorAt j) :
    ∃ base scales first reps,
      baseScale pSet startResolution radius = some base ∧
      computeScales ext numScales pSet startResolution radius = some scales ∧
      scales[0]? = some first ∧ first.id = 1 ∧
      (∃ t ∈ (Scale.new 0 pSet (startResolution * 2 ^ 0) 10 radius).voxels, i ∈ t.2 ∧ j ∈ t.2) ∧
      reps = (Scale.new 0 pSet (startResolution * 2 ^ 0) 10 radius).voxels.map
        (Scale.new 0 pSet (startResolution * 2 ^ 0) 10 radius).repOf ∧
      base.scaledSet.points = reps.map pSet.pointAt ∧
      base.scaledSet.colors = reps.map pSet.colorAt ∧
      ((Scale.new 0 pSet (startResolution * 2 ^ 0) 10 radius).KeepsMembers →
        reps.Nodup ∧ (i ∉ reps ∨ j ∉ reps)) ∧
      first.pSet = base.scaledSet ∧ first.scaledSet = base.scaledSet ∧
      first.avgHsv.length = reps.length ∧
      ∀ idx < reps.length, ∃ found sum,
        found = ext.radiusSearch base.scaledSet (base.scaledSet.pointAt idx)
          (FVal.fin radius).toFloat ∧
        sum = found.foldl
          (fun acc n =>
            (add32 acc.1 (ext.rgb2hsv (base.scaledSet.colorAt n)).1,
             add32 acc.2.1 (ext.rgb2hsv (base.scaledSet.colorAt n)).2.1,
             add32 acc.2.2 (ext.rgb2hsv (base.scaledSet.colorAt n)).2.2)) (0, 0, 0) ∧
        first.avgHsv[idx]? = some
          (if 0 < found.length then
            (div32 sum.1 (floatOfSize found.length),
             div32 sum.2.1 (floatOfSize found.length),
             div32 sum.2.2 (floatOfSize found.length))
          else sum) := by
  have hne : pSet.points ≠ [] := by
    intro e
    unfold PointSet.count at hi
    rw [e] at hi
    exact absurd hi (by simp)
  obtain ⟨base, scales, hb, hs, hlen, hidx⟩ :=
    computeScales_run ext numScales pSet startResolution radius hne hnum
  obtain ⟨base', hb', hc, _, _⟩ := baseScale_some pSet startResolution radius hne
  rw [hb] at hb'
  injection hb' with e
  subst e
  have hs0 : (Scale.new 0 pSet (startResolution * 2 ^ 0) 10 radius).toScale =
      ⟨0, pSet, PointSet.empty, startResolution * 2 ^ 0, 10, radius⟩ := rfl
  rw [computeScaledSet_eq ⟨0, pSet, PointSet.empty, startResolution * 2 ^ 0, 10, radius⟩ hne rfl]
    at hc
  injection hc with hc
  have hbs : base.scaledSet =
      { points := (Scale.new 0 pSet (startResolution * 2 ^ 0) 10 radius).voxels.map
          (fun t => pSet.pointAt ((Scale.new 0 pSet (startResolution * 2 ^ 0) 10 radius).repOf t)),
        colors := (Scale.new 0 pSet (startResolution * 2 ^ 0) 10 radius).voxels.map
          (fun t => pSet.colorAt ((Scale.new 0 pSet (startResolution * 2 ^ 0) 10 radius).repOf t)),
        pointMap := PointSet.empty.pointMap ++
          (if (0 : Nat) = 0 then
            trackLog 0 (Scale.new 0 pSet (startResolution * 2 ^ 0) 10 radius).voxels
          else []) } := by
    have : base.toScale.scaledSet = _ := congrArg Scale.scaledSet hc.symm
    exact this
  have h0 : 0 < scales.length := by omega
  obtain ⟨x1, hx, a0, a1, _, _, a4, a5, l1, _, _, l4, l5, a6⟩ :=
    hidx 0 _ (List.getElem?_eq_getElem h0)
  have hts : (x1.build ext).toScale = x1.toScale := (build_fields ext x1).1
  have e1 : (x1.build ext).scaledSet = x1.scaledSet := congrArg Scale.scaledSet hts
  have e2 : (x1.build ext).pSet = x1.pSet := congrArg Scale.pSet hts
  have e3 : (x1.build ext).id = x1.id := congrArg Scale.id hts
  have hcount : base.scaledSet.count =
      ((Scale.new 0 pSet (startResolution * 2 ^ 0) 10 radius).voxels.map
        (Scale.new 0 pSet (startResolution * 2 ^ 0) 10 radius).repOf).length := by
    unfold PointSet.count
    rw [hbs]
    simp
  have havg : x1.avgHsv.length = x1.pSet.count := by
    rw [a6, a1]
    simp
  refine ⟨base, scales, scales[0], _, hb, hs, List.getElem?_eq_getElem h0, ?_, ?_, rfl, ?_, ?_,
    ?_, ?_, ?_, ?_, ?_⟩
  · rw [hx, e3]; exact a0
  · exact voxels_coincident _ i j hi hj hsame
  · rw [hbs, List.map_map]; rfl
  · rw [hbs, List.map_map]; rfl
  · intro hkeeps
    exact representatives_nodup _ hkeeps i j hij hi hj hsame
  · rw [hx, e2]; exact a1
  · rw [hx, e1]; exact a5 rfl
  · rw [hx, (build_fields ext x1).2.2.2.2.2.2, havg, a1]
    exact hcount
  · intro idx hidx'
    have hidx1 : idx < x1.pSet.count := by rw [a1, hcount]; exact hidx'
    obtain ⟨_, _, _, i6⟩ := build_slots ext x1 idx hidx1 (by rw [l1, a1]) (by rw [l4, a1])
      (by rw [l5, a1])
    rw [hx, i6 a0 havg]
    have r1 : x1.scaledSet = base.scaledSet := a5 rfl
    have r2 : radiusMatchesOf ext x1.toScale idx =
        ext.radiusSearch base.scaledSet (base.scaledSet.pointAt idx) (FVal.fin radius).toFloat := by
      show ext.radiusSearch x1.scaledSet (x1.pSet.pointAt idx) (FVal.fin x1.radius).toFloat = _
      rw [r1, a1, a4]
    rw [r1, r2]
    exact ⟨_, _, rfl, rfl, rfl⟩

/-- C14, amended, at `trioPoints`, the origin and two coincident points, with
one level and the sample library answers: the three points form one voxel
group, the point kept is the first of the coincident pair, red, and the single
`avgHsv` entry of level 1 is the conversion of red. -/
theorem computeScales_coincident_pair_witness :
    1 ≤ 1 ∧ 1 ≠ 2 ∧ 1 < trioPoints.count ∧ 2 < trioPoints.count ∧
    trioPoints.pointAt 1 = trioPoints.pointAt 2 ∧
    trioPoints.colorAt 1 ≠ trioPoints.colorAt 2 ∧
    (∃ base scales first reps,
      baseScale trioPoints 4 (3 / 4) = some base ∧
      computeScales sampleExternals 1 trioPoints 4 (3 / 4) = some scales ∧
      scales[0]? = some first ∧ first.id = 1 ∧
      (∃ t ∈ (Scale.new 0 trioPoints (4 * 2 ^ 0) 10 (3 / 4)).voxels, 1 ∈ t.2 ∧ 2 ∈ t.2) ∧
      reps = (Scale.new 0 trioPoints (4 * 2 ^ 0) 10 (3 / 4)).voxels.map
        (Scale.new 0 trioPoints (4 * 2 ^ 0) 10 (3 / 4)).repOf ∧
      base.scaledSet.points = reps.map trioPoints.pointAt ∧
      base.scaledSet.colors = reps.map trioPoints.colorAt ∧
      ((Scale.new 0 trioPoints (4 * 2 ^ 0) 10 (3 / 4)).KeepsMembers →
        reps.Nodup ∧ (1 ∉ reps ∨ 2 ∉ reps)) ∧
      first.pSet = base.scaledSet ∧ first.scaledSet = base.scaledSet ∧
      first.avgHsv.length = reps.length ∧
      ∀ idx < reps.length, ∃ found sum,
        found = sampleExternals.radiusSearch base.scaledSet (base.scaledSet.pointAt idx)
          (FVal.fin (3 / 4)).toFloat ∧
        sum = found.foldl
          (fun acc n =>
            (add32 acc.1 (sampleExternals.rgb2hsv (base.scaledSet.colorAt n)).1,
             add32 acc.2.1 (sampleExternals.rgb2hsv (base.scaledSet.colorAt n)).2.1,
             add32 acc.2.2 (sampleExternals.rgb2hsv (base.scaledSet.colorAt n)).2.2))
          (0, 0, 0) ∧
        first.avgHsv[idx]? = some
          (if 0 < found.length then
            (div32 sum.1 (floatOfSize found.length),
             div32 sum.2.1 (floatOfSize found.length),
             div32 sum.2.2 (floatOfSize found.length))
          else sum)) ∧
    (Scale.new 0 trioPoints (4 * 2 ^ 0) 10 (3 / 4)).KeepsMembers ∧
    (Scale.new 0 trioPoints (4 * 2 ^ 0) 10 (3 / 4)).voxels = [((0, 0, 0), [0, 1, 2])] ∧
    (Scale.new 0 trioPoints (4 * 2 ^ 0) 10 (3 / 4)).voxels.map
      (Scale.new 0 trioPoints (4 * 2 ^ 0) 10 (3 / 4)).repOf = [1] ∧
    (computeScales sampleExternals 1 trioPoints 4 (3 / 4)).map
        (fun scales => scales.map (fun s => s.avgHsv)) = some [[(0, 1, 255)]] ∧
    hexconeHsv (255, 0, 0) = (0, 1, 255) :=
  ⟨by decide, by decide, by decide, by decide, by decide!, by decide,
    computeScales_coincident_pair sampleExternals 1 trioPoints 4 (3 / 4) (by decide) 1 2
      (by decide) (by decide) (by decide) (by decide!) (by decide),
    by decide!, by decide!, by decide!, by decide!, by decide!⟩

/-- C14, counterexample. For `twinPoints`, two coincident points, the first red
and the second blue, the pipeline with one level gives level 1 a single point
whose `avgHsv` is the conversion of blue, `(240, 1, 255)`; the per-channel mean
of the conversions of red and blue is `(120, 1, 255)`. For `spreadPoints`, a
green point and a coincident red and blue pair half a unit away, at resolution
`1/4`, level 1 has the green and the blue point, each found by the radius
query of the other: both `avgHsv` entries are the mean `(180, 1, 255)` of the
conversions of green and blue, and red enters neither. -/
theorem avgHsv_coincident_pair_one_colour :
    (computeScales sampleExternals 1 twinPoints 4 (3 / 4)).map
        (fun scales => scales.map (fun s => s.id)) = some [1] ∧
    (computeScales sampleExternals 1 twinPoints 4 (3 / 4)).map
        (fun scales => scales.map (fun s => s.pSet.points)) = some [[(1, 2, 3)]] ∧
    (computeScales sampleExternals 1 twinPoints 4 (3 / 4)).map
        (fun scales => scales.map (fun s => s.avgHsv)) = some [[(240, 1, 255)]] ∧
    hexconeHsv (255, 0, 0) = (0, 1, 255) ∧ hexconeHsv (0, 0, 255) = (240, 1, 255) ∧
    (div32 (add32 (hexconeHsv (255, 0, 0)).1 (hexconeHsv (0, 0, 255)).1) 2,
     div32 (add32 (hexconeHsv (255, 0, 0)).2.1 (hexconeHsv (0, 0, 255)).2.1) 2,
     div32 (add32 (hexconeHsv (255, 0, 0)).2.2 (hexconeHsv (0, 0, 255)).2.2) 2) =
      ((120, 1, 255) : FPoint) ∧
    ((240, 1, 255) : FPoint) ≠ (120, 1, 255) ∧
    (computeScales sampleExternals 1 spreadPoints (1 / 4) (3 / 4)).map
        (fun scales => scales.map (fun s => s.pSet.points)) =
      some [[(0, 0, 0), (1 / 2, 0, 0)]] ∧
    (computeScales sampleExternals 1 spreadPoints (1 / 4) (3 / 4)).map
        (fun scales => scales.map (fun s => s.pSet.colors)) =
      some [[(0, 255, 0), (0, 0, 255)]] ∧
    (computeScales sampleExternals 1 spreadPoints (1 / 4) (3 / 4)).map
        (fun scales => scales.map (fun s => s.avgHsv)) =
      some [[(180, 1, 255), (180, 1, 255)]] ∧
    hexconeHsv (0, 255, 0) = (120, 1, 255) := by
  refine ⟨by decide!, by decide!, by decide!, by decide!, by decide!, by decide!,
    by decide!, by decide!, by decide!, by decide!, by decide!⟩

end OpenPointClass
